import Mathlib

/-!
# Forward allocation pass (poplar plugin)

A shallow embedding of
`tensorflow/compiler/plugin/poplar/driver/passes/forward_allocation.cc`.

Instructions are identified by natural numbers (pointer identity of
`HloInstruction*`).  Hash sets and hash maps are lists, read in their
iteration order.  The state the pass mutates is made explicit: the
control-dependency edges of the module, the reachability map of the
computation at hand, and the three annotation tables
(`tensor_allocation_map`, `tensors_with_layout`, `deferred_allocations`).
-/

namespace ForwardAllocation

/-- Identity of an `HloInstruction*`. -/
abbrev InstId := Nat

/-- Identity of an `HloComputation*`. -/
abbrev CompId := Nat

/-- A directed edge `(a, b)`: `a` has to be executed before `b`. -/
abbrev Edge := InstId × InstId

/-- The key type `TensorSource` of the allocation map: `(instruction, tuple index)`. -/
abbrev TensorSource := InstId × Nat

/-- The C++ `DeferredAllocationsPath`: a vector of `(instruction, flat tuple index)`. -/
abbrev DeferredAllocationsPath := List (InstId × Nat)

/-! ## Association lists standing for `flat_hash_map` / `std::map` -/

/-- The C++ `m.find(k)`: the value stored under `k`, if any. -/
def mapFind {κ ν : Type} [DecidableEq κ] : List (κ × ν) → κ → Option ν
  | [], _ => none
  | (k1, v1) :: rest, k => if k1 = k then some v1 else mapFind rest k

/-- The C++ `m[k] = v`: overwrite the value under `k`, or add the key. -/
def mapAssign {κ ν : Type} [DecidableEq κ] : List (κ × ν) → κ → ν → List (κ × ν)
  | [], k, v => [(k, v)]
  | (k1, v1) :: rest, k, v =>
    if k1 = k then (k, v) :: rest else (k1, v1) :: mapAssign rest k v

/-- The C++ `set.insert(x)`: no effect when `x` is already an element. -/
def setInsert {κ : Type} [DecidableEq κ] (s : List κ) (x : κ) : List κ :=
  if x ∈ s then s else s ++ [x]

/-! ## The graph and its reachability oracle -/

/-- One round of breadth-first expansion: the nodes seen so far plus the
heads of all edges that leave a seen node. -/
def expand (edges : List Edge) (seen : List InstId) : List InstId :=
  seen ++ (edges.filter (fun e => decide (e.1 ∈ seen))).map Prod.snd

/-- The nodes reachable from `a` along `edges` (reflexive, transitive). -/
def reachableFrom (edges : List Edge) (a : InstId) : List InstId :=
  (expand edges)^[edges.length] [a]

/-- Is `b` reachable from `a` along `edges`? -/
def pathExists (edges : List Edge) (a b : InstId) : Bool :=
  decide (b ∈ reachableFrom edges a)

/-- Modelled from the spec: `HloReachabilityMap` (hlo_reachability.h is not
among the sources).  Section 4.2: a transitive-reachability answer service
over the graph of one computation.  `data` are the operand edges
`(operand, user)` of that computation, which the pass never changes;
`answers a b` is the current answer to `IsReachable(a, b)`. -/
structure HloReachabilityMap where
  data : List Edge
  answers : InstId → InstId → Bool

/-- Modelled from the spec: `reachable(a, b)` is true if `b` is reachable
from `a` by directed edges (section 4.1). -/
def HloReachabilityMap.IsReachable (r : HloReachabilityMap) (a b : InstId) : Bool :=
  r.answers a b

/-- All edges of the graph the oracle speaks about: operand edges and
control edges. -/
def allEdges (r : HloReachabilityMap) (control : List Edge) : List Edge :=
  r.data ++ control

/-- Modelled from the spec: `UpdateReachabilityThroughInstruction`
(`updateAfterEdgeChange(node)`, section 4.2) refreshes the reachability
information after an edge mutation at `node`; afterwards the answers are
those of the live edge set. -/
def HloReachabilityMap.UpdateReachabilityThroughInstruction
    (r : HloReachabilityMap) (control : List Edge) (_node : InstId) : HloReachabilityMap :=
  { r with answers := fun a b => pathExists (allEdges r control) a b }

/-- Modelled from the spec: `HloReachabilityMap::Build` for a computation
with operand edges `data`, under the control edges `control`. -/
def HloReachabilityMap.Build (data control : List Edge) : HloReachabilityMap :=
  { data := data, answers := fun a b => pathExists (data ++ control) a b }

/-- Modelled from the spec: `a->AddControlDependencyTo(b)` adds the
ordering edge `a → b` (no effect when it is already there). -/
def AddControlDependencyTo (control : List Edge) (a b : InstId) : List Edge :=
  setInsert control (a, b)

/-- Modelled from the spec: `a->RemoveControlDependencyTo(b)` removes the
ordering edge `a → b`; when there is no such edge the call reports an error
status, which the pass ignores, and nothing changes. -/
def RemoveControlDependencyTo (control : List Edge) (a b : InstId) : List Edge :=
  control.erase (a, b)

/-! ## Annotations -/

/-- Modelled from the spec: the `TensorTarget` record (section 3), in the
order of the constructor call in `CreateForwardAllocationTarget`. -/
structure TensorTarget where
  tgt : InstId
  input_index : Nat
  layout : InstId
  layout_output_idx : Nat
  forward_path : List InstId
  backward_path : List InstId
  deferred_allocations_path : DeferredAllocationsPath
  deriving DecidableEq, Repr

/-- The mutable state of the pass: the control edges of the module and the
three tables of `CompilerAnnotations` the pass holds by reference. -/
structure PassState where
  control : List Edge
  tensor_allocation_map : List (TensorSource × TensorTarget)
  tensors_with_layout : List TensorSource
  deferred_allocations : List (CompId × List ((InstId × Nat) × TensorSource))
  deriving DecidableEq, Repr

/-! ## Instructions, computations, module -/

/-- The XLA `PrimitiveType` enumeration. -/
inductive PrimitiveType
  | PRIMITIVE_TYPE_INVALID | PRED | S8 | S16 | S32 | S64 | U8 | U16 | U32 | U64
  | F16 | F32 | BF16 | F64 | C64 | C128 | TUPLE | OPAQUE_TYPE | TOKEN
  deriving DecidableEq, Repr

/-- An XLA `Shape`: an array of some element type, or a tuple of shapes. -/
inductive Shape
  | array (element_type : PrimitiveType) (dimensions : List Nat)
  | tuple (tuple_shapes : List Shape)

/-- `Shape::IsTuple`. -/
def Shape.IsTuple : Shape → Bool
  | .tuple _ => true
  | .array _ _ => false

/-- `Shape::element_type`; a tuple shape has element type `TUPLE`. -/
def Shape.element_type : Shape → PrimitiveType
  | .array t _ => t
  | .tuple _ => PrimitiveType.TUPLE

/-- The opcodes the pass distinguishes; every other opcode is `kOther`. -/
inductive HloOpcode
  | kConstant | kParameter | kInfeed | kGetTupleElement | kConvert | kReshape
  | kTranspose | kBatchNormInference | kBatchNormTraining | kCustomCall
  | kOther (code : Nat)
  deriving DecidableEq, Repr

/-- An `HloSharding`, as far as the pass looks at it: whether it is a tuple
sharding, and the device assignment it stands for. -/
structure HloSharding where
  IsTuple : Bool
  assignment : List Nat
  deriving DecidableEq, Repr

/-- What the pass reads of an `HloInstruction`. -/
structure HloInstruction where
  opcode : HloOpcode
  shape : Shape
  operands : List InstId
  users : List InstId
  tuple_index : Nat
  sharding : Option HloSharding
  parent : CompId

/-- What the pass reads of an `HloComputation`: `instructions` is
`MakeInstructionPostOrder()`. -/
structure HloComputation where
  instructions : List InstId
  root_instruction : InstId

/-- An `HloModule`: the instructions behind the identities, and the
computations in the order of `module->computations()`. -/
structure HloModule where
  inst : InstId → HloInstruction
  computations : List HloComputation

/-- Modelled from the spec: the instruction graph view
`MetaGraph<HloInstruction*>(root, get_operands)` of section 4.1 (meta_graph.h
is not among the sources): its vertices, and the two queries
`consumersOf(node, continuePredicate, includeSelf)` and `shortestPath` the
pass makes of it. -/
structure MetaGraph where
  vertices : List InstId
  FindConsumers : InstId → (InstId → Bool) → Bool → List InstId
  ShortestPath : InstId → InstId → Option (List InstId)

/-- Modelled from the spec: `verticesMatching(predicate)`, all nodes of the
graph that satisfy the predicate (section 4.1). -/
def MetaGraph.FindVertices (g : MetaGraph) (pred : InstId → Bool) : List InstId :=
  g.vertices.filter pred

/-- The external collaborators of section 6, none of which is among the
sources: the classification predicates, the index-flattening utility, the
sharding sub-selection, the in-place test, the declared layout dependencies
of a custom op, the layout-bearing nodes of a record, and the graph view of a
computation. -/
structure Collaborators where
  IsPopOpsElementwise : InstId → Bool
  IsPopOpsElementwiseBinary : InstId → Bool
  IsPopOpsBiasAdd : InstId → Bool
  IsNormInferenceOrTraining : InstId → Bool
  IsPoplibsHloCustomOp : InstId → Bool
  IsPopOpsFusion : HloComputation → Bool
  LayoutDependencies : InstId → List (Nat × Nat)
  IsUsedInplace : InstId → Bool
  InsertIntoTuple : Shape → Nat → Nat → Nat
  GetSubSharding : HloSharding → Shape → Nat → HloSharding
  GetAllLayoutsInPath : TensorSource → TensorTarget → List TensorSource
  graph : HloComputation → MetaGraph

/-- The ways the pass can stop with a fatal error instead of a result: a
failed `CHECK`, `operand_index` of an instruction that is no operand, an
access past the end of a vector, and (in this embedding only) the recursion
budget of `FlattenInputs` running out. -/
inductive Fatal
  | check_failed | operand_not_found | out_of_range | out_of_fuel
  deriving DecidableEq, Repr


/-! ## Target finder and path validator -/

/-- `reduce`: the elements of `values` that satisfy `pred`. -/
def reduce (values : List InstId) (pred : InstId → Bool) : List InstId :=
  values.filter pred

/-- `reduce_to_one`: the element of `values` satisfying `pred`, when there is
exactly one. -/
def reduce_to_one (values : List InstId) (pred : InstId → Bool) : Option InstId :=
  match reduce values pred with
  | [x] => some x
  | _ => none

/-- `is_independent`: no other possible dependency reaches `inst`. -/
def is_independent (inst : InstId) (possible_dependencies : List InstId)
    (reachability_map : HloReachabilityMap) : Bool :=
  possible_dependencies.all
    (fun dep => !(decide (dep ≠ inst) && reachability_map.IsReachable dep inst))

/-- `find_all_targets` (lines 77-115). -/
def find_all_targets (c : Collaborators) (values : List InstId)
    (reachability_map : HloReachabilityMap) (pred : InstId → Bool) : Option (List InstId) :=
  let insts := reduce values pred
  let has_dependency :=
    insts.filter (fun this_inst => !is_independent this_inst insts reachability_map)
  let insts1 := insts.filter (fun i => decide (i ∉ has_dependency))
  if insts1.length = 0 then
    none
  else
    let biases := reduce insts1 c.IsPopOpsBiasAdd
    let norms := reduce insts1 c.IsNormInferenceOrTraining
    some (biases ++ norms ++
      insts1.filter (fun i => decide (biases.count i = 0) && decide (norms.count i = 0)))

/-- `output_and_all_operands_same_type`. -/
def output_and_all_operands_same_type (m : HloModule) (inst : InstId) : Bool :=
  (m.inst inst).operands.all
    (fun operand => decide ((m.inst inst).shape.element_type = (m.inst operand).shape.element_type))

/-- Modelled from the spec: `MetaGraph::IsPathOk` (meta_graph.h is not among
the sources), from position `idx` on.  A path is acceptable when every node
of it is (section 4.4); the predicate is asked for every node together with
its position and the length of the whole path. -/
def IsPathOkFrom (pred : InstId → Nat → Nat → Bool) (path_size : Nat) :
    Nat → List InstId → Bool
  | _, [] => true
  | idx, inst :: rest => pred inst idx path_size && IsPathOkFrom pred path_size (idx + 1) rest

/-- Modelled from the spec: `MetaGraph::IsPathOk(path, pred)`, every node of
the path satisfies the predicate. -/
def IsPathOk (path : List InstId) (pred : InstId → Nat → Nat → Bool) : Bool :=
  IsPathOkFrom pred path.length 0 path

/-- The lambda `is_node_ok_on_path` of `IsPrefixPathOk`. -/
def prefixNodeOk (c : Collaborators) (m : HloModule) (inst : InstId) (_idx _size : Nat) : Bool :=
  if c.IsPopOpsElementwise inst then
    if (m.inst inst).opcode = HloOpcode.kConvert then true
    else output_and_all_operands_same_type m inst
  else
    match (m.inst inst).opcode with
    | HloOpcode.kReshape => output_and_all_operands_same_type m inst
    | HloOpcode.kTranspose => output_and_all_operands_same_type m inst
    | _ => false

/-- `IsPrefixPathOk` (lines 129-150). -/
def IsPrefixPathOk (c : Collaborators) (m : HloModule) (path : List InstId) : Bool :=
  IsPathOk path (prefixNodeOk c m)

/-- The lambda `is_node_ok_on_path` of `IsSuffixPathOk`. -/
def suffixNodeOk (c : Collaborators) (m : HloModule) (inst : InstId)
    (path_idx path_size : Nat) : Bool :=
  if c.IsPopOpsElementwise inst then
    if (m.inst inst).opcode = HloOpcode.kConvert then true
    else output_and_all_operands_same_type m inst
  else
    match (m.inst inst).opcode with
    | HloOpcode.kGetTupleElement => decide (path_idx = path_size - 1)
    | HloOpcode.kReshape => output_and_all_operands_same_type m inst
    | HloOpcode.kTranspose => output_and_all_operands_same_type m inst
    | _ => false

/-- `IsSuffixPathOk` (lines 156-190). -/
def IsSuffixPathOk (c : Collaborators) (m : HloModule) (path : List InstId) : Option Nat :=
  if !IsPathOk path (suffixNodeOk c m) then
    none
  else
    match path.getLast? with
    | some back =>
      if (m.inst back).opcode = HloOpcode.kGetTupleElement then some (m.inst back).tuple_index
      else some 0
    | none => some 0

/-- `IsLayoutSensitiveTarget`. -/
def IsLayoutSensitiveTarget (c : Collaborators) (target : InstId) : Bool :=
  c.IsPopOpsElementwiseBinary target

/-- `IsLayoutDependentTarget` (lines 203-220). -/
def IsLayoutDependentTarget (c : Collaborators) (m : HloModule) (target : InstId) : Bool :=
  match (m.inst target).opcode with
  | HloOpcode.kBatchNormInference => true
  | HloOpcode.kBatchNormTraining => true
  | HloOpcode.kCustomCall =>
    if c.IsPoplibsHloCustomOp target then decide ((c.LayoutDependencies target).length ≠ 0)
    else false
  | _ => false

/-- Modelled from the spec: `HloInstruction::operand_index` (hlo_instruction.h
is not among the sources), the position of `operand` among the operands of
`target`, the first one when it occurs more than once; a fatal error when it
is not an operand. -/
def operand_index (m : HloModule) (target operand : InstId) : Except Fatal Nat :=
  if operand ∈ (m.inst target).operands then
    Except.ok ((m.inst target).operands.indexOf operand)
  else
    Except.error Fatal.operand_not_found

/-- `GetLayoutSensitiveOperandIndex` (lines 223-234). -/
def GetLayoutSensitiveOperandIndex (c : Collaborators) (m : HloModule)
    (target operand _layout_producer : InstId) : Except Fatal (Option Nat) :=
  match operand_index m target operand with
  | Except.error e => Except.error e
  | Except.ok op_idx =>
    if c.IsPopOpsElementwiseBinary target && decide (op_idx < 2) then Except.ok (some op_idx)
    else Except.ok none

/-- `GetLayoutDependentOperandIndices` (lines 236-263). -/
def GetLayoutDependentOperandIndices (c : Collaborators) (m : HloModule)
    (target operand : InstId) : Except Fatal (Option (Nat × Nat)) :=
  match operand_index m target operand with
  | Except.error e => Except.error e
  | Except.ok op_idx =>
    match (m.inst target).opcode with
    | HloOpcode.kBatchNormInference =>
      if op_idx = 1 ∨ op_idx = 2 then Except.ok (some (op_idx, 0)) else Except.ok none
    | HloOpcode.kBatchNormTraining =>
      if op_idx = 1 ∨ op_idx = 2 then Except.ok (some (op_idx, 0)) else Except.ok none
    | HloOpcode.kCustomCall =>
      if c.IsPoplibsHloCustomOp target then
        match mapFind (c.LayoutDependencies target) op_idx with
        | some v => Except.ok (some (op_idx, v))
        | none => Except.ok none
      else Except.ok none
    | _ => Except.ok none

/-! ## Deferred allocation path builder -/

/-- The map `input_to_deferred_allocation_path`. -/
abbrev InputMap := List (InstId × DeferredAllocationsPath)

/-- The first loop over the users of a tuple-shaped `inst` (lines 275-305):
`false` when the function returns from inside it. -/
def usersAreUniqueGTEs (c : Collaborators) (m : HloModule) (inst : InstId) :
    List InstId → List Nat → Bool
  | [], _ => true
  | user :: rest, tuple_indexes =>
    if (m.inst user).opcode = HloOpcode.kGetTupleElement then
      let tuple_index := (m.inst user).tuple_index
      if tuple_index ∈ tuple_indexes then
        false
      else if (m.inst user).sharding.isSome || (m.inst inst).sharding.isSome then
        match (m.inst user).sharding, (m.inst inst).sharding with
        | some user_sharding, some sharding =>
          let tuple_sub_sharding :=
            if sharding.IsTuple then c.GetSubSharding sharding (m.inst inst).shape tuple_index
            else sharding
          if tuple_sub_sharding ≠ user_sharding then false
          else usersAreUniqueGTEs c m inst rest (setInsert tuple_indexes tuple_index)
        | _, _ => false
      else
        usersAreUniqueGTEs c m inst rest (setInsert tuple_indexes tuple_index)
    else
      false

/-- The walk back over the path (lines 322-333): `rpath` is the path from
its back to its front. -/
def completePath (c : Collaborators) (m : HloModule) :
    List InstId → InstId → Nat → DeferredAllocationsPath → Except Fatal DeferredAllocationsPath
  | [], _, _, deferred_allocation_path => Except.ok deferred_allocation_path
  | inst :: rpath, last_gte, flat_tuple_index, deferred_allocation_path =>
    if (m.inst last_gte).opcode ≠ HloOpcode.kGetTupleElement then
      Except.error Fatal.check_failed
    else
      let flat := c.InsertIntoTuple (m.inst inst).shape (m.inst last_gte).tuple_index
        flat_tuple_index
      completePath c m rpath inst flat (deferred_allocation_path ++ [(inst, flat)])

/-- `ForwardAllocation::FlattenInputs` (lines 267-336).  The first argument
bounds the depth of the recursion through get-tuple-element users. -/
def FlattenInputs (c : Collaborators) (m : HloModule) :
    Nat → InstId → List InstId → InputMap → Except Fatal InputMap
  | 0, _, _, _ => Except.error Fatal.out_of_fuel
  | fuel + 1, inst, path, input_to_deferred_allocation_path =>
    if (m.inst inst).shape.IsTuple then
      if usersAreUniqueGTEs c m inst (m.inst inst).users [] then
        (m.inst inst).users.foldlM
          (fun acc user =>
            if (m.inst user).opcode ≠ HloOpcode.kGetTupleElement then
              Except.error Fatal.check_failed
            else if c.IsUsedInplace user then
              FlattenInputs c m fuel user (path ++ [user]) acc
            else
              Except.ok acc)
          input_to_deferred_allocation_path
      else
        Except.ok input_to_deferred_allocation_path
    else
      match completePath c m path.dropLast.reverse inst 0 [] with
      | Except.error e => Except.error e
      | Except.ok deferred_allocation_path =>
        Except.ok (mapAssign input_to_deferred_allocation_path inst deferred_allocation_path)

/-- `ForwardAllocation::FindInputs` (lines 361-373). -/
def FindInputs (c : Collaborators) (m : HloModule) (comp : HloComputation) :
    Except Fatal InputMap :=
  comp.instructions.foldlM
    (fun acc inst =>
      if (m.inst inst).opcode = HloOpcode.kConstant ∨ (m.inst inst).opcode = HloOpcode.kInfeed ∨
          (m.inst inst).opcode = HloOpcode.kParameter then
        FlattenInputs c m (comp.instructions.length + 1) inst [inst] acc
      else
        Except.ok acc)
    []

/-! ## The commit engine -/

/-- The state of the loop over `other_targets`. -/
structure SiblingLoop where
  reachability_map : HloReachabilityMap
  control : List Edge
  added_dependants : List InstId
  dependencies_ok : Bool

/-- The loop `for (auto new_dependent : other_targets)` of
`CreateForwardAllocationTarget` (lines 397-409). -/
def orderSiblings (target : InstId) :
    List InstId → HloReachabilityMap → List Edge → List InstId → SiblingLoop
  | [], r, control, added => ⟨r, control, added, true⟩
  | new_dependent :: rest, r, control, added =>
    if new_dependent = target then
      orderSiblings target rest r control added
    else if !r.IsReachable target new_dependent then
      let control1 := AddControlDependencyTo control target new_dependent
      let r1 := r.UpdateReachabilityThroughInstruction control1 new_dependent
      orderSiblings target rest r1 control1 (added ++ [target])
    else
      ⟨r, control, added, false⟩

/-- The loop `for (auto inst : added_dependants)` of the rollback
(lines 414-417). -/
def removeAdded (target : InstId) :
    List InstId → HloReachabilityMap → List Edge → HloReachabilityMap × List Edge
  | [], r, control => (r, control)
  | inst :: rest, r, control =>
    let control1 := RemoveControlDependencyTo control target inst
    let r1 := r.UpdateReachabilityThroughInstruction control1 inst
    removeAdded target rest r1 control1

/-- The result of a call: the boolean returned, the reachability map and the
pass state afterwards. -/
structure CommitResult where
  created : Bool
  reachability_map : HloReachabilityMap
  state : PassState

/-- `ForwardAllocation::CreateForwardAllocationTarget` (lines 375-441). -/
def CreateForwardAllocationTarget (c : Collaborators) (m : HloModule)
    (reachability_map : HloReachabilityMap) (s : PassState)
    (source target : InstId) (input_index : Nat)
    (layout_producer : InstId) (layout_output_index : Nat)
    (other_targets forward_path backward_path : List InstId)
    (deferred_allocations_path : DeferredAllocationsPath) : CommitResult :=
  if reachability_map.IsReachable source layout_producer then
    ⟨false, reachability_map, s⟩
  else
    let control1 := AddControlDependencyTo s.control layout_producer source
    let r1 := reachability_map.UpdateReachabilityThroughInstruction control1 source
    let loop := orderSiblings target other_targets r1 control1 []
    if !loop.dependencies_ok then
      let control2 := RemoveControlDependencyTo loop.control layout_producer source
      let r2 := loop.reachability_map.UpdateReachabilityThroughInstruction control2 source
      let undone := removeAdded target loop.added_dependants r2 control2
      ⟨false, undone.1, { s with control := undone.2 }⟩
    else
      let src : TensorSource := (source, 0)
      let tensor_target : TensorTarget :=
        ⟨target, input_index, layout_producer, layout_output_index,
          forward_path, backward_path, deferred_allocations_path⟩
      let tam := mapAssign s.tensor_allocation_map src tensor_target
      let ops_with_layout := c.GetAllLayoutsInPath src tensor_target
      let twl := ops_with_layout.foldl setInsert s.tensors_with_layout
      let da :=
        match deferred_allocations_path.getLast? with
        | some back =>
          let inner := (mapFind s.deferred_allocations ((m.inst source).parent)).getD []
          mapAssign s.deferred_allocations ((m.inst source).parent) (mapAssign inner back src)
        | none => s.deferred_allocations
      ⟨true, loop.reachability_map,
        { control := loop.control, tensor_allocation_map := tam,
          tensors_with_layout := twl, deferred_allocations := da }⟩

/-! ## The two discovery modes and the pass driver -/

/-- The arguments of one call to `CreateForwardAllocationTarget`. -/
structure CommitArgs where
  source : InstId
  target : InstId
  input_index : Nat
  layout_producer : InstId
  layout_output_index : Nat
  other_targets : List InstId
  forward_path : List InstId
  backward_path : List InstId
  deferred_allocations_path : DeferredAllocationsPath
  deriving DecidableEq, Repr

/-- One call to `CreateForwardAllocationTarget` and what it returned. -/
structure CommitCall where
  args : CommitArgs
  created : Bool
  deriving DecidableEq, Repr

/-- The running state of a discovery mode: `found_target`, the reachability
map of the computation, the pass state, and the calls made so far to
`CreateForwardAllocationTarget` (a record kept for stating properties; the
pass itself keeps no such list). -/
structure ModeState where
  found_target : Bool
  reachability_map : HloReachabilityMap
  state : PassState
  calls : List CommitCall

/-- Modelled from the spec: the constructor `MetaGraph(values, value_creator)`
(meta_graph.h is not among the sources), a map from each of `values` to what
`value_creator` makes of it. -/
def MetaGraphOf (values : List InstId) (value_creator : InstId → List InstId) :
    List (InstId × List InstId) :=
  values.foldl
    (fun g v => if (mapFind g v).isSome then g else g ++ [(v, value_creator v)]) []

/-- Modelled from the spec: `transpose()` (section 4.1), the edges
reversed: a vertex is mapped to the vertices that had an edge to it. -/
def Transpose (g : List (InstId × List InstId)) : List (InstId × List InstId) :=
  g.foldl
    (fun res edge =>
      edge.2.foldl
        (fun res1 v2 => mapAssign res1 v2 (setInsert ((mapFind res1 v2).getD []) edge.1)) res)
    []

/-- The operand edges `(operand, user)` of a computation. -/
def dataEdges (m : HloModule) (comp : HloComputation) : List Edge :=
  comp.instructions.flatMap (fun user => (m.inst user).operands.map (fun operand => (operand, user)))

/-- `path.rbegin()[1]`: the element before the last; reading it from a path of
fewer than two elements is an access past the end. -/
def secondToLast (path : List InstId) : Except Fatal InstId :=
  match path.reverse with
  | _ :: x :: _ => Except.ok x
  | _ => Except.error Fatal.out_of_range

/-- `path.erase(path.begin()); path.pop_back();`: the path without its two
ends; on a path of fewer than two elements this is an access past the end. -/
def trimEnds (path : List InstId) : Except Fatal (List InstId) :=
  if 2 ≤ path.length then Except.ok path.tail.dropLast else Except.error Fatal.out_of_range

/-- The lambda `is_input` (lines 449-457 and 583-591). -/
def is_input (input_to_deferred_allocations : InputMap)
    (tensor_allocation_map : List (TensorSource × TensorTarget)) (inst : InstId) : Bool :=
  match mapFind input_to_deferred_allocations inst with
  | some _ => (mapFind tensor_allocation_map (inst, 0)).isNone
  | none => false

/-- The loop over `targets` (lines 516-571 and 626-658).  `prepare target` is
the body of the loop up to the call: either `continue` (`none`) or the
arguments with which `CreateForwardAllocationTarget` is called; the loop ends
at the first call that returns true. -/
def commitFirst (c : Collaborators) (m : HloModule)
    (prepare : InstId → Except Fatal (Option CommitArgs)) :
    List InstId → ModeState → Except Fatal ModeState
  | [], st => Except.ok st
  | target :: rest, st =>
    match prepare target with
    | Except.error e => Except.error e
    | Except.ok none => commitFirst c m prepare rest st
    | Except.ok (some a) =>
      let res := CreateForwardAllocationTarget c m st.reachability_map st.state
        a.source a.target a.input_index a.layout_producer a.layout_output_index
        a.other_targets a.forward_path a.backward_path a.deferred_allocations_path
      let st1 : ModeState :=
        ⟨st.found_target || res.created, res.reachability_map, res.state,
          st.calls ++ [⟨a, res.created⟩]⟩
      if res.created then Except.ok st1 else commitFirst c m prepare rest st1

/-- The loop over `source_consumers` (lines 502-573 and 612-660). -/
def forEachSource (c : Collaborators) (m : HloModule) (is_valid_target : InstId → Bool)
    (prepare : InstId → List InstId → InstId → Except Fatal (Option CommitArgs)) :
    List (InstId × List InstId) → ModeState → Except Fatal ModeState
  | [], st => Except.ok st
  | (source, consumers) :: rest, st =>
    if consumers.isEmpty then
      forEachSource c m is_valid_target prepare rest st
    else
      match find_all_targets c consumers st.reachability_map is_valid_target with
      | none => forEachSource c m is_valid_target prepare rest st
      | some targets =>
        match commitFirst c m (prepare source targets) targets st with
        | Except.error e => Except.error e
        | Except.ok st1 => forEachSource c m is_valid_target prepare rest st1

/-- The body of the loop over `targets` in `FindLayoutSensativeTargets`, up
to the call (lines 517-563). -/
def prepareSensitive (c : Collaborators) (m : HloModule) (g : MetaGraph)
    (alloc_dependencies source_consumers : List (InstId × List InstId))
    (input_to_deferred_allocations : InputMap)
    (source : InstId) (targets : List InstId) (target : InstId) :
    Except Fatal (Option CommitArgs) :=
  match mapFind alloc_dependencies target with
  | none => Except.ok none
  | some deps =>
    if deps.isEmpty then Except.ok none
    else
      match reduce_to_one deps (fun a => !(mapFind alloc_dependencies a).isSome) with
      | none => Except.ok none
      | some layout_producer =>
        match g.ShortestPath source target, g.ShortestPath layout_producer target with
        | some prefix_path, some suffix_path =>
          match secondToLast prefix_path with
          | Except.error e => Except.error e
          | Except.ok operand =>
            match GetLayoutSensitiveOperandIndex c m target operand layout_producer with
            | Except.error e => Except.error e
            | Except.ok none => Except.ok none
            | Except.ok (some op_idx) =>
              match trimEnds prefix_path, trimEnds suffix_path with
              | Except.ok prefix1, Except.ok suffix1 =>
                match IsPrefixPathOk c m prefix1, IsSuffixPathOk c m suffix1 with
                | true, some layout_output_idx =>
                  if !(((mapFind source_consumers source).getD []).contains layout_producer) then
                    Except.ok (some ⟨source, target, op_idx, layout_producer, layout_output_idx,
                      targets, suffix1, prefix1,
                      (mapFind input_to_deferred_allocations source).getD []⟩)
                  else Except.ok none
                | _, _ => Except.ok none
              | Except.error e, _ => Except.error e
              | _, Except.error e => Except.error e
        | _, _ => Except.ok none

/-- `ForwardAllocation::FindLayoutSensativeTargets` (lines 443-575). -/
def FindLayoutSensativeTargets (c : Collaborators) (m : HloModule) (comp : HloComputation)
    (ops_with_layout : List InstId) (s : PassState) : Except Fatal ModeState :=
  match FindInputs c m comp with
  | Except.error e => Except.error e
  | Except.ok input_to_deferred_allocations =>
    let is_layout_producer : InstId → Bool := fun inst => ops_with_layout.contains inst
    let g := c.graph comp
    let layout_producing_ops := g.FindVertices is_layout_producer
    let reachability_map := HloReachabilityMap.Build (dataEdges m comp) s.control
    -- `FindConsumers` is called with two arguments here: its third one takes its default
    let get_consumers : InstId → List InstId :=
      fun inst => g.FindConsumers inst (fun i => !is_layout_producer i) false
    let layout_op_consumers := MetaGraphOf layout_producing_ops get_consumers
    let alloc_dependencies := Transpose layout_op_consumers
    let source_ops :=
      g.FindVertices (is_input input_to_deferred_allocations s.tensor_allocation_map)
    let get_source_consumers : InstId → List InstId :=
      fun inst => g.FindConsumers inst
        (fun i => !is_layout_producer i && !(mapFind alloc_dependencies i).isSome &&
          !layout_producing_ops.contains i)
        true
    let source_consumers := MetaGraphOf source_ops get_source_consumers
    forEachSource c m
      (fun a => (mapFind alloc_dependencies a).isSome && IsLayoutSensitiveTarget c a)
      (prepareSensitive c m g alloc_dependencies source_consumers input_to_deferred_allocations)
      source_consumers ⟨false, reachability_map, s, []⟩

/-- The body of the loop over `targets` in `FindLayoutDependentTargets`, up
to the call (lines 627-653). -/
def prepareDependent (c : Collaborators) (m : HloModule) (g : MetaGraph)
    (input_to_deferred_allocations : InputMap)
    (source : InstId) (targets : List InstId) (target : InstId) :
    Except Fatal (Option CommitArgs) :=
  match g.ShortestPath source target with
  | none => Except.ok none
  | some prefix_path =>
    match secondToLast prefix_path with
    | Except.error e => Except.error e
    | Except.ok operand =>
      match GetLayoutDependentOperandIndices c m target operand with
      | Except.error e => Except.error e
      | Except.ok none => Except.ok none
      | Except.ok (some (op_idx, layout_operand_idx)) =>
        match trimEnds prefix_path with
        | Except.error e => Except.error e
        | Except.ok prefix1 =>
          match (m.inst target).operands.get? layout_operand_idx with
          | none => Except.error Fatal.out_of_range
          | some layout_producer =>
            if !IsPrefixPathOk c m prefix1 then Except.ok none
            else
              Except.ok (some ⟨source, target, op_idx, layout_producer, 0, targets, [], prefix1,
                (mapFind input_to_deferred_allocations source).getD []⟩)

/-- `ForwardAllocation::FindLayoutDependentTargets` (lines 577-662). -/
def FindLayoutDependentTargets (c : Collaborators) (m : HloModule) (comp : HloComputation)
    (s : PassState) : Except Fatal ModeState :=
  match FindInputs c m comp with
  | Except.error e => Except.error e
  | Except.ok input_to_deferred_allocations =>
    let g := c.graph comp
    let reachability_map := HloReachabilityMap.Build (dataEdges m comp) s.control
    let source_ops :=
      g.FindVertices (is_input input_to_deferred_allocations s.tensor_allocation_map)
    let get_source_consumers : InstId → List InstId :=
      fun inst => g.FindConsumers inst (fun _ => true) true
    let source_consumers := MetaGraphOf source_ops get_source_consumers
    forEachSource c m (fun a => IsLayoutDependentTarget c m a)
      (prepareDependent c m g input_to_deferred_allocations)
      source_consumers ⟨false, reachability_map, s, []⟩

/-- What a run of the pass leaves: the value returned, the pass state, and
the calls made to `CreateForwardAllocationTarget`, in order. -/
structure RunResult where
  found_target : Bool
  state : PassState
  calls : List CommitCall
  deriving DecidableEq, Repr

/-- The set `ops_with_layout` that `Run` fills first (lines 673-685). -/
def initialOpsWithLayout (m : HloModule) (s : PassState) : List InstId :=
  let non_tuple := s.tensors_with_layout.foldl
    (fun acc tensor_with_layout =>
      if !(m.inst tensor_with_layout.1).shape.IsTuple then setInsert acc tensor_with_layout.1
      else acc) []
  s.tensor_allocation_map.foldl (fun acc ta => setInsert acc ta.2.tgt) non_tuple

/-- The loop over the computations of the module in `Run` (lines 687-698). -/
def runComputations (c : Collaborators) (m : HloModule) (ops_with_layout : List InstId) :
    List HloComputation → RunResult → Except Fatal RunResult
  | [], acc => Except.ok acc
  | computation :: rest, acc =>
    if c.IsPopOpsFusion computation then
      runComputations c m ops_with_layout rest acc
    else
      match FindLayoutSensativeTargets c m computation ops_with_layout acc.state with
      | Except.error e => Except.error e
      | Except.ok sensitive =>
        match FindLayoutDependentTargets c m computation sensitive.state with
        | Except.error e => Except.error e
        | Except.ok dependent =>
          runComputations c m ops_with_layout rest
            ⟨(acc.found_target || sensitive.found_target) || dependent.found_target,
              dependent.state, acc.calls ++ sensitive.calls ++ dependent.calls⟩

/-- `ForwardAllocation::Run` (lines 669-701). -/
def Run (c : Collaborators) (m : HloModule) (s : PassState) : Except Fatal RunResult :=
  runComputations c m (initialOpsWithLayout m s) m.computations ⟨false, s, []⟩

/-! ## Properties of graphs used in the statements -/

/-- There is a directed path (possibly empty) from `a` to `b` along `edges`. -/
def Reaches (edges : List Edge) (a b : InstId) : Prop :=
  Relation.ReflTransGen (fun x y => (x, y) ∈ edges) a b

/-- No edge of the graph lies on a cycle. -/
def Acyclic (edges : List Edge) : Prop :=
  ∀ e ∈ edges, ¬ Reaches edges e.2 e.1

/-- The executable form of `Acyclic`. -/
def acyclicCheck (edges : List Edge) : Bool :=
  edges.all (fun e => !pathExists edges e.2 e.1)

/-- The oracle is exact: it answers `IsReachable(a, b)` with true exactly when
the graph of operand edges and the control edges `control` has a path from
`a` to `b`. -/
def Exact (r : HloReachabilityMap) (control : List Edge) : Prop :=
  ∀ a b, r.IsReachable a b = true ↔ Reaches (allEdges r control) a b

/-- The call of `CreateForwardAllocationTarget` with the arguments `a`. -/
def CommitArgs.call (c : Collaborators) (m : HloModule) (r : HloReachabilityMap)
    (s : PassState) (a : CommitArgs) : CommitResult :=
  CreateForwardAllocationTarget c m r s a.source a.target a.input_index a.layout_producer
    a.layout_output_index a.other_targets a.forward_path a.backward_path
    a.deferred_allocations_path


/-- The loop over the siblings as the call with the arguments `a` runs it:
after the edge `layout_producer → source` has been added and the oracle
refreshed. -/
def CommitArgs.siblings (r : HloReachabilityMap) (s : PassState) (a : CommitArgs) :
    SiblingLoop :=
  orderSiblings a.target a.other_targets
    (r.UpdateReachabilityThroughInstruction
      (AddControlDependencyTo s.control a.layout_producer a.source) a.source)
    (AddControlDependencyTo s.control a.layout_producer a.source) []

/-- What a sequence `new` of calls to `CreateForwardAllocationTarget` has done
to the allocation map, `tam` before and `tam1` after: nothing when no call
returned true; nothing under a key that is not `(source, 0)` of a call that
returned true; no key has gone; and the source of every call that returned
true has a record. -/
structure MapEffect (tam tam1 : List (TensorSource × TensorTarget))
    (new : List CommitCall) : Prop where
  same_of_none_created : (∀ call ∈ new, call.created = false) → tam1 = tam
  frame : ∀ key : TensorSource,
    (∀ call ∈ new, call.created = true → (call.args.source, 0) ≠ key) →
    mapFind tam1 key = mapFind tam key
  keys_kept : ∀ key : TensorSource, mapFind tam key ≠ none → mapFind tam1 key ≠ none
  created_present : ∀ call ∈ new, call.created = true →
    mapFind tam1 (call.args.source, 0) ≠ none

/-! ## Example inputs -/

/-- The instructions of the example computation: parameters 0, 3 and 7, a
layout-producing op 1, the binary elementwise ops 2 (operands 1, 0) and 4
(operands 1, 3), a batch-norm-inference 6 (operands 1, 0, 7) and the root 5. -/
def exampleInstruction (i : InstId) : HloInstruction :=
  let f32 := Shape.array PrimitiveType.F32 [4]
  match i with
  | 0 => ⟨HloOpcode.kParameter, f32, [], [2, 6], 0, none, 0⟩
  | 1 => ⟨HloOpcode.kOther 1, f32, [], [2, 4, 6], 0, none, 0⟩
  | 2 => ⟨HloOpcode.kOther 2, f32, [1, 0], [5], 0, none, 0⟩
  | 3 => ⟨HloOpcode.kParameter, f32, [], [4], 0, none, 0⟩
  | 4 => ⟨HloOpcode.kOther 2, f32, [1, 3], [5], 0, none, 0⟩
  | 6 => ⟨HloOpcode.kBatchNormInference, f32, [1, 0, 7], [5], 0, none, 0⟩
  | 7 => ⟨HloOpcode.kParameter, f32, [], [6], 0, none, 0⟩
  | _ => ⟨HloOpcode.kOther 3, Shape.tuple [f32, f32, f32], [2, 4, 6], [], 0, none, 0⟩

/-- The example computation, its instructions in post order. -/
def exampleComputation : HloComputation :=
  ⟨[0, 1, 3, 7, 2, 4, 6, 5], 5⟩

/-- The example module: one computation. -/
def exampleModule : HloModule :=
  ⟨exampleInstruction, [exampleComputation]⟩

/-- The consumers found within `depth` steps along the users, not descending
below a node that fails `continuePred`. -/
def consumersWithin (users : InstId → List InstId) (continuePred : InstId → Bool) :
    Nat → List InstId → List InstId
  | 0, _ => []
  | depth + 1, frontier =>
    let next := frontier.flatMap users
    next ++ consumersWithin users continuePred depth (next.filter continuePred)

/-- A graph view of the example computation; its shortest paths are those of
at most one edge, which is all the example asks for. -/
def exampleGraph : MetaGraph :=
  { vertices := [0, 1, 2, 3, 4, 5, 6, 7]
    FindConsumers := fun inst continuePred includeSelf =>
      ((if includeSelf then [inst] else []) ++
        consumersWithin (fun i => (exampleInstruction i).users) continuePred 3 [inst]).foldl
        setInsert []
    ShortestPath := fun a b =>
      if a = b then some [a]
      else if b ∈ (exampleInstruction a).users then some [a, b]
      else none }

/-- Collaborators for the examples: instructions 2 and 4 are binary
elementwise ops, instruction 6 is a normalization op. -/
def exampleCollaborators : Collaborators :=
  { IsPopOpsElementwise := fun i => decide (i = 2 ∨ i = 4)
    IsPopOpsElementwiseBinary := fun i => decide (i = 2 ∨ i = 4)
    IsPopOpsBiasAdd := fun _ => false
    IsNormInferenceOrTraining := fun i => decide (i = 6)
    IsPoplibsHloCustomOp := fun _ => false
    IsPopOpsFusion := fun _ => false
    LayoutDependencies := fun _ => []
    IsUsedInplace := fun _ => true
    InsertIntoTuple := fun _ tuple_index flat_index => tuple_index + flat_index
    GetSubSharding := fun sharding _ _ => sharding
    GetAllLayoutsInPath := fun _ tensor_target => [(tensor_target.tgt, 0)]
    graph := fun _ => exampleGraph }

/-- The pass state before the example run: no control edges, instruction 1
bears a layout, and source 3 has been given the target 4 earlier. -/
def exampleRunState : PassState :=
  ⟨[], [((3, 0), ⟨4, 1, 1, 0, [], [], []⟩)], [(1, 0)], []⟩

/-- Instructions for the examples of single calls: only their computation (0)
matters there. -/
def plainInstruction : HloInstruction :=
  ⟨HloOpcode.kOther 0, Shape.array PrimitiveType.F32 [4], [], [], 0, none, 0⟩

/-- A module for the examples of single calls. -/
def plainModule : HloModule :=
  ⟨fun _ => plainInstruction, []⟩

/-- A pass state with no control edges and one earlier decision, for source 9. -/
def exampleState : PassState :=
  ⟨[], [((9, 0), ⟨8, 1, 7, 0, [], [], []⟩)], [(7, 0)], []⟩

/-- Operand edges: the target 2 feeds the producer 1, the source 0 feeds 4,
and 5 feeds 3; no one of 2, 3, 4 is reachable from another. -/
def dataTargetFeedsProducer : List Edge := [(2, 1), (0, 4), (5, 3)]

/-- Operand edges: the source 0 feeds the target 2, and 3 feeds the producer
1; neither of 2, 3 is reachable from the other. -/
def dataSiblingFeedsProducer : List Edge := [(0, 2), (3, 1)]

/-- Operand edges: the source 0 feeds 2 and 4, and 3 feeds the producer 1; no
one of 2, 3, 4 is reachable from another. -/
def dataSiblingFeedsProducer3 : List Edge := [(0, 2), (0, 4), (3, 1)]

/-- Operand edges: 0 and 1 feed 2, 0 feeds 3; 2 and 3 are independent. -/
def dataIndependent : List Edge := [(0, 2), (0, 3), (1, 2)]

/-- Operand edges: 0 and 1 feed 2, and 2 feeds 3. -/
def dataChain : List Edge := [(0, 2), (1, 2), (2, 3)]

/-- What the example run returns: it commits source 0 to target 2 in the
first mode and source 7 to target 6 in the second. -/
def exampleRunResult : RunResult :=
  { found_target := true
    state :=
      { control := [(1, 0), (1, 7)]
        tensor_allocation_map :=
          [((3, 0), ⟨4, 1, 1, 0, [], [], []⟩), ((0, 0), ⟨2, 1, 1, 0, [], [], []⟩),
            ((7, 0), ⟨6, 2, 1, 0, [], [], []⟩)]
        tensors_with_layout := [(1, 0), (2, 0), (6, 0)]
        deferred_allocations := [] }
    calls :=
      [⟨⟨0, 2, 1, 1, 0, [2], [], [], []⟩, true⟩, ⟨⟨7, 6, 2, 1, 0, [6], [], [], []⟩, true⟩] }

/-- The state in which the first mode leaves the example computation, when it
returns one. -/
def exampleSensitive : ModeState :=
  match FindLayoutSensativeTargets exampleCollaborators exampleModule exampleComputation [1, 4]
    exampleRunState with
  | Except.ok st => st
  | Except.error _ => ⟨false, HloReachabilityMap.Build [] [], exampleRunState, []⟩

/-- The state in which the second mode, run after the first, leaves the
example computation, when it returns one. -/
def exampleDependent : ModeState :=
  match FindLayoutDependentTargets exampleCollaborators exampleModule exampleComputation
    exampleSensitive.state with
  | Except.ok st => st
  | Except.error _ => ⟨false, HloReachabilityMap.Build [] [], exampleRunState, []⟩

/-- The instructions of the path example: the parameter 0 is reshaped by 8, the
layout-producing op 1 feeds the unary elementwise op 9, and the binary
elementwise op 2 (operands 9, 8) is read by the root 5. -/
def pathInstruction (i : InstId) : HloInstruction :=
  let f32 := Shape.array PrimitiveType.F32 [4]
  match i with
  | 0 => ⟨HloOpcode.kParameter, f32, [], [8], 0, none, 0⟩
  | 1 => ⟨HloOpcode.kOther 1, f32, [], [9], 0, none, 0⟩
  | 8 => ⟨HloOpcode.kReshape, f32, [0], [2], 0, none, 0⟩
  | 9 => ⟨HloOpcode.kOther 4, f32, [1], [2], 0, none, 0⟩
  | 2 => ⟨HloOpcode.kOther 2, f32, [9, 8], [5], 0, none, 0⟩
  | _ => ⟨HloOpcode.kOther 3, Shape.tuple [f32], [2], [], 0, none, 0⟩

/-- The computation of the path example, its instructions in post order. -/
def pathComputation : HloComputation :=
  ⟨[0, 1, 8, 9, 2, 5], 5⟩

/-- The module of the path example: one computation. -/
def pathModule : HloModule :=
  ⟨pathInstruction, [pathComputation]⟩

/-- A graph view of the path example; its shortest paths are those of at most
two edges, which is all the example asks for. -/
def pathGraph : MetaGraph :=
  { vertices := [0, 1, 2, 5, 8, 9]
    FindConsumers := fun inst continuePred includeSelf =>
      ((if includeSelf then [inst] else []) ++
        consumersWithin (fun i => (pathInstruction i).users) continuePred 3 [inst]).foldl
        setInsert []
    ShortestPath := fun a b =>
      if a = b then some [a]
      else if b ∈ (pathInstruction a).users then some [a, b]
      else
        match (pathInstruction a).users.find? (fun x => decide (b ∈ (pathInstruction x).users)) with
        | some x => some [a, x, b]
        | none => none }

/-- Collaborators for the path example: instructions 2 and 9 are elementwise
ops, of which 2 is binary. -/
def pathCollaborators : Collaborators :=
  { IsPopOpsElementwise := fun i => decide (i = 2 ∨ i = 9)
    IsPopOpsElementwiseBinary := fun i => decide (i = 2)
    IsPopOpsBiasAdd := fun _ => false
    IsNormInferenceOrTraining := fun _ => false
    IsPoplibsHloCustomOp := fun _ => false
    IsPopOpsFusion := fun _ => false
    LayoutDependencies := fun _ => []
    IsUsedInplace := fun _ => true
    InsertIntoTuple := fun _ tuple_index flat_index => tuple_index + flat_index
    GetSubSharding := fun sharding _ _ => sharding
    GetAllLayoutsInPath := fun _ tensor_target => [(tensor_target.tgt, 0)]
    graph := fun _ => pathGraph }

/-- The pass state before the run on the path example: no control edges and
instruction 1 bears a layout. -/
def pathRunState : PassState :=
  ⟨[], [], [(1, 0)], []⟩

/-- The state in which the first mode leaves the path example, when it returns
one. -/
def pathSensitive : ModeState :=
  match FindLayoutSensativeTargets pathCollaborators pathModule pathComputation [1]
    pathRunState with
  | Except.ok st => st
  | Except.error _ => ⟨false, HloReachabilityMap.Build [] [], pathRunState, []⟩

/-- The output element type of `inst` is the element type of every operand. -/
def SameTypes (m : HloModule) (inst : InstId) : Prop :=
  ∀ operand ∈ (m.inst inst).operands,
    (m.inst inst).shape.element_type = (m.inst operand).shape.element_type

/-- The index `IsSuffixPathOk` returns for a path it accepts: the tuple index
of the last node when that is a get-tuple-element, and 0 otherwise. -/
def lastTupleIndex (m : HloModule) (path : List InstId) : Nat :=
  match path.getLast? with
  | some back =>
    if (m.inst back).opcode = HloOpcode.kGetTupleElement then (m.inst back).tuple_index else 0
  | none => 0

/-- The instructions of the tuple example: a parameter 0 of shape
`(f32[4], f32[4])` read by the get-tuple-elements 1 (index 1) and 3 (index 0),
which feed the root 5. -/
def exampleTupleInstruction (i : InstId) : HloInstruction :=
  let f32 := Shape.array PrimitiveType.F32 [4]
  match i with
  | 0 => ⟨HloOpcode.kParameter, Shape.tuple [f32, f32], [], [1, 3], 0, none, 0⟩
  | 1 => ⟨HloOpcode.kGetTupleElement, f32, [0], [5], 1, none, 0⟩
  | 3 => ⟨HloOpcode.kGetTupleElement, f32, [0], [5], 0, none, 0⟩
  | _ => ⟨HloOpcode.kOther 2, f32, [1, 3], [], 0, none, 0⟩

/-- The tuple example: one computation of four instructions. -/
def exampleTupleModule : HloModule :=
  ⟨exampleTupleInstruction, [⟨[0, 1, 3, 5], 5⟩]⟩

/-- The admissible candidates that no other admissible candidate reaches:
what `find_all_targets` keeps of `values` before it orders them. -/
def independentTargets (values : List InstId) (reachability_map : HloReachabilityMap)
    (pred : InstId → Bool) : List InstId :=
  (reduce values pred).filter
    (fun x => is_independent x (reduce values pred) reachability_map)

/-- Modelled from the spec: the classification collaborator sorts an op into
bias-add, normalization or everything else (section 4.4 e), so no op is both a
bias-add and a normalization op (matcher_predicates.h is not among the
sources). -/
def ClassesDisjoint (c : Collaborators) : Prop :=
  ∀ inst : InstId, ¬ (c.IsPopOpsBiasAdd inst = true ∧ c.IsNormInferenceOrTraining inst = true)

/-- The entry of the side table `deferred_allocations` for a computation and
a path terminus: `deferred_allocations[comp][key]`, if there is one. -/
def sideTableFind (deferred_allocations : List (CompId × List ((InstId × Nat) × TensorSource)))
    (comp : CompId) (key : InstId × Nat) : Option TensorSource :=
  (mapFind deferred_allocations comp).bind (fun inner => mapFind inner key)

/-- The sharding test of `FlattenInputs` (lines 283-299) passes for the user
`user` of `inst`: neither has a sharding, or both have one and the sharding of
`inst` (its sub-sharding at the tuple index of `user`, when it is a tuple
sharding) is the sharding of `user`. -/
def ShardingCompatible (c : Collaborators) (m : HloModule) (inst user : InstId) : Prop :=
  match (m.inst user).sharding, (m.inst inst).sharding with
  | none, none => True
  | some user_sharding, some sharding =>
    (if sharding.IsTuple then
      c.GetSubSharding sharding (m.inst inst).shape (m.inst user).tuple_index
    else sharding) = user_sharding
  | _, _ => False

/-- The instructions of the duplicate example: a parameter 0 of shape
`(f32[4], f32[4])` read by the get-tuple-elements 1 and 3, both of index 0. -/
def exampleDuplicateInstruction (i : InstId) : HloInstruction :=
  let f32 := Shape.array PrimitiveType.F32 [4]
  match i with
  | 0 => ⟨HloOpcode.kParameter, Shape.tuple [f32, f32], [], [1, 3], 0, none, 0⟩
  | 1 => ⟨HloOpcode.kGetTupleElement, f32, [0], [5], 0, none, 0⟩
  | 3 => ⟨HloOpcode.kGetTupleElement, f32, [0], [5], 0, none, 0⟩
  | _ => ⟨HloOpcode.kOther 2, f32, [1, 3], [], 0, none, 0⟩

/-- The duplicate example: one computation of four instructions. -/
def exampleDuplicateModule : HloModule :=
  ⟨exampleDuplicateInstruction, [⟨[0, 1, 3, 5], 5⟩]⟩

/-- The deferred allocation path in the words of its description: for the
containers from the immediate container of `gte` outward, the pairs of a
container and the flat index `InsertIntoTuple(container shape, tuple index of
the get-tuple-element taken out of it, flat index of the entry before)`,
starting from `flat`. -/
def expectedPath (c : Collaborators) (m : HloModule) :
    List InstId → InstId → Nat → DeferredAllocationsPath
  | [], _, _ => []
  | container :: outward, gte, flat =>
    (container, c.InsertIntoTuple (m.inst container).shape (m.inst gte).tuple_index flat) ::
      expectedPath c m outward container
        (c.InsertIntoTuple (m.inst container).shape (m.inst gte).tuple_index flat)

/-- `FlattenInputs`, called for `inst` with the path `path`, reaches `leaf`
with the path `path1`: either at once, or through a user of the tuple-shaped
`inst` that is used in place, the first loop over the users having run to its
end. -/
inductive Descends (c : Collaborators) (m : HloModule) :
    InstId → List InstId → InstId → List InstId → Prop
  | here (inst : InstId) (path : List InstId) : Descends c m inst path inst path
  | through (inst : InstId) (path : List InstId) (user leaf : InstId) (path1 : List InstId) :
    (m.inst inst).shape.IsTuple = true →
    usersAreUniqueGTEs c m inst (m.inst inst).users [] = true →
    user ∈ (m.inst inst).users → c.IsUsedInplace user = true →
    Descends c m user (path ++ [user]) leaf path1 → Descends c m inst path leaf path1

/-- `FindInputs` reaches `leaf` by the chain `root :: gtes`: `root` is a
constant, infeed or parameter of the computation, and `FlattenInputs`, started
at `root`, reaches `leaf` with this path. -/
def Reached (c : Collaborators) (m : HloModule) (comp : HloComputation) (leaf root : InstId)
    (gtes : List InstId) : Prop :=
  root ∈ comp.instructions ∧
  ((m.inst root).opcode = HloOpcode.kConstant ∨ (m.inst root).opcode = HloOpcode.kInfeed ∨
    (m.inst root).opcode = HloOpcode.kParameter) ∧
  Descends c m root [root] leaf (root :: gtes)

/-- The instructions of the nested example: a parameter 0 of shape
`(f32[4], (f32[4], f32[4]))`, its elements 6 (index 0) and 1 (index 1), and
the elements 3 (index 0) and 2 (index 1) of 1. -/
def exampleNestedInstruction (i : InstId) : HloInstruction :=
  let f32 := Shape.array PrimitiveType.F32 [4]
  match i with
  | 0 => ⟨HloOpcode.kParameter, Shape.tuple [f32, Shape.tuple [f32, f32]], [], [1, 6], 0,
      none, 0⟩
  | 1 => ⟨HloOpcode.kGetTupleElement, Shape.tuple [f32, f32], [0], [2, 3], 1, none, 0⟩
  | 2 => ⟨HloOpcode.kGetTupleElement, f32, [1], [5], 1, none, 0⟩
  | 3 => ⟨HloOpcode.kGetTupleElement, f32, [1], [5], 0, none, 0⟩
  | 6 => ⟨HloOpcode.kGetTupleElement, f32, [0], [5], 0, none, 0⟩
  | _ => ⟨HloOpcode.kOther 2, f32, [2, 3, 6], [], 0, none, 0⟩

/-- The nested example: one computation of six instructions. -/
def exampleNestedModule : HloModule :=
  ⟨exampleNestedInstruction, [⟨[0, 1, 6, 2, 3, 5], 5⟩]⟩

/-- The candidates of the loop over `targets`, in its order: the arguments of
the targets that pass the checks of the mode. -/
def preparedArgs (prepare : InstId → Except Fatal (Option CommitArgs))
    (targets : List InstId) : List CommitArgs :=
  targets.filterMap
    (fun target =>
      match prepare target with
      | Except.ok (some a) => some a
      | _ => none)

/-- The calls to `CreateForwardAllocationTarget` with the arguments `args`,
made one after the other from the reachability map `r` and the state `s`: each
call with what it returns, and the reachability map and state after the last. -/
def replayCalls (c : Collaborators) (m : HloModule) :
    HloReachabilityMap → PassState → List CommitArgs →
      List CommitCall × HloReachabilityMap × PassState
  | r, s, [] => ([], r, s)
  | r, s, a :: rest =>
    let res := a.call c m r s
    let out := replayCalls c m res.reachability_map res.state rest
    (⟨a, res.created⟩ :: out.1, out.2)

/-- The instructions of the priority example.  The source 0 and the producer
1 feed the custom op 2 (a bias-add), the batch-norm-inference 3 and the custom
op 4.  The source 7 feeds the op 9, the custom op 8 (a bias-add, whose first
operand is 9) and the batch-norm-inference 10 (whose first operand is 1).  The
root is 5. -/
def priorityInstruction (i : InstId) : HloInstruction :=
  let f32 := Shape.array PrimitiveType.F32 [4]
  match i with
  | 0 => ⟨HloOpcode.kParameter, f32, [], [4, 3, 2], 0, none, 0⟩
  | 1 => ⟨HloOpcode.kOther 1, f32, [], [2, 3, 4, 10], 0, none, 0⟩
  | 2 => ⟨HloOpcode.kCustomCall, f32, [1, 0], [5], 0, none, 0⟩
  | 3 => ⟨HloOpcode.kBatchNormInference, f32, [1, 0], [5], 0, none, 0⟩
  | 4 => ⟨HloOpcode.kCustomCall, f32, [1, 0], [5], 0, none, 0⟩
  | 7 => ⟨HloOpcode.kParameter, f32, [], [9, 8, 10], 0, none, 0⟩
  | 8 => ⟨HloOpcode.kCustomCall, f32, [9, 7], [5], 0, none, 0⟩
  | 9 => ⟨HloOpcode.kOther 4, f32, [7], [8], 0, none, 0⟩
  | 10 => ⟨HloOpcode.kBatchNormInference, f32, [1, 7], [5], 0, none, 0⟩
  | _ => ⟨HloOpcode.kOther 3, f32, [2, 3, 4, 8, 10], [], 0, none, 0⟩

/-- The computation of the priority example, its instructions in post order. -/
def priorityComputation : HloComputation :=
  ⟨[0, 1, 7, 9, 2, 3, 4, 8, 10, 5], 5⟩

/-- The priority example: one computation. -/
def priorityModule : HloModule :=
  ⟨priorityInstruction, [priorityComputation]⟩

/-- A graph view of the priority example; its shortest paths are those of at
most one edge. -/
def priorityGraph : MetaGraph :=
  { vertices := [0, 1, 2, 3, 4, 5, 7, 8, 9, 10]
    FindConsumers := fun inst continuePred includeSelf =>
      ((if includeSelf then [inst] else []) ++
        consumersWithin (fun i => (priorityInstruction i).users) continuePred 3 [inst]).foldl
        setInsert []
    ShortestPath := fun a b =>
      if a = b then some [a]
      else if b ∈ (priorityInstruction a).users then some [a, b]
      else none }

/-- Collaborators for the priority example: 2 and 8 are bias-adds, 3 and 10
normalization ops; the custom ops 2, 4 and 8 declare that the allocation of
operand 1 depends on the layout of operand 0. -/
def priorityCollaborators : Collaborators :=
  { IsPopOpsElementwise := fun _ => false
    IsPopOpsElementwiseBinary := fun _ => false
    IsPopOpsBiasAdd := fun i => decide (i = 2 ∨ i = 8)
    IsNormInferenceOrTraining := fun i => decide (i = 3 ∨ i = 10)
    IsPoplibsHloCustomOp := fun i => decide (i = 2 ∨ i = 4 ∨ i = 8)
    IsPopOpsFusion := fun _ => false
    LayoutDependencies := fun i => if i = 2 ∨ i = 4 ∨ i = 8 then [(1, 0)] else []
    IsUsedInplace := fun _ => true
    InsertIntoTuple := fun _ tuple_index flat_index => tuple_index + flat_index
    GetSubSharding := fun sharding _ _ => sharding
    GetAllLayoutsInPath := fun _ tensor_target => [(tensor_target.tgt, 0)]
    graph := fun _ => priorityGraph }

/-- The state of the second mode as it starts on the priority example: a
fresh reachability map, no control edge, no decision, no call. -/
def priorityStart : ModeState :=
  ⟨false, HloReachabilityMap.Build (dataEdges priorityModule priorityComputation) [],
    ⟨[], [], [(1, 0)], []⟩, []⟩

/-- The state in which the loop over the targets 8, 10 of the source 7 leaves
the priority example, when it returns one. -/
def priorityFallback : ModeState :=
  match commitFirst priorityCollaborators priorityModule
    (prepareDependent priorityCollaborators priorityModule priorityGraph [(0, []), (7, [])] 7
      [8, 10]) [8, 10] priorityStart with
  | Except.ok st => st
  | Except.error _ => priorityStart

/-- The users and operands of get-tuple-elements agree: a get-tuple-element
listed among the users of a node has that node as its one operand. -/
def UsersMatchOperands (m : HloModule) : Prop :=
  ∀ container user : InstId, user ∈ (m.inst container).users →
    (m.inst user).opcode = HloOpcode.kGetTupleElement → (m.inst user).operands = [container]

/-- A chain read from its end: every element but the last is a
get-tuple-element whose one operand is the next element, and the last element
is no get-tuple-element. -/
def upChain (m : HloModule) : List InstId → Prop
  | [] => False
  | [root] => (m.inst root).opcode ≠ HloOpcode.kGetTupleElement
  | gte :: container :: rest =>
    (m.inst gte).opcode = HloOpcode.kGetTupleElement ∧ (m.inst gte).operands = [container] ∧
      upChain m (container :: rest)

/-- The operand `operand` occurs among the operands of `target`, and `i` is
the first position at which it does. -/
def FirstPosition (m : HloModule) (target operand : InstId) (i : Nat) : Prop :=
  (m.inst target).operands[i]? = some operand ∧
    ∀ j, j < i → (m.inst target).operands[j]? ≠ some operand

/-- Operand edges: the source 0 feeds 2, 3 and 4, and the producer 1 feeds 2;
no one of 2, 3, 4 is reachable from another, and 1 is not reachable from 0. -/
def dataThreeTargets : List Edge := [(0, 2), (0, 3), (0, 4), (1, 2)]

/-- The instructions of the computation are in post order with respect to
their users: every user of an instruction of the computation is an instruction
of the computation that comes later in `MakeInstructionPostOrder()`. -/
def PostOrdered (m : HloModule) (comp : HloComputation) : Prop :=
  ∀ i ∈ comp.instructions, ∀ u ∈ (m.inst i).users,
    u ∈ comp.instructions ∧ comp.instructions.indexOf i < comp.instructions.indexOf u

/-- The `TensorTarget` record a call with the arguments `a` makes when it
returns true (line 423). -/
def CommitArgs.record (a : CommitArgs) : TensorTarget :=
  ⟨a.target, a.input_index, a.layout_producer, a.layout_output_index, a.forward_path,
    a.backward_path, a.deferred_allocations_path⟩

/-- Every record of the allocation map `tam1` is a record of `tam` under the
same key, or the record of a call of `new` that returned true, under the key
of its source. -/
def Recorded (tam tam1 : List (TensorSource × TensorTarget)) (new : List CommitCall) : Prop :=
  ∀ (key : TensorSource) (record : TensorTarget), mapFind tam1 key = some record →
    mapFind tam key = some record ∨
      ∃ call ∈ new, call.created = true ∧ key = (call.args.source, 0) ∧
        record = call.args.record

/-- The ways the computation of a shape can end without a shape: a division
by zero, an element type that has no size in bytes, a negative dimension. -/
inductive ShapeFault
  | division_by_zero | no_definitive_size | invalid_dimension
  deriving DecidableEq, Repr

/-- Modelled from the spec: `ShapeUtil::ByteSizeOfPrimitiveType`
(shape_util.cc is not among the sources), the size in bytes of one element of
the type: 1, 2, 4 or 8 bytes for the 8, 16, 32 and 64 bit types, twice the
size of the component for the complex types; a token takes no space; a tuple,
an opaque value or an invalid type has no definitive size, which is a fatal
error. -/
def ByteSizeOfPrimitiveType : PrimitiveType → Except ShapeFault Int
  | PrimitiveType.PRED => Except.ok 1
  | PrimitiveType.S8 => Except.ok 1
  | PrimitiveType.S16 => Except.ok 2
  | PrimitiveType.S32 => Except.ok 4
  | PrimitiveType.S64 => Except.ok 8
  | PrimitiveType.U8 => Except.ok 1
  | PrimitiveType.U16 => Except.ok 2
  | PrimitiveType.U32 => Except.ok 4
  | PrimitiveType.U64 => Except.ok 8
  | PrimitiveType.F16 => Except.ok 2
  | PrimitiveType.F32 => Except.ok 4
  | PrimitiveType.BF16 => Except.ok 2
  | PrimitiveType.F64 => Except.ok 8
  | PrimitiveType.C64 => Except.ok 8
  | PrimitiveType.C128 => Except.ok 16
  | PrimitiveType.TOKEN => Except.ok 0
  | PrimitiveType.TUPLE => Except.error ShapeFault.no_definitive_size
  | PrimitiveType.OPAQUE_TYPE => Except.error ShapeFault.no_definitive_size
  | PrimitiveType.PRIMITIVE_TYPE_INVALID => Except.error ShapeFault.no_definitive_size

/-- `Shape::dimensions`; a tuple shape has none. -/
def Shape.dimensions : Shape → List Nat
  | .array _ dimensions => dimensions
  | .tuple _ => []

/-- Modelled from the spec: `ShapeUtil::ElementsIn` (shape_util.cc is not
among the sources), the number of elements of an array of the shape: the
product of its dimensions. -/
def ElementsIn (shape : Shape) : Int :=
  ((shape.dimensions.foldl (fun count dimension => count * dimension) 1 : Nat) : Int)

/-- The value of an integer as an `int64` (two's complement, 64 bits): the
numerals are `2 ^ 63` and `2 ^ 64`. -/
def toInt64 (x : Int) : Int :=
  (x + 9223372036854775808) % 18446744073709551616 - 9223372036854775808

/-- Modelled from the spec: `MathUtil::CeilOfRatio<int64>` (math_util.h is
not among the sources), the ratio of two `int64` rounded up: the quotient
rounded toward zero, plus one when it is not negative and a remainder of the
sign of the denominator is left.  A denominator of zero is a division by
zero. -/
def CeilOfRatio (numerator denominator : Int) : Except ShapeFault Int :=
  if denominator = 0 then
    Except.error ShapeFault.division_by_zero
  else
    let rounded_toward_zero := Int.tdiv numerator denominator
    let intermediate_product := toInt64 (rounded_toward_zero * denominator)
    let needs_adjustment :=
      decide (0 ≤ rounded_toward_zero) &&
        ((decide (0 < denominator) && decide (intermediate_product < numerator)) ||
          (decide (denominator < 0) && decide (numerator < intermediate_product)))
    Except.ok (toInt64 (rounded_toward_zero + (if needs_adjustment then 1 else 0)))

/-- Modelled from the spec: `ShapeUtil::MakeShape` (shape_util.cc is not among
the sources), the array shape of the element type and the dimensions; a
negative dimension is a fatal error. -/
def MakeShape (element_type : PrimitiveType) (dimensions : List Int) : Except ShapeFault Shape :=
  if dimensions.all (fun dimension => decide (0 ≤ dimension)) then
    Except.ok (Shape.array element_type (dimensions.map Int.toNat))
  else
    Except.error ShapeFault.invalid_dimension

/-- `ComputePerReplicaLoadShape(remote_buffer_shape, replication_factor)`
(remote_parameter.cc, lines 32-51).  `replication_factor` is a `uint64`; the
other quantities are `int64`.  A step that ends in a fault ends the
computation. -/
def ComputePerReplicaLoadShape (remote_buffer_shape : Shape) (replication_factor : Nat) :
    Except ShapeFault Shape :=
  if replication_factor < 2 then
    Except.ok remote_buffer_shape
  else do
    let byte_size ← ByteSizeOfPrimitiveType remote_buffer_shape.element_type
    let grain_size ←
      if byte_size = 0 then Except.error ShapeFault.division_by_zero
      else Except.ok (Int.tdiv 4 byte_size)
    let padded ← CeilOfRatio (ElementsIn remote_buffer_shape) grain_size
    let per_replica ← CeilOfRatio padded (toInt64 (replication_factor : Int))
    let element_count := toInt64 (grain_size * per_replica)
    MakeShape remote_buffer_shape.element_type [element_count]

/-- The ratio of two natural numbers rounded up. -/
def ceilDiv (a b : Nat) : Nat :=
  (a + b - 1) / b

/-! ## Correctness of the executable reachability test -/

theorem mem_expand {edges : List Edge} {seen : List InstId} {x : InstId} :
    x ∈ expand edges seen ↔ x ∈ seen ∨ ∃ y ∈ seen, (y, x) ∈ edges := by
  unfold expand
  simp only [List.mem_append, List.mem_map, List.mem_filter, decide_eq_true_eq]
  constructor
  · rintro (h | ⟨⟨y, z⟩, ⟨he, hy⟩, rfl⟩)
    · exact Or.inl h
    · exact Or.inr ⟨y, hy, he⟩
  · rintro (h | ⟨y, hy, he⟩)
    · exact Or.inl h
    · exact Or.inr ⟨(y, x), ⟨he, hy⟩, rfl⟩

theorem iterate_expand_succ (edges : List Edge) (k : Nat) (a : InstId) :
    (expand edges)^[k + 1] [a] = expand edges ((expand edges)^[k] [a]) :=
  Function.iterate_succ_apply' _ _ _

theorem iterate_expand_mono (edges : List Edge) (a : InstId) {j k : Nat} (hjk : j ≤ k)
    {x : InstId} (hx : x ∈ (expand edges)^[j] [a]) : x ∈ (expand edges)^[k] [a] := by
  induction hjk with
  | refl => exact hx
  | step _ ih =>
    rw [iterate_expand_succ]
    exact mem_expand.mpr (Or.inl ih)

theorem iterate_expand_sound (edges : List Edge) (a : InstId) :
    ∀ (k : Nat) (x : InstId), x ∈ (expand edges)^[k] [a] → Reaches edges a x := by
  intro k
  induction k with
  | zero =>
    intro x hx
    have : x = a := by simpa using hx
    subst this
    exact Relation.ReflTransGen.refl
  | succ k ih =>
    intro x hx
    rw [iterate_expand_succ] at hx
    rcases mem_expand.mp hx with h | ⟨y, hy, he⟩
    · exact ih x h
    · exact Relation.ReflTransGen.tail (ih y hy) he

theorem iterate_expand_bounded (edges : List Edge) (a : InstId) :
    ∀ (k : Nat) (x : InstId), x ∈ (expand edges)^[k] [a] →
      x ∈ insert a (edges.map Prod.snd).toFinset := by
  intro k
  induction k with
  | zero =>
    intro x hx
    have : x = a := by simpa using hx
    simp [this]
  | succ k ih =>
    intro x hx
    rw [iterate_expand_succ] at hx
    rcases mem_expand.mp hx with h | ⟨y, _, he⟩
    · exact ih x h
    · refine Finset.mem_insert_of_mem ?_
      exact List.mem_toFinset.mpr (List.mem_map.mpr ⟨(y, x), he, rfl⟩)

/-- Once a round of expansion adds nothing, every reachable node has been seen. -/
theorem iterate_expand_closed (edges : List Edge) (a : InstId) (k : Nat)
    (hstable : ∀ x, x ∈ (expand edges)^[k + 1] [a] → x ∈ (expand edges)^[k] [a])
    {b : InstId} (hb : Reaches edges a b) : b ∈ (expand edges)^[k] [a] := by
  induction hb with
  | refl => exact iterate_expand_mono edges a (Nat.zero_le k) (by simp)
  | tail _ he ih =>
    apply hstable
    rw [iterate_expand_succ]
    exact mem_expand.mpr (Or.inr ⟨_, ih, he⟩)

theorem iterate_expand_progress (edges : List Edge) (a : InstId) :
    ∀ k : Nat,
      (∃ j, j < k ∧ ∀ x, x ∈ (expand edges)^[j + 1] [a] → x ∈ (expand edges)^[j] [a]) ∨
      k + 1 ≤ ((expand edges)^[k] [a]).toFinset.card := by
  intro k
  induction k with
  | zero => right; simp
  | succ k ih =>
    rcases ih with ⟨j, hj, hst⟩ | hcard
    · exact Or.inl ⟨j, Nat.lt_succ_of_lt hj, hst⟩
    · by_cases hst : ∀ x, x ∈ (expand edges)^[k + 1] [a] → x ∈ (expand edges)^[k] [a]
      · exact Or.inl ⟨k, Nat.lt_succ_self k, hst⟩
      · right
        push_neg at hst
        obtain ⟨x, hx1, hx0⟩ := hst
        have hss : ((expand edges)^[k] [a]).toFinset ⊂ ((expand edges)^[k + 1] [a]).toFinset := by
          refine (Finset.ssubset_iff_of_subset ?_).mpr ⟨x, List.mem_toFinset.mpr hx1, ?_⟩
          · intro y hy
            exact List.mem_toFinset.mpr
              (iterate_expand_mono edges a (Nat.le_succ k) (List.mem_toFinset.mp hy))
          · simpa using hx0
        have := Finset.card_lt_card hss
        omega

theorem iterate_expand_complete (edges : List Edge) (a b : InstId)
    (hb : Reaches edges a b) : b ∈ (expand edges)^[edges.length] [a] := by
  rcases iterate_expand_progress edges a edges.length with ⟨j, hj, hst⟩ | hcard
  · exact iterate_expand_mono edges a (Nat.le_of_lt hj) (iterate_expand_closed edges a j hst hb)
  · have hsub : ((expand edges)^[edges.length] [a]).toFinset ⊆
        insert a (edges.map Prod.snd).toFinset := by
      intro x hx
      exact iterate_expand_bounded edges a _ x (List.mem_toFinset.mp hx)
    have hle : (insert a (edges.map Prod.snd).toFinset).card ≤ edges.length + 1 := by
      refine (Finset.card_insert_le _ _).trans ?_
      have := List.toFinset_card_le (edges.map Prod.snd)
      simp only [List.length_map] at this
      omega
    have heq := Finset.eq_of_subset_of_card_le hsub (hle.trans hcard)
    apply iterate_expand_closed edges a edges.length _ hb
    intro x hx
    have := iterate_expand_bounded edges a _ x hx
    rw [← heq] at this
    exact List.mem_toFinset.mp this

/-- The executable reachability test decides the existence of a path. -/
theorem pathExists_iff (edges : List Edge) (a b : InstId) :
    pathExists edges a b = true ↔ Reaches edges a b := by
  unfold pathExists reachableFrom
  rw [decide_eq_true_eq]
  exact ⟨iterate_expand_sound edges a _ b, iterate_expand_complete edges a b⟩

/-! ## Lemmas on the tables and on the oracle -/

theorem mem_setInsert {κ : Type} [DecidableEq κ] (s : List κ) (x y : κ) :
    y ∈ setInsert s x ↔ y ∈ s ∨ y = x := by
  unfold setInsert
  split
  · constructor
    · exact Or.inl
    · rintro (h | rfl)
      · exact h
      · assumption
  · simp

theorem mapFind_mapAssign_same {κ ν : Type} [DecidableEq κ] (l : List (κ × ν)) (k : κ) (v : ν) :
    mapFind (mapAssign l k v) k = some v := by
  induction l with
  | nil => simp [mapAssign, mapFind]
  | cons e rest ih =>
    obtain ⟨k1, v1⟩ := e
    by_cases h : k1 = k
    · simp [mapAssign, mapFind, h]
    · simp [mapAssign, mapFind, h, ih]

theorem mapFind_mapAssign_other {κ ν : Type} [DecidableEq κ] (l : List (κ × ν)) (k k2 : κ)
    (v : ν) (hk : k2 ≠ k) : mapFind (mapAssign l k v) k2 = mapFind l k2 := by
  induction l with
  | nil => simp [mapAssign, mapFind, Ne.symm hk]
  | cons e rest ih =>
    obtain ⟨k1, v1⟩ := e
    by_cases h : k1 = k
    · subst h
      simp [mapAssign, mapFind, Ne.symm hk]
    · by_cases h2 : k1 = k2
      · subst h2
        simp [mapAssign, mapFind, h]
      · simp [mapAssign, mapFind, h, h2, ih]

theorem acyclicCheck_iff (edges : List Edge) : acyclicCheck edges = true ↔ Acyclic edges := by
  unfold acyclicCheck Acyclic
  rw [List.all_eq_true]
  constructor
  · intro h e he hr
    have := h e he
    rw [(pathExists_iff edges e.2 e.1).mpr hr] at this
    exact absurd this (by decide)
  · intro h e he
    cases hp : pathExists edges e.2 e.1
    · rfl
    · exact absurd ((pathExists_iff edges e.2 e.1).mp hp) (h e he)

/-- A freshly built oracle is exact. -/
theorem Build_exact (data control : List Edge) :
    Exact (HloReachabilityMap.Build data control) control := by
  intro a b
  exact pathExists_iff (data ++ control) a b

/-- A refreshed oracle is exact for the edges it was refreshed with. -/
theorem Update_exact (r : HloReachabilityMap) (control : List Edge) (node : InstId) :
    Exact (r.UpdateReachabilityThroughInstruction control node) control := by
  intro a b
  exact pathExists_iff (allEdges r control) a b

/-- What the loop over the siblings has done when it ends with
`dependencies_ok`: it has only added edges, it has added `target → nd` for
every sibling `nd` other than `target`, and it leaves an exact oracle. -/
theorem orderSiblings_ok (target : InstId) :
    ∀ (l : List InstId) (r : HloReachabilityMap) (control : List Edge) (added : List InstId),
      (orderSiblings target l r control added).dependencies_ok = true →
      Exact r control →
      (∀ e ∈ control, e ∈ (orderSiblings target l r control added).control) ∧
      (∀ nd ∈ l, nd ≠ target → (target, nd) ∈ (orderSiblings target l r control added).control) ∧
      (orderSiblings target l r control added).reachability_map.data = r.data ∧
      Exact (orderSiblings target l r control added).reachability_map
        (orderSiblings target l r control added).control := by
  intro l
  induction l with
  | nil =>
    intro r control added _ hex
    exact ⟨fun e he => he, fun nd hnd => absurd hnd (List.not_mem_nil nd), rfl, hex⟩
  | cons nd rest ih =>
    intro r control added hok hex
    unfold orderSiblings at hok ⊢
    by_cases h1 : nd = target
    · simp only [h1, if_true] at hok ⊢
      obtain ⟨ha, hb, hc, hd⟩ := ih r control added hok hex
      refine ⟨ha, ?_, hc, hd⟩
      intro x hx hne
      rcases List.mem_cons.mp hx with rfl | hx
      · exact absurd rfl hne
      · exact hb x hx hne
    · simp only [h1, if_false] at hok ⊢
      by_cases h2 : (!r.IsReachable target nd) = true
      · simp only [h2, if_true] at hok ⊢
        obtain ⟨ha, hb, hc, hd⟩ := ih _ _ _ hok
          (Update_exact r (AddControlDependencyTo control target nd) nd)
        refine ⟨?_, ?_, hc, hd⟩
        · intro e he
          exact ha e ((mem_setInsert control (target, nd) e).mpr (Or.inl he))
        · intro x hx hne
          rcases List.mem_cons.mp hx with rfl | hx
          · exact ha _ ((mem_setInsert control (target, x) _).mpr (Or.inr rfl))
          · exact hb x hx hne
      · simp only [h2] at hok
        exact absurd hok (by simp)

/-- A call whose layout producer is reachable from its source returns at once. -/
theorem call_rejected (c : Collaborators) (m : HloModule) (r : HloReachabilityMap)
    (s : PassState) (a : CommitArgs) (h : r.IsReachable a.source a.layout_producer = true) :
    a.call c m r s = ⟨false, r, s⟩ := by
  unfold CommitArgs.call CreateForwardAllocationTarget
  simp [h]

/-- The three ways a call can end: rejected at the first check, rolled back
after the loop over the siblings, or committed. -/
theorem call_cases (c : Collaborators) (m : HloModule) (r : HloReachabilityMap)
    (s : PassState) (a : CommitArgs) :
    (r.IsReachable a.source a.layout_producer = true ∧ a.call c m r s = ⟨false, r, s⟩) ∨
    (r.IsReachable a.source a.layout_producer = false ∧
      (a.siblings r s).dependencies_ok = false ∧
      (a.call c m r s).created = false ∧
      (a.call c m r s).state.tensor_allocation_map = s.tensor_allocation_map ∧
      (a.call c m r s).state.tensors_with_layout = s.tensors_with_layout ∧
      (a.call c m r s).state.deferred_allocations = s.deferred_allocations) ∨
    (r.IsReachable a.source a.layout_producer = false ∧
      (a.siblings r s).dependencies_ok = true ∧
      (a.call c m r s).created = true ∧
      (a.call c m r s).reachability_map = (a.siblings r s).reachability_map ∧
      (a.call c m r s).state.control = (a.siblings r s).control ∧
      (a.call c m r s).state.tensor_allocation_map =
        mapAssign s.tensor_allocation_map (a.source, 0)
          ⟨a.target, a.input_index, a.layout_producer, a.layout_output_index,
            a.forward_path, a.backward_path, a.deferred_allocations_path⟩) := by
  by_cases h1 : r.IsReachable a.source a.layout_producer = true
  · exact Or.inl ⟨h1, call_rejected c m r s a h1⟩
  · right
    have h1f : r.IsReachable a.source a.layout_producer = false := by
      simpa using h1
    by_cases h2 : (a.siblings r s).dependencies_ok = true
    · right
      unfold CommitArgs.siblings at h2
      unfold CommitArgs.call CreateForwardAllocationTarget CommitArgs.siblings
      simp [h1f, h2]
    · left
      have h2f : (a.siblings r s).dependencies_ok = false := by
        simpa using h2
      unfold CommitArgs.siblings at h2f
      unfold CommitArgs.call CreateForwardAllocationTarget CommitArgs.siblings
      simp [h1f, h2f]

/-! ## The commit engine: claims C4, C5, C8 and C9 -/

/-- C4: when the call returns true, the graph afterwards has the ordering
edge `layout_producer → source`, and for every element `nd` of
`other_targets` other than `target` it has the edge `target → nd`, so `nd` is
reachable from `target`, in the graph and in the answers of the oracle. -/
theorem C4_success_orders_producer_and_siblings (c : Collaborators) (m : HloModule)
    (r : HloReachabilityMap) (s : PassState) (a : CommitArgs)
    (hcreated : (a.call c m r s).created = true) :
    (a.layout_producer, a.source) ∈ (a.call c m r s).state.control ∧
    ∀ nd ∈ a.other_targets, nd ≠ a.target →
      (a.target, nd) ∈ (a.call c m r s).state.control ∧
      Reaches (allEdges (a.call c m r s).reachability_map (a.call c m r s).state.control)
        a.target nd ∧
      (a.call c m r s).reachability_map.IsReachable a.target nd = true := by
  rcases call_cases c m r s a with ⟨_, heq⟩ | ⟨_, _, hf, _⟩ | ⟨_, hok, _, hr, hc, _⟩
  · rw [heq] at hcreated
    exact absurd hcreated (by simp)
  · rw [hf] at hcreated
    exact absurd hcreated (by decide)
  · obtain ⟨ha, hb, _, hd⟩ := orderSiblings_ok a.target a.other_targets _ _ [] hok
      (Update_exact r (AddControlDependencyTo s.control a.layout_producer a.source) a.source)
    rw [hr, hc]
    refine ⟨ha _ ((mem_setInsert _ _ _).mpr (Or.inr rfl)), ?_⟩
    intro nd hnd hne
    have hedge : (a.target, nd) ∈ (a.siblings r s).control := hb nd hnd hne
    have hreach : Reaches (allEdges (a.siblings r s).reachability_map (a.siblings r s).control)
        a.target nd :=
      Relation.ReflTransGen.single (List.mem_append_right _ hedge)
    exact ⟨hedge, hreach, (hd a.target nd).mpr hreach⟩

/-- C4, at a call with two siblings that returns true. -/
theorem C4_success_orders_producer_and_siblings_witness :
    (CommitArgs.call exampleCollaborators plainModule
      (HloReachabilityMap.Build dataIndependent []) exampleState
      ⟨0, 2, 1, 1, 0, [2, 3], [], [], []⟩).created = true ∧
    ((1, 0) ∈ (CommitArgs.call exampleCollaborators plainModule
      (HloReachabilityMap.Build dataIndependent []) exampleState
      ⟨0, 2, 1, 1, 0, [2, 3], [], [], []⟩).state.control ∧
    ∀ nd ∈ [2, 3], nd ≠ 2 →
      (2, nd) ∈ (CommitArgs.call exampleCollaborators plainModule
        (HloReachabilityMap.Build dataIndependent []) exampleState
        ⟨0, 2, 1, 1, 0, [2, 3], [], [], []⟩).state.control ∧
      Reaches (allEdges
        (CommitArgs.call exampleCollaborators plainModule
          (HloReachabilityMap.Build dataIndependent []) exampleState
          ⟨0, 2, 1, 1, 0, [2, 3], [], [], []⟩).reachability_map
        (CommitArgs.call exampleCollaborators plainModule
          (HloReachabilityMap.Build dataIndependent []) exampleState
          ⟨0, 2, 1, 1, 0, [2, 3], [], [], []⟩).state.control) 2 nd ∧
      (CommitArgs.call exampleCollaborators plainModule
        (HloReachabilityMap.Build dataIndependent []) exampleState
        ⟨0, 2, 1, 1, 0, [2, 3], [], [], []⟩).reachability_map.IsReachable 2 nd = true) :=
  ⟨by decide,
    C4_success_orders_producer_and_siblings exampleCollaborators plainModule
      (HloReachabilityMap.Build dataIndependent []) exampleState
      ⟨0, 2, 1, 1, 0, [2, 3], [], [], []⟩ (by decide)⟩

/-- C5: when `layout_producer` is reachable from `source`, the call returns
false and changes nothing: the control edges, the allocation map, the
layout-bearing set and the deferred-allocation side table (the whole pass
state) and the reachability map are as before. -/
theorem C5_reachable_producer_is_rejected (c : Collaborators) (m : HloModule)
    (r : HloReachabilityMap) (s : PassState) (a : CommitArgs)
    (hreach : r.IsReachable a.source a.layout_producer = true) :
    (a.call c m r s).created = false ∧
    (a.call c m r s).state.control = s.control ∧
    (a.call c m r s).state.tensor_allocation_map = s.tensor_allocation_map ∧
    (a.call c m r s).state.tensors_with_layout = s.tensors_with_layout ∧
    (a.call c m r s).state.deferred_allocations = s.deferred_allocations ∧
    (a.call c m r s).reachability_map = r := by
  rw [call_rejected c m r s a hreach]
  exact ⟨rfl, rfl, rfl, rfl, rfl, rfl⟩

/-- C5, at a call whose layout producer 2 is reachable from its source 0. -/
theorem C5_reachable_producer_is_rejected_witness :
    (HloReachabilityMap.Build dataChain []).IsReachable 0 2 = true ∧
    ((CommitArgs.call exampleCollaborators plainModule (HloReachabilityMap.Build dataChain [])
        exampleState ⟨0, 3, 0, 2, 0, [3], [], [], []⟩).created = false ∧
      (CommitArgs.call exampleCollaborators plainModule (HloReachabilityMap.Build dataChain [])
        exampleState ⟨0, 3, 0, 2, 0, [3], [], [], []⟩).state.control = exampleState.control ∧
      (CommitArgs.call exampleCollaborators plainModule (HloReachabilityMap.Build dataChain [])
        exampleState ⟨0, 3, 0, 2, 0, [3], [], [], []⟩).state.tensor_allocation_map =
        exampleState.tensor_allocation_map ∧
      (CommitArgs.call exampleCollaborators plainModule (HloReachabilityMap.Build dataChain [])
        exampleState ⟨0, 3, 0, 2, 0, [3], [], [], []⟩).state.tensors_with_layout =
        exampleState.tensors_with_layout ∧
      (CommitArgs.call exampleCollaborators plainModule (HloReachabilityMap.Build dataChain [])
        exampleState ⟨0, 3, 0, 2, 0, [3], [], [], []⟩).state.deferred_allocations =
        exampleState.deferred_allocations ∧
      (CommitArgs.call exampleCollaborators plainModule (HloReachabilityMap.Build dataChain [])
        exampleState ⟨0, 3, 0, 2, 0, [3], [], [], []⟩).reachability_map =
        HloReachabilityMap.Build dataChain []) :=
  ⟨by decide,
    C5_reachable_producer_is_rejected exampleCollaborators plainModule
      (HloReachabilityMap.Build dataChain []) exampleState ⟨0, 3, 0, 2, 0, [3], [], [], []⟩
      (by decide)⟩

/-- C8: when the call returns true, the allocation map afterwards maps
`(source, 0)` to the record made of the arguments of the call (target, operand
index, layout producer, layout output index, forward path, backward path,
deferred allocation path), and what it holds under every other key is as
before. -/
theorem C8_success_records_the_arguments (c : Collaborators) (m : HloModule)
    (r : HloReachabilityMap) (s : PassState) (a : CommitArgs)
    (hcreated : (a.call c m r s).created = true) :
    mapFind (a.call c m r s).state.tensor_allocation_map (a.source, 0) =
      some ⟨a.target, a.input_index, a.layout_producer, a.layout_output_index,
        a.forward_path, a.backward_path, a.deferred_allocations_path⟩ ∧
    ∀ key : TensorSource, key ≠ (a.source, 0) →
      mapFind (a.call c m r s).state.tensor_allocation_map key =
        mapFind s.tensor_allocation_map key := by
  rcases call_cases c m r s a with ⟨_, heq⟩ | ⟨_, _, hf, _⟩ | ⟨_, _, _, _, _, htam⟩
  · rw [heq] at hcreated
    exact absurd hcreated (by simp)
  · rw [hf] at hcreated
    exact absurd hcreated (by decide)
  · rw [htam]
    exact ⟨mapFind_mapAssign_same _ _ _, fun key hkey => mapFind_mapAssign_other _ _ _ _ hkey⟩

/-- C8, at a call that returns true on a map that holds an earlier record. -/
theorem C8_success_records_the_arguments_witness :
    (CommitArgs.call exampleCollaborators plainModule
      (HloReachabilityMap.Build dataIndependent []) exampleState
      ⟨0, 2, 1, 1, 0, [2, 3], [5], [6], [(4, 1)]⟩).created = true ∧
    (mapFind (CommitArgs.call exampleCollaborators plainModule
        (HloReachabilityMap.Build dataIndependent []) exampleState
        ⟨0, 2, 1, 1, 0, [2, 3], [5], [6], [(4, 1)]⟩).state.tensor_allocation_map (0, 0) =
      some ⟨2, 1, 1, 0, [5], [6], [(4, 1)]⟩ ∧
    ∀ key : TensorSource, key ≠ (0, 0) →
      mapFind (CommitArgs.call exampleCollaborators plainModule
        (HloReachabilityMap.Build dataIndependent []) exampleState
        ⟨0, 2, 1, 1, 0, [2, 3], [5], [6], [(4, 1)]⟩).state.tensor_allocation_map key =
        mapFind exampleState.tensor_allocation_map key) :=
  ⟨by decide,
    C8_success_records_the_arguments exampleCollaborators plainModule
      (HloReachabilityMap.Build dataIndependent []) exampleState
      ⟨0, 2, 1, 1, 0, [2, 3], [5], [6], [(4, 1)]⟩ (by decide)⟩

/-- C9: when the call returns false, whether at the first reachability check
or after the loop over the siblings, the allocation map, the layout-bearing
set and the deferred-allocation side table are as before the call. -/
theorem C9_failure_keeps_the_tables (c : Collaborators) (m : HloModule)
    (r : HloReachabilityMap) (s : PassState) (a : CommitArgs)
    (hfailed : (a.call c m r s).created = false) :
    (a.call c m r s).state.tensor_allocation_map = s.tensor_allocation_map ∧
    (a.call c m r s).state.tensors_with_layout = s.tensors_with_layout ∧
    (a.call c m r s).state.deferred_allocations = s.deferred_allocations := by
  rcases call_cases c m r s a with ⟨_, heq⟩ | ⟨_, _, _, h1, h2, h3⟩ | ⟨_, _, ht, _⟩
  · rw [heq]
    exact ⟨rfl, rfl, rfl⟩
  · exact ⟨h1, h2, h3⟩
  · rw [ht] at hfailed
    exact absurd hfailed (by decide)

/-- C9, at a call that fails in the loop over the siblings. -/
theorem C9_failure_keeps_the_tables_witness :
    (CommitArgs.call exampleCollaborators plainModule
      (HloReachabilityMap.Build dataTargetFeedsProducer []) exampleState
      ⟨0, 2, 0, 1, 0, [2, 3, 4], [], [], [(4, 1)]⟩).created = false ∧
    ((CommitArgs.call exampleCollaborators plainModule
        (HloReachabilityMap.Build dataTargetFeedsProducer []) exampleState
        ⟨0, 2, 0, 1, 0, [2, 3, 4], [], [], [(4, 1)]⟩).state.tensor_allocation_map =
        exampleState.tensor_allocation_map ∧
      (CommitArgs.call exampleCollaborators plainModule
        (HloReachabilityMap.Build dataTargetFeedsProducer []) exampleState
        ⟨0, 2, 0, 1, 0, [2, 3, 4], [], [], [(4, 1)]⟩).state.tensors_with_layout =
        exampleState.tensors_with_layout ∧
      (CommitArgs.call exampleCollaborators plainModule
        (HloReachabilityMap.Build dataTargetFeedsProducer []) exampleState
        ⟨0, 2, 0, 1, 0, [2, 3, 4], [], [], [(4, 1)]⟩).state.deferred_allocations =
        exampleState.deferred_allocations) :=
  ⟨by decide,
    C9_failure_keeps_the_tables exampleCollaborators plainModule
      (HloReachabilityMap.Build dataTargetFeedsProducer []) exampleState
      ⟨0, 2, 0, 1, 0, [2, 3, 4], [], [], [(4, 1)]⟩ (by decide)⟩

/-! ## Lemmas on the loops of the two modes and of the driver -/

theorem MapEffect.refl (tam : List (TensorSource × TensorTarget)) : MapEffect tam tam [] :=
  ⟨fun _ => rfl, fun _ _ => rfl, fun _ h => h, fun call h => absurd h (List.not_mem_nil call)⟩

theorem MapEffect.trans {tam tam1 tam2 : List (TensorSource × TensorTarget)}
    {new1 new2 : List CommitCall} (h1 : MapEffect tam tam1 new1) (h2 : MapEffect tam1 tam2 new2) :
    MapEffect tam tam2 (new1 ++ new2) := by
  refine ⟨?_, ?_, ?_, ?_⟩
  · intro h
    rw [h2.same_of_none_created (fun call hc => h call (List.mem_append_right _ hc)),
      h1.same_of_none_created (fun call hc => h call (List.mem_append_left _ hc))]
  · intro key h
    rw [h2.frame key (fun call hc => h call (List.mem_append_right _ hc)),
      h1.frame key (fun call hc => h call (List.mem_append_left _ hc))]
  · intro key h
    exact h2.keys_kept key (h1.keys_kept key h)
  · intro call hc hcreated
    rcases List.mem_append.mp hc with hc | hc
    · exact h2.keys_kept _ (h1.created_present call hc hcreated)
    · exact h2.created_present call hc hcreated

/-- The effect of a single call on the allocation map. -/
theorem MapEffect.single (c : Collaborators) (m : HloModule) (r : HloReachabilityMap)
    (s : PassState) (a : CommitArgs) :
    MapEffect s.tensor_allocation_map (a.call c m r s).state.tensor_allocation_map
      [⟨a, (a.call c m r s).created⟩] := by
  rcases call_cases c m r s a with ⟨_, heq⟩ | ⟨_, _, hf, htam, _, _⟩ | ⟨_, _, ht, _, _, htam⟩
  · rw [heq]
    refine ⟨fun _ => rfl, fun _ _ => rfl, fun _ h => h, ?_⟩
    intro call hc hcreated
    rw [List.mem_singleton.mp hc] at hcreated
    exact absurd hcreated (by simp)
  · rw [hf, htam]
    refine ⟨fun _ => rfl, fun _ _ => rfl, fun _ h => h, ?_⟩
    intro call hc hcreated
    rw [List.mem_singleton.mp hc] at hcreated
    exact absurd hcreated (by simp)
  · rw [ht, htam]
    refine ⟨?_, ?_, ?_, ?_⟩
    · intro h
      exact absurd (h _ (List.mem_singleton.mpr rfl)) (by simp)
    · intro key h
      exact mapFind_mapAssign_other _ _ _ _
        (Ne.symm (h _ (List.mem_singleton.mpr rfl) rfl))
    · intro key h
      by_cases hk : key = (a.source, 0)
      · rw [hk, mapFind_mapAssign_same]
        simp
      · rw [mapFind_mapAssign_other _ _ _ _ hk]
        exact h
    · intro call hc _
      rw [List.mem_singleton.mp hc, mapFind_mapAssign_same]
      simp

/-- What the loop over the targets of one source does: it appends the calls
it makes, each with arguments that `prepare` has produced; `found_target`
becomes true exactly when one of them returns true. -/
theorem commitFirst_spec (c : Collaborators) (m : HloModule)
    (prepare : InstId → Except Fatal (Option CommitArgs)) :
    ∀ (targets : List InstId) (st st1 : ModeState),
      commitFirst c m prepare targets st = Except.ok st1 →
      ∃ new : List CommitCall,
        st1.calls = st.calls ++ new ∧
        MapEffect st.state.tensor_allocation_map st1.state.tensor_allocation_map new ∧
        st1.found_target = (st.found_target || new.any (fun call => call.created)) ∧
        ∀ call ∈ new, ∃ target ∈ targets, prepare target = Except.ok (some call.args) := by
  intro targets
  induction targets with
  | nil =>
    intro st st1 h
    simp only [commitFirst, Except.ok.injEq] at h
    subst h
    exact ⟨[], by simp, MapEffect.refl _, by simp, by simp⟩
  | cons target rest ih =>
    intro st st1 h
    rw [commitFirst] at h
    split at h
    · exact absurd h (by simp)
    · obtain ⟨new, h1, h2, h3, h4⟩ := ih st st1 h
      refine ⟨new, h1, h2, h3, ?_⟩
      intro call hc
      obtain ⟨t, ht, hp⟩ := h4 call hc
      exact ⟨t, List.mem_cons_of_mem _ ht, hp⟩
    · rename_i a hprep
      have heff := MapEffect.single c m st.reachability_map st.state a
      by_cases hcr : (a.call c m st.reachability_map st.state).created = true
      · have hcr1 : (CreateForwardAllocationTarget c m st.reachability_map st.state a.source
            a.target a.input_index a.layout_producer a.layout_output_index a.other_targets
            a.forward_path a.backward_path a.deferred_allocations_path).created = true := hcr
        simp only [hcr1, if_true, Except.ok.injEq] at h
        subst h
        refine ⟨[⟨a, true⟩], rfl, ?_, by simp, ?_⟩
        · rw [hcr] at heff
          exact heff
        · intro call hc
          rw [List.mem_singleton.mp hc]
          exact ⟨target, List.mem_cons_self _ _, hprep⟩
      · have hcr0 : (a.call c m st.reachability_map st.state).created = false := by
          simpa using hcr
        have hcr1 : (CreateForwardAllocationTarget c m st.reachability_map st.state a.source
            a.target a.input_index a.layout_producer a.layout_output_index a.other_targets
            a.forward_path a.backward_path a.deferred_allocations_path).created = false := hcr0
        simp only [hcr1, Bool.false_eq_true, if_false] at h
        obtain ⟨new, h1, h2, h3, h4⟩ := ih _ st1 h
        refine ⟨⟨a, false⟩ :: new, ?_, ?_, ?_, ?_⟩
        · rw [h1]
          simp
        · rw [hcr0] at heff
          exact MapEffect.trans heff h2
        · rw [h3]
          simp
        · intro call hc
          rcases List.mem_cons.mp hc with rfl | hc
          · exact ⟨target, List.mem_cons_self _ _, hprep⟩
          · obtain ⟨t, ht, hp⟩ := h4 call hc
            exact ⟨t, List.mem_cons_of_mem _ ht, hp⟩

/-- What the loop over the sources does: the calls it makes are for sources
of the list it runs over. -/
theorem forEachSource_spec (c : Collaborators) (m : HloModule)
    (is_valid_target : InstId → Bool)
    (prepare : InstId → List InstId → InstId → Except Fatal (Option CommitArgs))
    (hprepare : ∀ source targets target a,
      prepare source targets target = Except.ok (some a) → a.source = source) :
    ∀ (sources : List (InstId × List InstId)) (st st1 : ModeState),
      forEachSource c m is_valid_target prepare sources st = Except.ok st1 →
      ∃ new : List CommitCall,
        st1.calls = st.calls ++ new ∧
        MapEffect st.state.tensor_allocation_map st1.state.tensor_allocation_map new ∧
        st1.found_target = (st.found_target || new.any (fun call => call.created)) ∧
        ∀ call ∈ new, call.args.source ∈ sources.map Prod.fst := by
  intro sources
  induction sources with
  | nil =>
    intro st st1 h
    simp only [forEachSource, Except.ok.injEq] at h
    subst h
    exact ⟨[], by simp, MapEffect.refl _, by simp, by simp⟩
  | cons entry rest ih =>
    intro st st1 h
    obtain ⟨source, consumers⟩ := entry
    rw [forEachSource] at h
    have hrest : ∀ st0 : ModeState,
        forEachSource c m is_valid_target prepare rest st0 = Except.ok st1 →
        st0 = st →
        ∃ new : List CommitCall,
          st1.calls = st.calls ++ new ∧
          MapEffect st.state.tensor_allocation_map st1.state.tensor_allocation_map new ∧
          st1.found_target = (st.found_target || new.any (fun call => call.created)) ∧
          ∀ call ∈ new, call.args.source ∈ ((source, consumers) :: rest).map Prod.fst := by
      intro st0 h0 heq
      subst heq
      obtain ⟨new, h1, h2, h3, h4⟩ := ih st0 st1 h0
      exact ⟨new, h1, h2, h3, fun call hc => List.mem_cons_of_mem _ (h4 call hc)⟩
    split at h
    · exact hrest st h rfl
    · split at h
      · exact hrest st h rfl
      · rename_i targets _
        split at h
        · exact absurd h (by simp)
        · rename_i st2 hfirst
          obtain ⟨new1, a1, a2, a3, a4⟩ := commitFirst_spec c m _ targets st st2 hfirst
          obtain ⟨new2, b1, b2, b3, b4⟩ := ih st2 st1 h
          refine ⟨new1 ++ new2, ?_, MapEffect.trans a2 b2, ?_, ?_⟩
          · rw [b1, a1, List.append_assoc]
          · rw [b3, a3, List.any_append, Bool.or_assoc]
          · intro call hc
            rcases List.mem_append.mp hc with hc | hc
            · obtain ⟨t, _, hp⟩ := a4 call hc
              rw [hprepare source targets t call.args hp]
              exact List.mem_cons_self _ _
            · exact List.mem_cons_of_mem _ (b4 call hc)

theorem prepareSensitive_source (c : Collaborators) (m : HloModule) (g : MetaGraph)
    (alloc_dependencies source_consumers : List (InstId × List InstId)) (inputs : InputMap)
    (source : InstId) (targets : List InstId) (target : InstId) (a : CommitArgs)
    (h : prepareSensitive c m g alloc_dependencies source_consumers inputs source targets target =
      Except.ok (some a)) : a.source = source := by
  unfold prepareSensitive at h
  repeat' split at h
  all_goals first
    | (simp only [Except.ok.injEq, Option.some.injEq] at h; rw [← h])
    | exact absurd h (by simp)

theorem prepareDependent_source (c : Collaborators) (m : HloModule) (g : MetaGraph)
    (inputs : InputMap) (source : InstId) (targets : List InstId) (target : InstId)
    (a : CommitArgs)
    (h : prepareDependent c m g inputs source targets target = Except.ok (some a)) :
    a.source = source := by
  unfold prepareDependent at h
  repeat' split at h
  all_goals first
    | (simp only [Except.ok.injEq, Option.some.injEq] at h; rw [← h])
    | exact absurd h (by simp)

/-- The keys of the map built from `values` are among `values`. -/
theorem MetaGraphOf_keys (values : List InstId) (value_creator : InstId → List InstId) :
    ∀ v ∈ (MetaGraphOf values value_creator).map Prod.fst, v ∈ values := by
  unfold MetaGraphOf
  have key : ∀ (vs : List InstId) (g : List (InstId × List InstId)) (v : InstId),
      v ∈ (vs.foldl
        (fun g v => if (mapFind g v).isSome then g else g ++ [(v, value_creator v)]) g).map
        Prod.fst → v ∈ g.map Prod.fst ∨ v ∈ vs := by
    intro vs
    induction vs with
    | nil => intro g v h; exact Or.inl h
    | cons x rest ih =>
      intro g v h
      rw [List.foldl_cons] at h
      rcases ih _ v h with h1 | h1
      · split at h1
        · exact Or.inl h1
        · rw [List.map_append, List.mem_append] at h1
          rcases h1 with h1 | h1
          · exact Or.inl h1
          · right
            simp only [List.map_cons, List.map_nil, List.mem_singleton] at h1
            rw [h1]
            exact List.mem_cons_self _ _
      · exact Or.inr (List.mem_cons_of_mem _ h1)
  intro v hv
  rcases key values [] v hv with h | h
  · simp at h
  · exact h

/-- A source the filter `is_input` lets through has no record yet. -/
theorem is_input_no_record (inputs : InputMap) (tam : List (TensorSource × TensorTarget))
    (inst : InstId) (h : is_input inputs tam inst = true) : mapFind tam (inst, 0) = none := by
  unfold is_input at h
  split at h
  · simpa using h
  · exact absurd h (by simp)

/-- What one mode does, from the loop over its sources: the calls are for
sources without a record at the start of the mode. -/
theorem mode_spec (c : Collaborators) (m : HloModule) (is_valid_target : InstId → Bool)
    (prepare : InstId → List InstId → InstId → Except Fatal (Option CommitArgs))
    (hprepare : ∀ source targets target a,
      prepare source targets target = Except.ok (some a) → a.source = source)
    (g : MetaGraph) (inputs : InputMap) (value_creator : InstId → List InstId)
    (r : HloReachabilityMap) (s : PassState) (st1 : ModeState)
    (h : forEachSource c m is_valid_target prepare
      (MetaGraphOf (g.FindVertices (is_input inputs s.tensor_allocation_map)) value_creator)
      ⟨false, r, s, []⟩ = Except.ok st1) :
    MapEffect s.tensor_allocation_map st1.state.tensor_allocation_map st1.calls ∧
    st1.found_target = st1.calls.any (fun call => call.created) ∧
    ∀ call ∈ st1.calls, mapFind s.tensor_allocation_map (call.args.source, 0) = none := by
  obtain ⟨new, h1, h2, h3, h4⟩ := forEachSource_spec c m is_valid_target prepare hprepare _ _ _ h
  simp only [List.nil_append] at h1
  rw [h1]
  refine ⟨h2, by simpa using h3, ?_⟩
  intro call hc
  have hv := MetaGraphOf_keys _ _ _ (h4 call hc)
  unfold MetaGraph.FindVertices at hv
  exact is_input_no_record inputs _ _ (List.mem_filter.mp hv).2

theorem FindLayoutSensativeTargets_spec (c : Collaborators) (m : HloModule)
    (comp : HloComputation) (ops_with_layout : List InstId) (s : PassState) (st1 : ModeState)
    (h : FindLayoutSensativeTargets c m comp ops_with_layout s = Except.ok st1) :
    MapEffect s.tensor_allocation_map st1.state.tensor_allocation_map st1.calls ∧
    st1.found_target = st1.calls.any (fun call => call.created) ∧
    ∀ call ∈ st1.calls, mapFind s.tensor_allocation_map (call.args.source, 0) = none := by
  unfold FindLayoutSensativeTargets at h
  split at h
  · exact absurd h (by simp)
  · exact mode_spec c m _ _ (prepareSensitive_source c m _ _ _ _) _ _ _ _ s st1 h

theorem FindLayoutDependentTargets_spec (c : Collaborators) (m : HloModule)
    (comp : HloComputation) (s : PassState) (st1 : ModeState)
    (h : FindLayoutDependentTargets c m comp s = Except.ok st1) :
    MapEffect s.tensor_allocation_map st1.state.tensor_allocation_map st1.calls ∧
    st1.found_target = st1.calls.any (fun call => call.created) ∧
    ∀ call ∈ st1.calls, mapFind s.tensor_allocation_map (call.args.source, 0) = none := by
  unfold FindLayoutDependentTargets at h
  split at h
  · exact absurd h (by simp)
  · exact mode_spec c m _ _ (prepareDependent_source c m _ _) _ _ _ _ s st1 h

/-- What the loop over the computations does. -/
theorem runComputations_spec (c : Collaborators) (m : HloModule) (ops_with_layout : List InstId) :
    ∀ (computations : List HloComputation) (acc res : RunResult),
      runComputations c m ops_with_layout computations acc = Except.ok res →
      ∃ new : List CommitCall,
        res.calls = acc.calls ++ new ∧
        MapEffect acc.state.tensor_allocation_map res.state.tensor_allocation_map new ∧
        res.found_target = (acc.found_target || new.any (fun call => call.created)) ∧
        ∀ call ∈ new, mapFind acc.state.tensor_allocation_map (call.args.source, 0) = none := by
  intro computations
  induction computations with
  | nil =>
    intro acc res h
    simp only [runComputations, Except.ok.injEq] at h
    subst h
    exact ⟨[], by simp, MapEffect.refl _, by simp, by simp⟩
  | cons computation rest ih =>
    intro acc res h
    rw [runComputations] at h
    split at h
    · exact ih acc res h
    · split at h
      · exact absurd h (by simp)
      · rename_i sensitive hA
        split at h
        · exact absurd h (by simp)
        · rename_i dependent hB
          obtain ⟨a1, a2, a3⟩ := FindLayoutSensativeTargets_spec c m _ _ _ _ hA
          obtain ⟨b1, b2, b3⟩ := FindLayoutDependentTargets_spec c m _ _ _ hB
          obtain ⟨new, c1, c2, c3, c4⟩ := ih _ res h
          have hno : ∀ {tam tam1 : List (TensorSource × TensorTarget)} {calls : List CommitCall}
              (key : TensorSource), MapEffect tam tam1 calls → mapFind tam1 key = none →
              mapFind tam key = none := by
            intro tam tam1 calls key heff hnone
            by_contra hne
            exact heff.keys_kept key hne hnone
          refine ⟨sensitive.calls ++ dependent.calls ++ new, ?_,
            MapEffect.trans (MapEffect.trans a1 b1) c2, ?_, ?_⟩
          · rw [c1]
            simp [List.append_assoc]
          · rw [c3, a2, b2]
            simp [List.any_append, Bool.or_assoc]
          · intro call hc
            rcases List.mem_append.mp hc with hc | hc
            · rcases List.mem_append.mp hc with hc | hc
              · exact a3 call hc
              · exact hno _ a1 (b3 call hc)
            · exact hno _ a1 (hno _ b1 (c4 call hc))

/-! ## The pass driver: claims C3 and C10 -/

/-- C3: an existing decision is never replaced.  For a run of the pass, and
likewise for either mode on its own: when `(source, 0)` has a record in the
allocation map before, no call to `CreateForwardAllocationTarget` is made for
that source, and the record under the key afterwards is the one before.  And
when the second mode runs after the first on a computation, it makes no call
for a source for which a call of the first mode returned true. -/
theorem C3_existing_decision_is_never_replaced (c : Collaborators) (m : HloModule)
    (s : PassState) :
    (∀ res : RunResult, Run c m s = Except.ok res →
      ∀ source : InstId, mapFind s.tensor_allocation_map (source, 0) ≠ none →
        (∀ call ∈ res.calls, call.args.source ≠ source) ∧
        mapFind res.state.tensor_allocation_map (source, 0) =
          mapFind s.tensor_allocation_map (source, 0)) ∧
    (∀ (comp : HloComputation) (ops_with_layout : List InstId) (st : ModeState),
      FindLayoutSensativeTargets c m comp ops_with_layout s = Except.ok st →
      ∀ source : InstId, mapFind s.tensor_allocation_map (source, 0) ≠ none →
        (∀ call ∈ st.calls, call.args.source ≠ source) ∧
        mapFind st.state.tensor_allocation_map (source, 0) =
          mapFind s.tensor_allocation_map (source, 0)) ∧
    (∀ (comp : HloComputation) (st : ModeState),
      FindLayoutDependentTargets c m comp s = Except.ok st →
      ∀ source : InstId, mapFind s.tensor_allocation_map (source, 0) ≠ none →
        (∀ call ∈ st.calls, call.args.source ≠ source) ∧
        mapFind st.state.tensor_allocation_map (source, 0) =
          mapFind s.tensor_allocation_map (source, 0)) ∧
    (∀ (comp : HloComputation) (ops_with_layout : List InstId) (stA stB : ModeState),
      FindLayoutSensativeTargets c m comp ops_with_layout s = Except.ok stA →
      FindLayoutDependentTargets c m comp stA.state = Except.ok stB →
      ∀ callA ∈ stA.calls, callA.created = true →
        ∀ callB ∈ stB.calls, callB.args.source ≠ callA.args.source) := by
  have key : ∀ (tam tam1 : List (TensorSource × TensorTarget)) (calls : List CommitCall),
      MapEffect tam tam1 calls →
      (∀ call ∈ calls, mapFind tam (call.args.source, 0) = none) →
      ∀ source : InstId, mapFind tam (source, 0) ≠ none →
        (∀ call ∈ calls, call.args.source ≠ source) ∧
        mapFind tam1 (source, 0) = mapFind tam (source, 0) := by
    intro tam tam1 calls heff hnone source hsome
    have hne : ∀ call ∈ calls, call.args.source ≠ source := by
      intro call hc heq
      rw [← heq] at hsome
      exact hsome (hnone call hc)
    refine ⟨hne, heff.frame (source, 0) ?_⟩
    intro call hc _ heq
    exact hne call hc (congrArg Prod.fst heq)
  refine ⟨?_, ?_, ?_, ?_⟩
  · intro res h
    unfold Run at h
    obtain ⟨new, h1, h2, _, h4⟩ := runComputations_spec c m _ _ _ _ h
    simp only [List.nil_append] at h1
    rw [h1]
    exact key _ _ _ h2 h4
  · intro comp ops_with_layout st h
    obtain ⟨h1, _, h3⟩ := FindLayoutSensativeTargets_spec c m _ _ _ _ h
    exact key _ _ _ h1 h3
  · intro comp st h
    obtain ⟨h1, _, h3⟩ := FindLayoutDependentTargets_spec c m _ _ _ h
    exact key _ _ _ h1 h3
  · intro comp ops_with_layout stA stB hA hB callA hcA hcreated callB hcB heq
    obtain ⟨a1, _, _⟩ := FindLayoutSensativeTargets_spec c m _ _ _ _ hA
    obtain ⟨_, _, b3⟩ := FindLayoutDependentTargets_spec c m _ _ _ hB
    have := b3 callB hcB
    rw [heq] at this
    exact a1.created_present callA hcA hcreated this

/-- C3, at the example run: source 3 has a record before the run; neither the
run nor the first mode makes a call for it, and its record stays; the first
mode commits source 0, and the second mode, which commits source 7, makes no
call for source 0. -/
theorem C3_existing_decision_is_never_replaced_witness :
    mapFind exampleRunState.tensor_allocation_map (3, 0) ≠ none ∧
    Run exampleCollaborators exampleModule exampleRunState = Except.ok exampleRunResult ∧
    ((∀ call ∈ exampleRunResult.calls, call.args.source ≠ 3) ∧
      mapFind exampleRunResult.state.tensor_allocation_map (3, 0) =
        mapFind exampleRunState.tensor_allocation_map (3, 0)) ∧
    exampleSensitive.calls = [⟨⟨0, 2, 1, 1, 0, [2], [], [], []⟩, true⟩] ∧
    ((∀ call ∈ exampleSensitive.calls, call.args.source ≠ 3) ∧
      mapFind exampleSensitive.state.tensor_allocation_map (3, 0) =
        mapFind exampleRunState.tensor_allocation_map (3, 0)) ∧
    exampleDependent.calls = [⟨⟨7, 6, 2, 1, 0, [6], [], [], []⟩, true⟩] ∧
    ((∀ call ∈ exampleDependent.calls, call.args.source ≠ 3) ∧
      mapFind exampleDependent.state.tensor_allocation_map (3, 0) =
        mapFind exampleSensitive.state.tensor_allocation_map (3, 0)) ∧
    (∀ callA ∈ exampleSensitive.calls, callA.created = true →
      ∀ callB ∈ exampleDependent.calls, callB.args.source ≠ callA.args.source) :=
  ⟨by decide, by rfl,
    (C3_existing_decision_is_never_replaced exampleCollaborators exampleModule
      exampleRunState).1 exampleRunResult (by rfl) 3 (by decide),
    by rfl,
    (C3_existing_decision_is_never_replaced exampleCollaborators exampleModule
      exampleRunState).2.1 exampleComputation [1, 4] exampleSensitive (by rfl) 3 (by decide),
    by rfl,
    (C3_existing_decision_is_never_replaced exampleCollaborators exampleModule
      exampleSensitive.state).2.2.1 exampleComputation exampleDependent (by rfl) 3 (by decide),
    (C3_existing_decision_is_never_replaced exampleCollaborators exampleModule
      exampleRunState).2.2.2 exampleComputation [1, 4] exampleSensitive exampleDependent
      (by rfl) (by rfl)⟩

/-- C10: the value `Run` returns is true exactly when one of the calls to
`CreateForwardAllocationTarget` made during the run returned true; and when
`Run` returns false the allocation map is the one before the run. -/
theorem C10_run_reports_a_commit (c : Collaborators) (m : HloModule) (s : PassState)
    (res : RunResult) (hrun : Run c m s = Except.ok res) :
    (res.found_target = true ↔ ∃ call ∈ res.calls, call.created = true) ∧
    (res.found_target = false →
      res.state.tensor_allocation_map = s.tensor_allocation_map) := by
  unfold Run at hrun
  obtain ⟨new, h1, h2, h3, _⟩ := runComputations_spec c m _ _ _ _ hrun
  simp only [List.nil_append] at h1
  simp only [Bool.false_or] at h3
  rw [h1, h3]
  constructor
  · simp [List.any_eq_true]
  · intro hnone
    apply h2.same_of_none_created
    intro call hc
    cases hcr : call.created
    · rfl
    · have : new.any (fun call => call.created) = true :=
        List.any_eq_true.mpr ⟨call, hc, hcr⟩
      rw [this] at hnone
      exact absurd hnone (by simp)

/-- C10, at the example run: it returns true, and its second call returned
true. -/
theorem C10_run_reports_a_commit_witness :
    Run exampleCollaborators exampleModule exampleRunState = Except.ok exampleRunResult ∧
    ((exampleRunResult.found_target = true ↔
        ∃ call ∈ exampleRunResult.calls, call.created = true) ∧
      (exampleRunResult.found_target = false →
        exampleRunResult.state.tensor_allocation_map =
          exampleRunState.tensor_allocation_map)) :=
  ⟨by rfl,
    C10_run_reports_a_commit exampleCollaborators exampleModule exampleRunState
      exampleRunResult (by rfl)⟩

/-! ## Lemmas on the path validator -/

theorem output_and_all_operands_same_type_iff (m : HloModule) (inst : InstId) :
    output_and_all_operands_same_type m inst = true ↔ SameTypes m inst := by
  unfold output_and_all_operands_same_type SameTypes
  rw [List.all_eq_true]
  constructor
  · intro h operand ho
    exact of_decide_eq_true (h operand ho)
  · intro h operand ho
    exact decide_eq_true (h operand ho)

/-- `IsPathOk` asks the predicate for every node with its position. -/
theorem IsPathOkFrom_iff (pred : InstId → Nat → Nat → Bool) (path_size : Nat) :
    ∀ (path : List InstId) (idx : Nat),
      IsPathOkFrom pred path_size idx path = true ↔
        ∀ (i : Nat) (inst : InstId), path[i]? = some inst →
          pred inst (idx + i) path_size = true := by
  intro path
  induction path with
  | nil =>
    intro idx
    simp [IsPathOkFrom]
  | cons x rest ih =>
    intro idx
    rw [IsPathOkFrom, Bool.and_eq_true, ih]
    constructor
    · rintro ⟨hx, hrest⟩ i inst hi
      cases i with
      | zero =>
        simp only [List.getElem?_cons_zero, Option.some.injEq] at hi
        rw [← hi]
        exact hx
      | succ j =>
        simp only [List.getElem?_cons_succ] at hi
        have := hrest j inst hi
        rw [Nat.add_assoc, Nat.add_comm 1 j] at this
        exact this
    · intro h
      refine ⟨h 0 x (by simp), ?_⟩
      intro j inst hj
      have := h (j + 1) inst (by simpa using hj)
      rw [Nat.add_assoc, Nat.add_comm 1 j]
      exact this

/-- What the node test of `IsPrefixPathOk` accepts. -/
theorem prefixNodeOk_iff (c : Collaborators) (m : HloModule) (inst : InstId) (idx size : Nat) :
    prefixNodeOk c m inst idx size = true ↔
      (c.IsPopOpsElementwise inst = true ∧
        ((m.inst inst).opcode = HloOpcode.kConvert ∨ SameTypes m inst)) ∨
      (c.IsPopOpsElementwise inst = false ∧
        ((m.inst inst).opcode = HloOpcode.kReshape ∨
          (m.inst inst).opcode = HloOpcode.kTranspose) ∧ SameTypes m inst) := by
  unfold prefixNodeOk
  rw [← output_and_all_operands_same_type_iff]
  cases hel : c.IsPopOpsElementwise inst
  · cases hop : (m.inst inst).opcode <;> simp
  · by_cases hconv : (m.inst inst).opcode = HloOpcode.kConvert <;> simp [hconv]

/-- What the node test of `IsSuffixPathOk` accepts. -/
theorem suffixNodeOk_iff (c : Collaborators) (m : HloModule) (inst : InstId) (idx size : Nat) :
    suffixNodeOk c m inst idx size = true ↔
      (c.IsPopOpsElementwise inst = true ∧
        ((m.inst inst).opcode = HloOpcode.kConvert ∨ SameTypes m inst)) ∨
      (c.IsPopOpsElementwise inst = false ∧
        (((m.inst inst).opcode = HloOpcode.kGetTupleElement ∧ idx = size - 1) ∨
          (((m.inst inst).opcode = HloOpcode.kReshape ∨
            (m.inst inst).opcode = HloOpcode.kTranspose) ∧ SameTypes m inst))) := by
  unfold suffixNodeOk
  rw [← output_and_all_operands_same_type_iff]
  cases hel : c.IsPopOpsElementwise inst
  · cases hop : (m.inst inst).opcode <;> simp
  · by_cases hconv : (m.inst inst).opcode = HloOpcode.kConvert <;> simp [hconv]

theorem IsPrefixPathOk_iff (c : Collaborators) (m : HloModule) (path : List InstId) :
    IsPrefixPathOk c m path = true ↔ ∀ inst ∈ path, prefixNodeOk c m inst 0 0 = true := by
  unfold IsPrefixPathOk IsPathOk
  rw [IsPathOkFrom_iff]
  constructor
  · intro h inst hin
    obtain ⟨i, hi⟩ := List.getElem?_of_mem hin
    exact h i inst hi
  · intro h i inst hi
    exact h inst (List.getElem?_mem hi)

theorem IsSuffixPathOk_some (c : Collaborators) (m : HloModule) (path : List InstId)
    (idx : Nat) (h : IsSuffixPathOk c m path = some idx) :
    IsPathOk path (suffixNodeOk c m) = true ∧ idx = lastTupleIndex m path := by
  unfold IsSuffixPathOk at h
  unfold lastTupleIndex
  cases hok : IsPathOk path (suffixNodeOk c m)
  · simp [hok] at h
  · simp only [hok, Bool.not_true, Bool.false_eq_true, if_false] at h
    refine ⟨rfl, ?_⟩
    cases hl : path.getLast? with
    | none =>
      simp only [hl, Option.some.injEq] at h
      exact h.symm
    | some back =>
      simp only [hl] at h
      by_cases hg : (m.inst back).opcode = HloOpcode.kGetTupleElement
      · simp only [hg, if_true, Option.some.injEq] at h ⊢
        exact h.symm
      · simp only [hg, if_false, Option.some.injEq] at h ⊢
        exact h.symm

theorem IsSuffixPathOk_none_of_node (c : Collaborators) (m : HloModule) (path : List InstId)
    (i : Nat) (inst : InstId) (hi : path[i]? = some inst)
    (hbad : suffixNodeOk c m inst i path.length = false) : IsSuffixPathOk c m path = none := by
  unfold IsSuffixPathOk
  cases hok : IsPathOk path (suffixNodeOk c m)
  · simp
  · unfold IsPathOk at hok
    have := (IsPathOkFrom_iff _ _ path 0).mp hok i inst hi
    rw [Nat.zero_add, hbad] at this
    exact absurd this (by simp)

/-! ## The path validator: claims C18, C19, C20 -/

/-- C18: `IsPrefixPathOk(path)` is true exactly when every node of the path
is either classified elementwise and a convert or of the element type of all
its operands, or not classified elementwise, a reshape or a transpose, and of
the element type of all its operands. -/
theorem C18_prefix_path_ok_iff (c : Collaborators) (m : HloModule) (path : List InstId) :
    IsPrefixPathOk c m path = true ↔
      ∀ inst ∈ path,
        (c.IsPopOpsElementwise inst = true ∧
          ((m.inst inst).opcode = HloOpcode.kConvert ∨
            ∀ operand ∈ (m.inst inst).operands,
              (m.inst inst).shape.element_type = (m.inst operand).shape.element_type)) ∨
        (c.IsPopOpsElementwise inst = false ∧
          ((m.inst inst).opcode = HloOpcode.kReshape ∨
            (m.inst inst).opcode = HloOpcode.kTranspose) ∧
          ∀ operand ∈ (m.inst inst).operands,
            (m.inst inst).shape.element_type = (m.inst operand).shape.element_type) := by
  rw [IsPrefixPathOk_iff]
  constructor
  · intro h inst hin
    exact (prefixNodeOk_iff c m inst 0 0).mp (h inst hin)
  · intro h inst hin
    exact (prefixNodeOk_iff c m inst 0 0).mpr (h inst hin)

/-- C19: `IsSuffixPathOk` returns no index for a path that has a
get-tuple-element, not classified elementwise, at a position other than the
last; the index it returns for a path it accepts is the tuple index of the
last node when that is a get-tuple-element and 0 otherwise; and it returns 0
for the empty path. -/
theorem C19_suffix_path_index (c : Collaborators) (m : HloModule) :
    (∀ (path : List InstId) (i : Nat) (inst : InstId), path[i]? = some inst →
      i + 1 < path.length → (m.inst inst).opcode = HloOpcode.kGetTupleElement →
      c.IsPopOpsElementwise inst = false → IsSuffixPathOk c m path = none) ∧
    (∀ (path : List InstId) (idx : Nat), IsSuffixPathOk c m path = some idx →
      idx = match path.getLast? with
        | some back =>
          if (m.inst back).opcode = HloOpcode.kGetTupleElement then (m.inst back).tuple_index
          else 0
        | none => 0) ∧
    IsSuffixPathOk c m [] = some 0 := by
  refine ⟨?_, ?_, by simp [IsSuffixPathOk, IsPathOk, IsPathOkFrom]⟩
  · intro path i inst hi hlt hop hel
    apply IsSuffixPathOk_none_of_node c m path i inst hi
    cases hs : suffixNodeOk c m inst i path.length
    · rfl
    · rcases (suffixNodeOk_iff c m inst i path.length).mp hs with ⟨h1, _⟩ | ⟨_, ⟨_, h2⟩ | ⟨h3, _⟩⟩
      · rw [hel] at h1
        exact absurd h1 (by simp)
      · omega
      · rw [hop] at h3
        rcases h3 with h3 | h3 <;> exact absurd h3 (by simp)
  · intro path idx h
    exact (IsSuffixPathOk_some c m path idx h).2

/-- C19, on the tuple example: the path 1, 5 has the get-tuple-element 1
before its end and is rejected; the path 5, 1 ends in it and gets its tuple
index 1; the path 5 gets 0. -/
theorem C19_suffix_path_index_witness :
    IsSuffixPathOk exampleCollaborators exampleTupleModule [1, 5] = none ∧
    IsSuffixPathOk exampleCollaborators exampleTupleModule [1] = some 1 ∧
    (1 = match [1].getLast? with
      | some back =>
        if (exampleTupleModule.inst back).opcode = HloOpcode.kGetTupleElement then
          (exampleTupleModule.inst back).tuple_index
        else 0
      | none => 0) ∧
    IsSuffixPathOk exampleCollaborators exampleTupleModule [] = some 0 :=
  ⟨(C19_suffix_path_index exampleCollaborators exampleTupleModule).1 [1, 5] 0 1 (by rfl)
      (by decide) (by rfl) (by rfl),
    by rfl,
    (C19_suffix_path_index exampleCollaborators exampleTupleModule).2.1 [1] 1 (by rfl),
    (C19_suffix_path_index exampleCollaborators exampleTupleModule).2.2⟩

/-- Every call the loop over the sources makes has arguments that `prepare`
has produced for some source, its targets and one of them. -/
theorem forEachSource_prepared (c : Collaborators) (m : HloModule)
    (is_valid_target : InstId → Bool)
    (prepare : InstId → List InstId → InstId → Except Fatal (Option CommitArgs)) :
    ∀ (sources : List (InstId × List InstId)) (st st1 : ModeState),
      forEachSource c m is_valid_target prepare sources st = Except.ok st1 →
      ∃ new : List CommitCall,
        st1.calls = st.calls ++ new ∧
        ∀ call ∈ new, ∃ source targets target,
          prepare source targets target = Except.ok (some call.args) := by
  intro sources
  induction sources with
  | nil =>
    intro st st1 h
    simp only [forEachSource, Except.ok.injEq] at h
    subst h
    exact ⟨[], by simp, by simp⟩
  | cons entry rest ih =>
    intro st st1 h
    obtain ⟨source, consumers⟩ := entry
    rw [forEachSource] at h
    split at h
    · exact ih st st1 h
    · split at h
      · exact ih st st1 h
      · rename_i targets _
        split at h
        · exact absurd h (by simp)
        · rename_i st2 hfirst
          obtain ⟨new1, a1, _, _, a4⟩ := commitFirst_spec c m _ targets st st2 hfirst
          obtain ⟨new2, b1, b2⟩ := ih st2 st1 h
          refine ⟨new1 ++ new2, by rw [b1, a1, List.append_assoc], ?_⟩
          intro call hc
          rcases List.mem_append.mp hc with hc | hc
          · obtain ⟨t, _, hp⟩ := a4 call hc
            exact ⟨source, targets, t, hp⟩
          · exact b2 call hc

/-- The arguments the first mode prepares: the backward path is the shortest
path of the graph view from the source to the target without its two ends, the
forward path is the shortest path from the layout producer to the target
without its two ends, and both have passed their validator. -/
theorem prepareSensitive_paths (c : Collaborators) (m : HloModule) (g : MetaGraph)
    (alloc_dependencies source_consumers : List (InstId × List InstId)) (inputs : InputMap)
    (source : InstId) (targets : List InstId) (target : InstId) (a : CommitArgs)
    (h : prepareSensitive c m g alloc_dependencies source_consumers inputs source targets target =
      Except.ok (some a)) :
    ∃ prefix_path suffix_path : List InstId,
      g.ShortestPath a.source a.target = some prefix_path ∧
      g.ShortestPath a.layout_producer a.target = some suffix_path ∧
      trimEnds prefix_path = Except.ok a.backward_path ∧
      trimEnds suffix_path = Except.ok a.forward_path ∧
      IsPrefixPathOk c m a.backward_path = true ∧
      IsSuffixPathOk c m a.forward_path = some a.layout_output_index := by
  unfold prepareSensitive at h
  split at h
  · exact absurd h (by simp)
  · split at h
    · exact absurd h (by simp)
    · split at h
      · exact absurd h (by simp)
      · rename_i layout_producer _
        split at h
        · rename_i prefix_path suffix_path hprefix hsuffix
          split at h
          · exact absurd h (by simp)
          · split at h
            · exact absurd h (by simp)
            · exact absurd h (by simp)
            · split at h
              · rename_i prefix1 suffix1 htrim1 htrim2
                split at h
                · rename_i layout_output_idx hok1 hok2
                  split at h
                  · simp only [Except.ok.injEq, Option.some.injEq] at h
                    subst h
                    exact ⟨prefix_path, suffix_path, hprefix, hsuffix, htrim1, htrim2, hok1, hok2⟩
                  · exact absurd h (by simp)
                · exact absurd h (by simp)
              · exact absurd h (by simp)
              · exact absurd h (by simp)
        · exact absurd h (by simp)

/-- The arguments the second mode prepares: the backward path is the shortest
path of the graph view from the source to the target without its two ends, it
has passed `IsPrefixPathOk`, and the forward path is empty. -/
theorem prepareDependent_paths (c : Collaborators) (m : HloModule) (g : MetaGraph)
    (inputs : InputMap) (source : InstId) (targets : List InstId) (target : InstId)
    (a : CommitArgs)
    (h : prepareDependent c m g inputs source targets target = Except.ok (some a)) :
    ∃ prefix_path : List InstId,
      g.ShortestPath a.source a.target = some prefix_path ∧
      trimEnds prefix_path = Except.ok a.backward_path ∧
      IsPrefixPathOk c m a.backward_path = true ∧ a.forward_path = [] := by
  unfold prepareDependent at h
  split at h
  · exact absurd h (by simp)
  · rename_i prefix_path hsp
    split at h
    · exact absurd h (by simp)
    · split at h
      · exact absurd h (by simp)
      · exact absurd h (by simp)
      · split at h
        · exact absurd h (by simp)
        · rename_i prefix1 htrim
          split at h
          · exact absurd h (by simp)
          · split at h
            · exact absurd h (by simp)
            · rename_i hok
              simp only [Except.ok.injEq, Option.some.injEq] at h
              subst h
              exact ⟨prefix_path, hsp, htrim, by simpa using hok, rfl⟩

/-- Every call of the first mode has arguments its loop body has prepared
from the graph view of the computation. -/
theorem FindLayoutSensativeTargets_prepared (c : Collaborators) (m : HloModule)
    (comp : HloComputation) (ops_with_layout : List InstId) (s : PassState) (st1 : ModeState)
    (h : FindLayoutSensativeTargets c m comp ops_with_layout s = Except.ok st1) :
    ∀ call ∈ st1.calls, ∃ alloc_dependencies source_consumers inputs source targets target,
      prepareSensitive c m (c.graph comp) alloc_dependencies source_consumers inputs source
        targets target = Except.ok (some call.args) := by
  unfold FindLayoutSensativeTargets at h
  split at h
  · exact absurd h (by simp)
  · obtain ⟨new, h1, h2⟩ := forEachSource_prepared c m _ _ _ _ _ h
    simp only [List.nil_append] at h1
    rw [h1]
    intro call hc
    obtain ⟨source, targets, target, hp⟩ := h2 call hc
    exact ⟨_, _, _, source, targets, target, hp⟩

/-- Every call of the second mode has arguments its loop body has prepared
from the graph view of the computation. -/
theorem FindLayoutDependentTargets_prepared (c : Collaborators) (m : HloModule)
    (comp : HloComputation) (s : PassState) (st1 : ModeState)
    (h : FindLayoutDependentTargets c m comp s = Except.ok st1) :
    ∀ call ∈ st1.calls, ∃ inputs source targets target,
      prepareDependent c m (c.graph comp) inputs source targets target =
        Except.ok (some call.args) := by
  unfold FindLayoutDependentTargets at h
  split at h
  · exact absurd h (by simp)
  · obtain ⟨new, h1, h2⟩ := forEachSource_prepared c m _ _ _ _ _ h
    simp only [List.nil_append] at h1
    rw [h1]
    intro call hc
    obtain ⟨source, targets, target, hp⟩ := h2 call hc
    exact ⟨_, source, targets, target, hp⟩

/-- A path `IsPrefixPathOk` accepts has no node, other than a convert, whose
output element type differs from that of one of its operands. -/
theorem IsPrefixPathOk_types (c : Collaborators) (m : HloModule) (path : List InstId)
    (h : IsPrefixPathOk c m path = true) :
    ∀ inst ∈ path, (m.inst inst).opcode = HloOpcode.kConvert ∨ SameTypes m inst := by
  intro inst hin
  rcases (prefixNodeOk_iff c m inst 0 0).mp ((IsPrefixPathOk_iff c m path).mp h inst hin) with
    ⟨_, h1⟩ | ⟨_, _, h1⟩
  · exact h1
  · exact Or.inr h1

/-- A path `IsSuffixPathOk` accepts has no node, other than a convert and a
get-tuple-element, not classified elementwise, at its last position, whose
output element type differs from that of one of its operands. -/
theorem IsSuffixPathOk_types (c : Collaborators) (m : HloModule) (path : List InstId)
    (idx : Nat) (h : IsSuffixPathOk c m path = some idx) :
    ∀ (i : Nat) (inst : InstId), path[i]? = some inst →
      (m.inst inst).opcode = HloOpcode.kConvert ∨ SameTypes m inst ∨
      ((m.inst inst).opcode = HloOpcode.kGetTupleElement ∧
        c.IsPopOpsElementwise inst = false ∧ i + 1 = path.length) := by
  intro i inst hi
  have hok := (IsSuffixPathOk_some c m path idx h).1
  unfold IsPathOk at hok
  have hnode := (IsPathOkFrom_iff _ _ path 0).mp hok i inst hi
  rw [Nat.zero_add] at hnode
  have hlen : i < path.length := by
    by_contra hge
    rw [List.getElem?_eq_none (Nat.le_of_not_lt hge)] at hi
    exact absurd hi (by simp)
  rcases (suffixNodeOk_iff c m inst i path.length).mp hnode with
    ⟨_, h1 | h1⟩ | ⟨hel, ⟨hg, hlast⟩ | ⟨_, h1⟩⟩
  · exact Or.inl h1
  · exact Or.inr (Or.inl h1)
  · exact Or.inr (Or.inr ⟨hg, hel, by omega⟩)
  · exact Or.inr (Or.inl h1)

/-- C20 (as stated it fails): a get-tuple-element is no convert and its
output element type differs from that of its tuple operand, yet
`IsSuffixPathOk` accepts a path that ends in one.  On the tuple example the
path made of the get-tuple-element 1 (index 1, of type F32, read from the
tuple-shaped parameter 0) is given the index 1. -/
theorem C20_suffix_accepts_trailing_get_tuple_element :
    1 ∈ [1] ∧
    (exampleTupleModule.inst 1).opcode ≠ HloOpcode.kConvert ∧
    0 ∈ (exampleTupleModule.inst 1).operands ∧
    (exampleTupleModule.inst 1).shape.element_type ≠
      (exampleTupleModule.inst 0).shape.element_type ∧
    IsSuffixPathOk exampleCollaborators exampleTupleModule [1] ≠ none := by
  refine ⟨by decide, by decide, by decide, by decide, ?_⟩
  have h : IsSuffixPathOk exampleCollaborators exampleTupleModule [1] = some 1 := by rfl
  rw [h]
  exact Option.some_ne_none 1

/-- C20 (amended): for a path that contains an instruction which is not a
convert and whose output element type differs from the element type of one of
its operands, `IsPrefixPathOk` returns false, and `IsSuffixPathOk` returns no
index unless that instruction is a get-tuple-element, not classified
elementwise, at the last position of the path.  Every call to
`CreateForwardAllocationTarget` of `FindLayoutSensativeTargets` has as its
backward path the shortest path of the graph view from its source to its target
without the two ends, and as its forward path the shortest path from its layout
producer to its target without the two ends; `IsPrefixPathOk` has accepted the
first and `IsSuffixPathOk` the second, with the index the call is given; so
every instruction strictly between source and target is a convert or of the
element type of its operands, and so is every instruction strictly between
producer and target other than a get-tuple-element, not classified elementwise,
next to the target.  Every call of `FindLayoutDependentTargets` has as its
backward path the shortest path from its source to its target without the two
ends, accepted by `IsPrefixPathOk`, and an empty forward path.  So no candidate
connected through a rejected path is committed. -/
theorem C20_type_changing_path_is_rejected (c : Collaborators) (m : HloModule) :
    (∀ (path : List InstId) (inst operand : InstId), inst ∈ path →
      (m.inst inst).opcode ≠ HloOpcode.kConvert → operand ∈ (m.inst inst).operands →
      (m.inst inst).shape.element_type ≠ (m.inst operand).shape.element_type →
      IsPrefixPathOk c m path = false) ∧
    (∀ (path : List InstId) (i : Nat) (inst operand : InstId), path[i]? = some inst →
      (m.inst inst).opcode ≠ HloOpcode.kConvert → operand ∈ (m.inst inst).operands →
      (m.inst inst).shape.element_type ≠ (m.inst operand).shape.element_type →
      ¬ ((m.inst inst).opcode = HloOpcode.kGetTupleElement ∧
        c.IsPopOpsElementwise inst = false ∧ i + 1 = path.length) →
      IsSuffixPathOk c m path = none) ∧
    (∀ (comp : HloComputation) (ops_with_layout : List InstId) (s : PassState)
      (st : ModeState),
      FindLayoutSensativeTargets c m comp ops_with_layout s = Except.ok st →
      ∀ call ∈ st.calls, ∃ prefix_path suffix_path : List InstId,
        (c.graph comp).ShortestPath call.args.source call.args.target = some prefix_path ∧
        (c.graph comp).ShortestPath call.args.layout_producer call.args.target =
          some suffix_path ∧
        2 ≤ prefix_path.length ∧ call.args.backward_path = prefix_path.tail.dropLast ∧
        2 ≤ suffix_path.length ∧ call.args.forward_path = suffix_path.tail.dropLast ∧
        IsPrefixPathOk c m prefix_path.tail.dropLast = true ∧
        IsSuffixPathOk c m suffix_path.tail.dropLast = some call.args.layout_output_index ∧
        (∀ inst ∈ prefix_path.tail.dropLast, ∀ operand ∈ (m.inst inst).operands,
          (m.inst inst).shape.element_type ≠ (m.inst operand).shape.element_type →
          (m.inst inst).opcode = HloOpcode.kConvert) ∧
        (∀ (i : Nat) (inst : InstId), suffix_path.tail.dropLast[i]? = some inst →
          ∀ operand ∈ (m.inst inst).operands,
          (m.inst inst).shape.element_type ≠ (m.inst operand).shape.element_type →
          (m.inst inst).opcode = HloOpcode.kConvert ∨
          ((m.inst inst).opcode = HloOpcode.kGetTupleElement ∧
            c.IsPopOpsElementwise inst = false ∧
            i + 1 = suffix_path.tail.dropLast.length))) ∧
    (∀ (comp : HloComputation) (s : PassState) (st : ModeState),
      FindLayoutDependentTargets c m comp s = Except.ok st →
      ∀ call ∈ st.calls, ∃ prefix_path : List InstId,
        (c.graph comp).ShortestPath call.args.source call.args.target = some prefix_path ∧
        2 ≤ prefix_path.length ∧ call.args.backward_path = prefix_path.tail.dropLast ∧
        call.args.forward_path = [] ∧
        IsPrefixPathOk c m prefix_path.tail.dropLast = true ∧
        (∀ inst ∈ prefix_path.tail.dropLast, ∀ operand ∈ (m.inst inst).operands,
          (m.inst inst).shape.element_type ≠ (m.inst operand).shape.element_type →
          (m.inst inst).opcode = HloOpcode.kConvert)) := by
  have htrim : ∀ (path trimmed : List InstId), trimEnds path = Except.ok trimmed →
      2 ≤ path.length ∧ trimmed = path.tail.dropLast := by
    intro path trimmed h
    unfold trimEnds at h
    split at h
    · rename_i hlen
      simp only [Except.ok.injEq] at h
      exact ⟨hlen, h.symm⟩
    · exact absurd h (by simp)
  refine ⟨?_, ?_, ?_, ?_⟩
  · intro path inst operand hin hconv hop hne
    cases hp : IsPrefixPathOk c m path
    · rfl
    · rcases IsPrefixPathOk_types c m path hp inst hin with h | h
      · exact absurd h hconv
      · exact absurd (h operand hop) hne
  · intro path i inst operand hi hconv hop hne hnot
    cases hs : IsSuffixPathOk c m path with
    | none => rfl
    | some idx =>
      rcases IsSuffixPathOk_types c m path idx hs i inst hi with h | h | h
      · exact absurd h hconv
      · exact absurd (h operand hop) hne
      · exact absurd h hnot
  · intro comp ops_with_layout s st h call hc
    obtain ⟨ad, sc, inputs, source, targets, target, hp⟩ :=
      FindLayoutSensativeTargets_prepared c m comp ops_with_layout s st h call hc
    obtain ⟨prefix_path, suffix_path, h1, h2, h3, h4, h5, h6⟩ :=
      prepareSensitive_paths c m _ ad sc inputs source targets target call.args hp
    obtain ⟨hlen1, hback⟩ := htrim _ _ h3
    obtain ⟨hlen2, hfwd⟩ := htrim _ _ h4
    rw [hback] at h5
    rw [hfwd] at h6
    refine ⟨prefix_path, suffix_path, h1, h2, hlen1, hback, hlen2, hfwd, h5, h6, ?_, ?_⟩
    · intro inst hin operand hop hne
      rcases IsPrefixPathOk_types c m _ h5 inst hin with h | h
      · exact h
      · exact absurd (h operand hop) hne
    · intro i inst hi operand hop hne
      rcases IsSuffixPathOk_types c m _ _ h6 i inst hi with h | h | h
      · exact Or.inl h
      · exact absurd (h operand hop) hne
      · exact Or.inr h
  · intro comp s st h call hc
    obtain ⟨inputs, source, targets, target, hp⟩ :=
      FindLayoutDependentTargets_prepared c m comp s st h call hc
    obtain ⟨prefix_path, h1, h3, h5, hempty⟩ :=
      prepareDependent_paths c m _ inputs source targets target call.args hp
    obtain ⟨hlen1, hback⟩ := htrim _ _ h3
    rw [hback] at h5
    refine ⟨prefix_path, h1, hlen1, hback, hempty, h5, ?_⟩
    intro inst hin operand hop hne
    rcases IsPrefixPathOk_types c m _ h5 inst hin with h | h
    · exact h
    · exact absurd (h operand hop) hne

/-- C20 (amended), on the examples: the root 5 of the example computation, of
tuple type over operands of type F32, makes both validators reject the path
2, 5.  On the path example the one call of the first mode, for source 0 and
target 2 with producer 1, has the backward path 8 and the forward path 9: the
shortest paths 0, 8, 2 and 1, 9, 2 without their ends.  On the example
computation the call of the second mode, for source 7 and target 6, has an
empty backward path: the shortest path 7, 6 without its ends. -/
theorem C20_type_changing_path_is_rejected_witness :
    IsPrefixPathOk exampleCollaborators exampleModule [2, 5] = false ∧
    IsSuffixPathOk exampleCollaborators exampleModule [2, 5] = none ∧
    pathSensitive.calls = [⟨⟨0, 2, 1, 1, 0, [2], [9], [8], []⟩, true⟩] ∧
    pathGraph.ShortestPath 0 2 = some [0, 8, 2] ∧
    pathGraph.ShortestPath 1 2 = some [1, 9, 2] ∧
    (∀ call ∈ pathSensitive.calls, ∃ prefix_path suffix_path : List InstId,
      (pathCollaborators.graph pathComputation).ShortestPath call.args.source
        call.args.target = some prefix_path ∧
      (pathCollaborators.graph pathComputation).ShortestPath call.args.layout_producer
        call.args.target = some suffix_path ∧
      2 ≤ prefix_path.length ∧ call.args.backward_path = prefix_path.tail.dropLast ∧
      2 ≤ suffix_path.length ∧ call.args.forward_path = suffix_path.tail.dropLast ∧
      IsPrefixPathOk pathCollaborators pathModule prefix_path.tail.dropLast = true ∧
      IsSuffixPathOk pathCollaborators pathModule suffix_path.tail.dropLast =
        some call.args.layout_output_index ∧
      (∀ inst ∈ prefix_path.tail.dropLast, ∀ operand ∈ (pathModule.inst inst).operands,
        (pathModule.inst inst).shape.element_type ≠
          (pathModule.inst operand).shape.element_type →
        (pathModule.inst inst).opcode = HloOpcode.kConvert) ∧
      (∀ (i : Nat) (inst : InstId), suffix_path.tail.dropLast[i]? = some inst →
        ∀ operand ∈ (pathModule.inst inst).operands,
        (pathModule.inst inst).shape.element_type ≠
          (pathModule.inst operand).shape.element_type →
        (pathModule.inst inst).opcode = HloOpcode.kConvert ∨
        ((pathModule.inst inst).opcode = HloOpcode.kGetTupleElement ∧
          pathCollaborators.IsPopOpsElementwise inst = false ∧
          i + 1 = suffix_path.tail.dropLast.length))) ∧
    exampleDependent.calls = [⟨⟨7, 6, 2, 1, 0, [6], [], [], []⟩, true⟩] ∧
    (∀ call ∈ exampleDependent.calls, ∃ prefix_path : List InstId,
      (exampleCollaborators.graph exampleComputation).ShortestPath call.args.source
        call.args.target = some prefix_path ∧
      2 ≤ prefix_path.length ∧ call.args.backward_path = prefix_path.tail.dropLast ∧
      call.args.forward_path = [] ∧
      IsPrefixPathOk exampleCollaborators exampleModule prefix_path.tail.dropLast = true ∧
      (∀ inst ∈ prefix_path.tail.dropLast, ∀ operand ∈ (exampleModule.inst inst).operands,
        (exampleModule.inst inst).shape.element_type ≠
          (exampleModule.inst operand).shape.element_type →
        (exampleModule.inst inst).opcode = HloOpcode.kConvert)) :=
  ⟨(C20_type_changing_path_is_rejected exampleCollaborators exampleModule).1 [2, 5] 5 2
      (by decide) (by decide) (by decide) (by decide),
    (C20_type_changing_path_is_rejected exampleCollaborators exampleModule).2.1 [2, 5] 1 5 2
      (by rfl) (by decide) (by decide) (by decide) (by decide),
    by rfl, by rfl, by rfl,
    (C20_type_changing_path_is_rejected pathCollaborators pathModule).2.2.1
      pathComputation [1] pathRunState pathSensitive (by rfl),
    by rfl,
    (C20_type_changing_path_is_rejected exampleCollaborators exampleModule).2.2.2
      exampleComputation exampleSensitive.state exampleDependent (by rfl)⟩

/-! ## Lemmas on the target finder -/

theorem is_independent_iff (inst : InstId) (deps : List InstId) (r : HloReachabilityMap) :
    is_independent inst deps r = true ↔
      ∀ dep ∈ deps, dep ≠ inst → r.IsReachable dep inst = false := by
  unfold is_independent
  rw [List.all_eq_true]
  constructor
  · intro h dep hd hne
    have := h dep hd
    simp only [Bool.not_eq_true', Bool.and_eq_false_iff, decide_eq_false_iff_not] at this
    rcases this with h1 | h1
    · exact absurd hne h1
    · exact h1
  · intro h dep hd
    by_cases hne : dep = inst
    · simp [hne]
    · simp [hne, h dep hd hne]

theorem mem_independentTargets (values : List InstId) (r : HloReachabilityMap)
    (pred : InstId → Bool) (x : InstId) :
    x ∈ independentTargets values r pred ↔
      x ∈ values ∧ pred x = true ∧
        ∀ y ∈ values, pred y = true → y ≠ x → r.IsReachable y x = false := by
  unfold independentTargets reduce
  rw [List.mem_filter, List.mem_filter, is_independent_iff]
  constructor
  · rintro ⟨⟨hv, hp⟩, hi⟩
    exact ⟨hv, hp, fun y hy hpy hne => hi y (List.mem_filter.mpr ⟨hy, hpy⟩) hne⟩
  · rintro ⟨hv, hp, hi⟩
    exact ⟨⟨hv, hp⟩, fun y hy hne => hi y (List.mem_filter.mp hy).1 (List.mem_filter.mp hy).2 hne⟩

/-- `find_all_targets` in closed form: nothing when no candidate is left, else
the bias-adds, the normalization ops and the others among the candidates
left, in this order. -/
theorem find_all_targets_eq (c : Collaborators) (values : List InstId)
    (r : HloReachabilityMap) (pred : InstId → Bool) :
    find_all_targets c values r pred =
      if independentTargets values r pred = [] then none
      else some
        ((independentTargets values r pred).filter c.IsPopOpsBiasAdd ++
          (independentTargets values r pred).filter c.IsNormInferenceOrTraining ++
          (independentTargets values r pred).filter
            (fun i => !c.IsPopOpsBiasAdd i && !c.IsNormInferenceOrTraining i)) := by
  have h1 : (reduce values pred).filter
      (fun i => decide (i ∉ (reduce values pred).filter
        (fun this_inst => !is_independent this_inst (reduce values pred) r))) =
      independentTargets values r pred := by
    unfold independentTargets
    apply List.filter_congr
    intro x hx
    simp [List.mem_filter, hx]
  have h2 : (independentTargets values r pred).filter
      (fun i => decide (((independentTargets values r pred).filter c.IsPopOpsBiasAdd).count i = 0) &&
        decide (((independentTargets values r pred).filter
          c.IsNormInferenceOrTraining).count i = 0)) =
      (independentTargets values r pred).filter
        (fun i => !c.IsPopOpsBiasAdd i && !c.IsNormInferenceOrTraining i) := by
    apply List.filter_congr
    intro x hx
    simp [List.count_eq_zero, List.mem_filter, hx]
  unfold independentTargets reduce at h1 h2
  unfold find_all_targets independentTargets reduce
  simp only [h1, h2, List.length_eq_zero]

theorem mem_find_all_targets (c : Collaborators) (values : List InstId)
    (r : HloReachabilityMap) (pred : InstId → Bool) (l : List InstId)
    (h : find_all_targets c values r pred = some l) (x : InstId) :
    x ∈ l ↔ x ∈ independentTargets values r pred := by
  rw [find_all_targets_eq] at h
  split at h
  · exact absurd h (by simp)
  · simp only [Option.some.injEq] at h
    rw [← h]
    simp only [List.mem_append, List.mem_filter, Bool.and_eq_true, Bool.not_eq_true']
    constructor
    · rintro ((h1 | h1) | h1) <;> exact h1.1
    · intro hx
      cases hb : c.IsPopOpsBiasAdd x
      · cases hn : c.IsNormInferenceOrTraining x
        · exact Or.inr ⟨hx, rfl, rfl⟩
        · exact Or.inl (Or.inr ⟨hx, rfl⟩)
      · exact Or.inl (Or.inl ⟨hx, rfl⟩)

/-- A duplicate-free list whose only element is `a` is `[a]`. -/
theorem eq_singleton_of_nodup {l : List InstId} {a : InstId} (hnd : l.Nodup)
    (hmem : ∀ x, x ∈ l ↔ x = a) : l = [a] := by
  cases l with
  | nil => exact absurd ((hmem a).mpr rfl) (List.not_mem_nil a)
  | cons x rest =>
    have hx : x = a := (hmem x).mp (List.mem_cons_self _ _)
    subst hx
    cases rest with
    | nil => rfl
    | cons y rest2 =>
      have hy : y = x := (hmem y).mp (List.mem_cons_of_mem _ (List.mem_cons_self _ _))
      subst hy
      exact absurd (List.mem_cons_self _ _) (List.nodup_cons.mp hnd).1

theorem independentTargets_nodup (values : List InstId) (r : HloReachabilityMap)
    (pred : InstId → Bool) (hnd : values.Nodup) : (independentTargets values r pred).Nodup := by
  unfold independentTargets reduce
  exact (hnd.filter _).filter _

/-! ## The target finder: claims C16, C17 -/

/-- C16: the elements of the list `find_all_targets` returns are exactly the
admissible candidates no other admissible candidate reaches, and it returns
nothing exactly when there is no such candidate.  No returned element is
reachable from another returned element; and when `values` (a set) has
exactly the two admissible candidates `A` and `B`, `B` reachable from `A` and
`A` not from `B`, the result is `[A]` (`A` being of one class only). -/
theorem C16_find_all_targets_keeps_independent (c : Collaborators) (values : List InstId)
    (r : HloReachabilityMap) (pred : InstId → Bool) :
    (∀ l, find_all_targets c values r pred = some l → ∀ x, x ∈ l ↔
      (x ∈ values ∧ pred x = true ∧
        ∀ y ∈ values, pred y = true → y ≠ x → r.IsReachable y x = false)) ∧
    (find_all_targets c values r pred = none ↔
      ¬ ∃ x, x ∈ values ∧ pred x = true ∧
        ∀ y ∈ values, pred y = true → y ≠ x → r.IsReachable y x = false) ∧
    (∀ l, find_all_targets c values r pred = some l →
      ∀ x ∈ l, ∀ y ∈ l, y ≠ x → r.IsReachable y x = false) ∧
    (∀ A B : InstId, values.Nodup → A ≠ B → A ∈ values → B ∈ values →
      pred A = true → pred B = true → (∀ x ∈ values, pred x = true → x = A ∨ x = B) →
      r.IsReachable A B = true → r.IsReachable B A = false →
      ¬ (c.IsPopOpsBiasAdd A = true ∧ c.IsNormInferenceOrTraining A = true) →
      find_all_targets c values r pred = some [A]) := by
  refine ⟨?_, ?_, ?_, ?_⟩
  · intro l h x
    rw [mem_find_all_targets c values r pred l h, mem_independentTargets]
  · rw [find_all_targets_eq]
    constructor
    · intro h
      split at h
      · rename_i hnil
        rintro ⟨x, hx⟩
        have := (mem_independentTargets values r pred x).mpr hx
        rw [hnil] at this
        exact absurd this (List.not_mem_nil x)
      · exact absurd h (by simp)
    · intro h
      have hnil : independentTargets values r pred = [] := by
        apply List.eq_nil_iff_forall_not_mem.mpr
        intro x hx
        exact h ⟨x, (mem_independentTargets values r pred x).mp hx⟩
      simp [hnil]
  · intro l h x hx y hy hne
    have hx1 := (mem_independentTargets values r pred x).mp
      ((mem_find_all_targets c values r pred l h x).mp hx)
    have hy1 := (mem_independentTargets values r pred y).mp
      ((mem_find_all_targets c values r pred l h y).mp hy)
    exact hx1.2.2 y hy1.1 hy1.2.1 hne
  · intro A B hnd hAB hA hB hpA hpB hall hreach hnot hclass
    have hone : independentTargets values r pred = [A] := by
      apply eq_singleton_of_nodup (independentTargets_nodup values r pred hnd)
      intro x
      rw [mem_independentTargets]
      constructor
      · rintro ⟨hx, hpx, hind⟩
        rcases hall x hx hpx with rfl | rfl
        · rfl
        · have := hind A hA hpA hAB
          rw [hreach] at this
          exact absurd this (by simp)
      · rintro rfl
        refine ⟨hA, hpA, ?_⟩
        intro y hy hpy hne
        rcases hall y hy hpy with rfl | rfl
        · exact absurd rfl hne
        · exact hnot
    rw [find_all_targets_eq, hone]
    cases hb : c.IsPopOpsBiasAdd A
    · cases hn : c.IsNormInferenceOrTraining A <;> simp [hb, hn]
    · cases hn : c.IsNormInferenceOrTraining A
      · simp [hb, hn]
      · exact absurd ⟨hb, hn⟩ hclass

/-- C16, on the example oracle with the operand edges 0 → 2, 1 → 2, 2 → 3:
of the candidates 2 and 3 only 2 is left. -/
theorem C16_find_all_targets_keeps_independent_witness :
    find_all_targets exampleCollaborators [3, 2] (HloReachabilityMap.Build dataChain [])
      (fun _ => true) = some [2] ∧
    (∀ x, x ∈ [2] ↔
      (x ∈ [3, 2] ∧ (fun _ => true) x = true ∧
        ∀ y ∈ [3, 2], (fun _ => true) y = true → y ≠ x →
          (HloReachabilityMap.Build dataChain []).IsReachable y x = false)) ∧
    (∀ x ∈ [2], ∀ y ∈ [2], y ≠ x →
      (HloReachabilityMap.Build dataChain []).IsReachable y x = false) :=
  ⟨(C16_find_all_targets_keeps_independent exampleCollaborators [3, 2]
      (HloReachabilityMap.Build dataChain []) (fun _ => true)).2.2.2 2 3 (by decide) (by decide)
      (by decide) (by decide) rfl rfl (by decide) (by decide) (by decide) (by decide),
    (C16_find_all_targets_keeps_independent exampleCollaborators [3, 2]
      (HloReachabilityMap.Build dataChain []) (fun _ => true)).1 [2] (by rfl),
    (C16_find_all_targets_keeps_independent exampleCollaborators [3, 2]
      (HloReachabilityMap.Build dataChain []) (fun _ => true)).2.2.1 [2] (by rfl)⟩

/-- C17: a list `find_all_targets` returns is made of bias-add candidates,
then normalization candidates, then candidates that are neither.  No element
that is neither precedes a normalization element; and, no op being both a
bias-add and a normalization op, no element that is no bias-add precedes a
bias-add element. -/
theorem C17_find_all_targets_priority_order (c : Collaborators) (values : List InstId)
    (r : HloReachabilityMap) (pred : InstId → Bool) (l : List InstId)
    (h : find_all_targets c values r pred = some l) :
    (∃ biases norms others : List InstId, l = biases ++ norms ++ others ∧
      (∀ x ∈ biases, c.IsPopOpsBiasAdd x = true) ∧
      (∀ x ∈ norms, c.IsNormInferenceOrTraining x = true) ∧
      (∀ x ∈ others, c.IsPopOpsBiasAdd x = false ∧ c.IsNormInferenceOrTraining x = false)) ∧
    l.Pairwise (fun x y => c.IsNormInferenceOrTraining y = true →
      c.IsPopOpsBiasAdd x = true ∨ c.IsNormInferenceOrTraining x = true) ∧
    (ClassesDisjoint c →
      l.Pairwise (fun x y => c.IsPopOpsBiasAdd y = true → c.IsPopOpsBiasAdd x = true)) := by
  rw [find_all_targets_eq] at h
  split at h
  · exact absurd h (by simp)
  · simp only [Option.some.injEq] at h
    have hb : ∀ x ∈ (independentTargets values r pred).filter c.IsPopOpsBiasAdd,
        c.IsPopOpsBiasAdd x = true := fun x hx => (List.mem_filter.mp hx).2
    have hn : ∀ x ∈ (independentTargets values r pred).filter c.IsNormInferenceOrTraining,
        c.IsNormInferenceOrTraining x = true := fun x hx => (List.mem_filter.mp hx).2
    have ho : ∀ x ∈ (independentTargets values r pred).filter
        (fun i => !c.IsPopOpsBiasAdd i && !c.IsNormInferenceOrTraining i),
        c.IsPopOpsBiasAdd x = false ∧ c.IsNormInferenceOrTraining x = false := by
      intro x hx
      simpa using (List.mem_filter.mp hx).2
    refine ⟨⟨_, _, _, h.symm, hb, hn, ho⟩, ?_, ?_⟩
    · rw [← h, List.pairwise_append, List.pairwise_append]
      refine ⟨⟨?_, ?_, ?_⟩, ?_, ?_⟩
      · exact List.Pairwise.imp_of_mem (fun hx _ _ _ => Or.inl (hb _ hx))
          (List.pairwise_of_forall (fun _ _ => trivial))
      · exact List.Pairwise.imp_of_mem (fun hx _ _ _ => Or.inr (hn _ hx))
          (List.pairwise_of_forall (fun _ _ => trivial))
      · intro x hx y _ _
        exact Or.inl (hb x hx)
      · exact List.Pairwise.imp_of_mem (fun _ hy _ hny => by
          rw [(ho _ hy).2] at hny
          exact absurd hny (by simp))
          (List.pairwise_of_forall (fun _ _ => trivial))
      · intro x hx y hy hny
        rw [(ho y hy).2] at hny
        exact absurd hny (by simp)
    · intro hdis
      rw [← h, List.pairwise_append, List.pairwise_append]
      refine ⟨⟨?_, ?_, ?_⟩, ?_, ?_⟩
      · exact List.Pairwise.imp_of_mem (fun hx _ _ _ => hb _ hx)
          (List.pairwise_of_forall (fun _ _ => trivial))
      · exact List.Pairwise.imp_of_mem (fun _ hy _ hby => absurd ⟨hby, hn _ hy⟩ (hdis _))
          (List.pairwise_of_forall (fun _ _ => trivial))
      · intro x hx y _ _
        exact hb x hx
      · exact List.Pairwise.imp_of_mem (fun _ hy _ hby => by
          rw [(ho _ hy).1] at hby
          exact absurd hby (by simp))
          (List.pairwise_of_forall (fun _ _ => trivial))
      · intro x hx y hy hby
        rcases List.mem_append.mp hx with hx | hx
        · exact hb x hx
        · rw [(ho y hy).1] at hby
          exact absurd hby (by simp)

/-- C17, on the priority example: the candidates 4, 3, 2 come out as 2
(bias-add), 3 (normalization), 4. -/
theorem C17_find_all_targets_priority_order_witness :
    find_all_targets priorityCollaborators [0, 4, 3, 2, 5] priorityStart.reachability_map
      (fun x => IsLayoutDependentTarget priorityCollaborators priorityModule x) =
      some [2, 3, 4] ∧
    ((∃ biases norms others : List InstId, [2, 3, 4] = biases ++ norms ++ others ∧
      (∀ x ∈ biases, priorityCollaborators.IsPopOpsBiasAdd x = true) ∧
      (∀ x ∈ norms, priorityCollaborators.IsNormInferenceOrTraining x = true) ∧
      (∀ x ∈ others, priorityCollaborators.IsPopOpsBiasAdd x = false ∧
        priorityCollaborators.IsNormInferenceOrTraining x = false)) ∧
    [2, 3, 4].Pairwise (fun x y => priorityCollaborators.IsNormInferenceOrTraining y = true →
      priorityCollaborators.IsPopOpsBiasAdd x = true ∨
        priorityCollaborators.IsNormInferenceOrTraining x = true) ∧
    (ClassesDisjoint priorityCollaborators →
      [2, 3, 4].Pairwise (fun x y => priorityCollaborators.IsPopOpsBiasAdd y = true →
        priorityCollaborators.IsPopOpsBiasAdd x = true))) ∧
    ClassesDisjoint priorityCollaborators :=
  ⟨by rfl,
    C17_find_all_targets_priority_order priorityCollaborators [0, 4, 3, 2, 5]
      priorityStart.reachability_map
      (fun x => IsLayoutDependentTarget priorityCollaborators priorityModule x) [2, 3, 4]
      (by rfl),
    by
      intro inst h
      have h1 : inst = 2 ∨ inst = 8 := of_decide_eq_true h.1
      have h2 : inst = 3 ∨ inst = 10 := of_decide_eq_true h.2
      rcases h1 with rfl | rfl <;> rcases h2 with h2 | h2 <;> exact absurd h2 (by decide)⟩

/-! ## The side table: claim C15 -/

/-- The side table a call leaves when it returns true. -/
theorem call_created_deferred (c : Collaborators) (m : HloModule) (r : HloReachabilityMap)
    (s : PassState) (a : CommitArgs) (hcreated : (a.call c m r s).created = true) :
    (a.call c m r s).state.deferred_allocations =
      match a.deferred_allocations_path.getLast? with
      | some back =>
        mapAssign s.deferred_allocations (m.inst a.source).parent
          (mapAssign ((mapFind s.deferred_allocations (m.inst a.source).parent).getD [])
            back (a.source, 0))
      | none => s.deferred_allocations := by
  unfold CommitArgs.call CreateForwardAllocationTarget at hcreated ⊢
  by_cases h1 : r.IsReachable a.source a.layout_producer = true
  · simp [h1] at hcreated
  · have h1f : r.IsReachable a.source a.layout_producer = false := by
      simpa using h1
    by_cases h2 : (orderSiblings a.target a.other_targets
        (r.UpdateReachabilityThroughInstruction
          (AddControlDependencyTo s.control a.layout_producer a.source) a.source)
        (AddControlDependencyTo s.control a.layout_producer a.source) []).dependencies_ok = true
    · simp [h1f, h2]
    · have h2f : (orderSiblings a.target a.other_targets
          (r.UpdateReachabilityThroughInstruction
            (AddControlDependencyTo s.control a.layout_producer a.source) a.source)
          (AddControlDependencyTo s.control a.layout_producer a.source) []).dependencies_ok =
          false := by
        simpa using h2
      simp [h1f, h2f] at hcreated

/-- C15: when the call returns true and the deferred allocation path is not
empty, the side table afterwards maps the last element of the path, under the
computation of `source`, to `(source, 0)`, and every other entry of the side
table is as before; when the path is empty the side table is as before. -/
theorem C15_success_registers_deferred_allocation (c : Collaborators) (m : HloModule)
    (r : HloReachabilityMap) (s : PassState) (a : CommitArgs)
    (hcreated : (a.call c m r s).created = true) :
    (∀ back, a.deferred_allocations_path.getLast? = some back →
      sideTableFind (a.call c m r s).state.deferred_allocations (m.inst a.source).parent back =
        some (a.source, 0) ∧
      ∀ (comp : CompId) (key : InstId × Nat),
        (comp, key) ≠ ((m.inst a.source).parent, back) →
        sideTableFind (a.call c m r s).state.deferred_allocations comp key =
          sideTableFind s.deferred_allocations comp key) ∧
    (a.deferred_allocations_path = [] →
      (a.call c m r s).state.deferred_allocations = s.deferred_allocations) := by
  rw [call_created_deferred c m r s a hcreated]
  constructor
  · intro back hback
    simp only [hback]
    unfold sideTableFind
    constructor
    · rw [mapFind_mapAssign_same]
      simp only [Option.some_bind]
      exact mapFind_mapAssign_same _ _ _
    · intro comp key hne
      by_cases hc : comp = (m.inst a.source).parent
      · subst hc
        have hk : key ≠ back := fun hk => hne (by rw [hk])
        rw [mapFind_mapAssign_same]
        simp only [Option.some_bind]
        rw [mapFind_mapAssign_other _ _ _ _ hk]
        cases hf : mapFind s.deferred_allocations (m.inst a.source).parent with
        | none => simp [mapFind]
        | some inner => simp
      · rw [mapFind_mapAssign_other _ _ _ _ hc]
  · intro hnil
    simp [hnil]

/-- C15, at a call that returns true with the deferred allocation path
(4, 1), (5, 0) on a side table that holds an entry for another computation. -/
theorem C15_success_registers_deferred_allocation_witness :
    (CommitArgs.call exampleCollaborators plainModule
      (HloReachabilityMap.Build dataIndependent [])
      { exampleState with deferred_allocations := [(7, [((8, 0), (9, 0))])] }
      ⟨0, 2, 1, 1, 0, [2, 3], [], [], [(4, 1), (5, 0)]⟩).created = true ∧
    ((∀ back, [(4, 1), (5, 0)].getLast? = some back →
      sideTableFind (CommitArgs.call exampleCollaborators plainModule
        (HloReachabilityMap.Build dataIndependent [])
        { exampleState with deferred_allocations := [(7, [((8, 0), (9, 0))])] }
        ⟨0, 2, 1, 1, 0, [2, 3], [], [], [(4, 1), (5, 0)]⟩).state.deferred_allocations
        (plainModule.inst 0).parent back = some (0, 0) ∧
      ∀ (comp : CompId) (key : InstId × Nat),
        (comp, key) ≠ ((plainModule.inst 0).parent, back) →
        sideTableFind (CommitArgs.call exampleCollaborators plainModule
          (HloReachabilityMap.Build dataIndependent [])
          { exampleState with deferred_allocations := [(7, [((8, 0), (9, 0))])] }
          ⟨0, 2, 1, 1, 0, [2, 3], [], [], [(4, 1), (5, 0)]⟩).state.deferred_allocations
          comp key =
          sideTableFind [(7, [((8, 0), (9, 0))])] comp key) ∧
    (([(4, 1), (5, 0)] : DeferredAllocationsPath) = [] →
      (CommitArgs.call exampleCollaborators plainModule
        (HloReachabilityMap.Build dataIndependent [])
        { exampleState with deferred_allocations := [(7, [((8, 0), (9, 0))])] }
        ⟨0, 2, 1, 1, 0, [2, 3], [], [], [(4, 1), (5, 0)]⟩).state.deferred_allocations =
        [(7, [((8, 0), (9, 0))])])) ∧
    (CommitArgs.call exampleCollaborators plainModule
      (HloReachabilityMap.Build dataIndependent [])
      { exampleState with deferred_allocations := [(7, [((8, 0), (9, 0))])] }
      ⟨0, 2, 1, 1, 0, [2, 3], [], [], [(4, 1), (5, 0)]⟩).state.deferred_allocations =
      [(7, [((8, 0), (9, 0))]), (0, [((5, 0), (0, 0))])] :=
  ⟨by decide,
    C15_success_registers_deferred_allocation exampleCollaborators plainModule
      (HloReachabilityMap.Build dataIndependent [])
      { exampleState with deferred_allocations := [(7, [((8, 0), (9, 0))])] }
      ⟨0, 2, 1, 1, 0, [2, 3], [], [], [(4, 1), (5, 0)]⟩ (by decide),
    by decide⟩

/-! ## Lemmas on the deferred allocation path builder -/

/-- What the first loop over the users has checked when it runs to its end:
every user is a get-tuple-element with a compatible sharding, and its tuple
index is neither among those seen before the loop nor that of a later user. -/
theorem usersAreUniqueGTEs_true (c : Collaborators) (m : HloModule) (inst : InstId) :
    ∀ (users : List InstId) (seen : List Nat),
      usersAreUniqueGTEs c m inst users seen = true →
      ∀ (i : Nat) (u : InstId), users[i]? = some u →
        (m.inst u).opcode = HloOpcode.kGetTupleElement ∧
        ShardingCompatible c m inst u ∧
        (m.inst u).tuple_index ∉ seen ∧
        ∀ (j : Nat) (v : InstId), i < j → users[j]? = some v →
          (m.inst v).tuple_index ≠ (m.inst u).tuple_index := by
  intro users
  induction users with
  | nil =>
    intro seen _ i u hi
    simp at hi
  | cons x rest ih =>
    intro seen h i u hi
    rw [usersAreUniqueGTEs] at h
    by_cases hg : (m.inst x).opcode = HloOpcode.kGetTupleElement
    · simp only [hg, if_true] at h
      by_cases hseen : (m.inst x).tuple_index ∈ seen
      · simp [hseen] at h
      · simp only [hseen, if_false] at h
        have hrest : usersAreUniqueGTEs c m inst rest
            (setInsert seen (m.inst x).tuple_index) = true ∧ ShardingCompatible c m inst x := by
          unfold ShardingCompatible
          cases hu : (m.inst x).sharding with
          | none =>
            cases hs : (m.inst inst).sharding with
            | none =>
              simp only [hu, hs, Option.isSome_none, Bool.or_self, Bool.false_eq_true,
                if_false] at h
              exact ⟨h, trivial⟩
            | some sh =>
              simp [hu, hs] at h
          | some us =>
            cases hs : (m.inst inst).sharding with
            | none =>
              simp [hu, hs] at h
            | some sh =>
              simp only [hu, hs, Option.isSome_some, Bool.or_self, if_true] at h
              by_cases hne : (if sh.IsTuple = true then
                  c.GetSubSharding sh (m.inst inst).shape (m.inst x).tuple_index else sh) = us
              · simp only [hne, ne_eq, not_true_eq_false, if_false] at h
                exact ⟨h, hne⟩
              · simp [hne] at h
        have hih := ih _ hrest.1
        cases i with
        | zero =>
          simp only [List.getElem?_cons_zero, Option.some.injEq] at hi
          subst hi
          refine ⟨hg, hrest.2, hseen, ?_⟩
          intro j v hj hv
          cases j with
          | zero => exact absurd hj (Nat.lt_irrefl 0)
          | succ k =>
            simp only [List.getElem?_cons_succ] at hv
            have := (hih k v hv).2.2.1
            intro heq
            exact this ((mem_setInsert _ _ _).mpr (Or.inr heq))
        | succ k =>
          simp only [List.getElem?_cons_succ] at hi
          obtain ⟨a1, a2, a3, a4⟩ := hih k u hi
          refine ⟨a1, a2, ?_, ?_⟩
          · intro hmem
            exact a3 ((mem_setInsert _ _ _).mpr (Or.inl hmem))
          · intro j v hj hv
            cases j with
            | zero => exact absurd hj (Nat.not_lt_zero _)
            | succ l =>
              simp only [List.getElem?_cons_succ] at hv
              exact a4 l v (Nat.lt_of_succ_lt_succ hj) hv
    · simp [hg] at h

/-- `FlattenInputs` leaves the map as it is when the first loop over the
users of a tuple-shaped node returns. -/
theorem FlattenInputs_stops (c : Collaborators) (m : HloModule) (fuel : Nat) (inst : InstId)
    (path : List InstId) (acc : InputMap) (htuple : (m.inst inst).shape.IsTuple = true)
    (hstop : usersAreUniqueGTEs c m inst (m.inst inst).users [] = false) :
    FlattenInputs c m (fuel + 1) inst path acc = Except.ok acc := by
  rw [FlattenInputs]
  simp [htuple, hstop]

/-! ## The deferred allocation path builder: claims C13, C14 -/

/-- C13: when a tuple-shaped node visited by `FlattenInputs` has a user that
is no get-tuple-element, or two get-tuple-element users with the same tuple
index, or a get-tuple-element user whose sharding is not compatible with its
own, the call returns the map unchanged: nothing reached through the node
gets an entry. -/
theorem C13_flatten_stops_at_unsuitable_tuple (c : Collaborators) (m : HloModule)
    (fuel : Nat) (inst : InstId) (path : List InstId) (acc : InputMap)
    (htuple : (m.inst inst).shape.IsTuple = true)
    (hbad :
      (∃ user ∈ (m.inst inst).users, (m.inst user).opcode ≠ HloOpcode.kGetTupleElement) ∨
      (∃ (i j : Nat) (u v : InstId), i < j ∧ (m.inst inst).users[i]? = some u ∧
        (m.inst inst).users[j]? = some v ∧
        (m.inst u).opcode = HloOpcode.kGetTupleElement ∧
        (m.inst v).opcode = HloOpcode.kGetTupleElement ∧
        (m.inst u).tuple_index = (m.inst v).tuple_index) ∨
      (∃ user ∈ (m.inst inst).users, (m.inst user).opcode = HloOpcode.kGetTupleElement ∧
        ¬ ShardingCompatible c m inst user)) :
    FlattenInputs c m (fuel + 1) inst path acc = Except.ok acc := by
  apply FlattenInputs_stops c m fuel inst path acc htuple
  cases hu : usersAreUniqueGTEs c m inst (m.inst inst).users []
  · rfl
  · have hall := usersAreUniqueGTEs_true c m inst _ _ hu
    rcases hbad with ⟨user, hmem, hne⟩ | ⟨i, j, u, v, hij, hi, hj, _, _, heq⟩ |
      ⟨user, hmem, _, hnc⟩
    · obtain ⟨k, hk⟩ := List.getElem?_of_mem hmem
      exact absurd (hall k user hk).1 hne
    · exact absurd heq.symm ((hall i u hi).2.2.2 j v hij hj)
    · obtain ⟨k, hk⟩ := List.getElem?_of_mem hmem
      exact absurd (hall k user hk).2.1 hnc

/-- C13, on the duplicate example: the parameter 0 has two get-tuple-element
users of index 0, and `FlattenInputs` leaves the map as it is. -/
theorem C13_flatten_stops_at_unsuitable_tuple_witness :
    FlattenInputs exampleCollaborators exampleDuplicateModule (4 + 1) 0 [0] [(9, [])] =
      Except.ok [(9, [])] :=
  C13_flatten_stops_at_unsuitable_tuple exampleCollaborators exampleDuplicateModule 4 0 [0]
    [(9, [])] (by rfl)
    (Or.inr (Or.inl ⟨0, 1, 1, 3, by decide, by rfl, by rfl, by rfl, by rfl, by rfl⟩))

/-- C14 (as stated it fails): two get-tuple-element users with the same tuple
index are no fatal error.  On the duplicate example, where the tuple-shaped
parameter 0 is read by the get-tuple-elements 1 and 3, both of index 0,
`FindInputs` returns a result, the empty map, and `Run` returns a result
too. -/
theorem C14_duplicate_index_is_no_fatal_error :
    (exampleDuplicateModule.inst 0).shape.IsTuple = true ∧
    (exampleDuplicateModule.inst 0).users = [1, 3] ∧
    (exampleDuplicateModule.inst 1).opcode = HloOpcode.kGetTupleElement ∧
    (exampleDuplicateModule.inst 3).opcode = HloOpcode.kGetTupleElement ∧
    (exampleDuplicateModule.inst 1).tuple_index = (exampleDuplicateModule.inst 3).tuple_index ∧
    FindInputs exampleCollaborators exampleDuplicateModule ⟨[0, 1, 3, 5], 5⟩ = Except.ok [] ∧
    Run exampleCollaborators exampleDuplicateModule ⟨[], [], [], []⟩ =
      Except.ok ⟨false, ⟨[], [], [], []⟩, []⟩ := by
  refine ⟨by rfl, by rfl, by rfl, by rfl, by rfl, by rfl, by rfl⟩

/-- C14 (amended): when `FlattenInputs`, called by `FindInputs`, visits a
tuple-shaped node that has two get-tuple-element users of the same tuple
index, it ends without a fatal error and returns the map as it was; the
condition is tolerated, not reported. -/
theorem C14_duplicate_index_is_skipped (c : Collaborators) (m : HloModule)
    (fuel : Nat) (inst : InstId) (path : List InstId) (acc : InputMap)
    (htuple : (m.inst inst).shape.IsTuple = true)
    (i j : Nat) (u v : InstId) (hij : i < j)
    (hu : (m.inst inst).users[i]? = some u) (hv : (m.inst inst).users[j]? = some v)
    (hsame : (m.inst u).tuple_index = (m.inst v).tuple_index) :
    FlattenInputs c m (fuel + 1) inst path acc = Except.ok acc ∧
    ∀ e : Fatal, FlattenInputs c m (fuel + 1) inst path acc ≠ Except.error e := by
  have hstop : FlattenInputs c m (fuel + 1) inst path acc = Except.ok acc := by
    apply FlattenInputs_stops c m fuel inst path acc htuple
    cases hall : usersAreUniqueGTEs c m inst (m.inst inst).users []
    · rfl
    · exact absurd hsame.symm
        ((usersAreUniqueGTEs_true c m inst _ _ hall i u hu).2.2.2 j v hij hv)
  rw [hstop]
  exact ⟨rfl, fun e h => by cases h⟩

/-- C14 (amended), on the duplicate example. -/
theorem C14_duplicate_index_is_skipped_witness :
    FlattenInputs exampleCollaborators exampleDuplicateModule (4 + 1) 0 [0] [] = Except.ok [] ∧
    ∀ e : Fatal,
      FlattenInputs exampleCollaborators exampleDuplicateModule (4 + 1) 0 [0] [] ≠
        Except.error e :=
  C14_duplicate_index_is_skipped exampleCollaborators exampleDuplicateModule 4 0 [0] []
    (by rfl) 0 1 1 3 (by decide) (by rfl) (by rfl) (by rfl)

/-! ## Lemmas on the paths `FlattenInputs` records -/

theorem expectedPath_fst (c : Collaborators) (m : HloModule) :
    ∀ (l : List InstId) (gte : InstId) (flat : Nat),
      (expectedPath c m l gte flat).map Prod.fst = l := by
  intro l
  induction l with
  | nil => intro gte flat; rfl
  | cons x rest ih =>
    intro gte flat
    simp only [expectedPath, List.map_cons, ih]

theorem expectedPath_length (c : Collaborators) (m : HloModule) (l : List InstId)
    (gte : InstId) (flat : Nat) : (expectedPath c m l gte flat).length = l.length := by
  have := congrArg List.length (expectedPath_fst c m l gte flat)
  simpa using this

/-- The walk back over the path, when no `CHECK` fails, appends the path in
the words of its description. -/
theorem completePath_ok (c : Collaborators) (m : HloModule) :
    ∀ (rpath : List InstId) (last_gte : InstId) (flat : Nat)
      (acc res : DeferredAllocationsPath),
      completePath c m rpath last_gte flat acc = Except.ok res →
      res = acc ++ expectedPath c m rpath last_gte flat := by
  intro rpath
  induction rpath with
  | nil =>
    intro last_gte flat acc res h
    simp only [completePath, Except.ok.injEq] at h
    simp [expectedPath, h]
  | cons x rest ih =>
    intro last_gte flat acc res h
    rw [completePath] at h
    split at h
    · exact absurd h (by simp)
    · rw [ih _ _ _ _ h]
      simp [expectedPath]

theorem Descends_of_not_tuple (c : Collaborators) (m : HloModule) {inst leaf : InstId}
    {path path1 : List InstId} (h : Descends c m inst path leaf path1)
    (hleaf : (m.inst inst).shape.IsTuple = false) : leaf = inst ∧ path1 = path := by
  cases h with
  | here => exact ⟨rfl, rfl⟩
  | through _ _ _ _ _ ht _ _ _ _ =>
    rw [hleaf] at ht
    exact absurd ht (by simp)

/-- The path with which a node is reached extends the path of the start by
get-tuple-elements only, and ends in the node. -/
theorem Descends_path (c : Collaborators) (m : HloModule) {inst leaf : InstId}
    {path path1 : List InstId} (h : Descends c m inst path leaf path1) :
    ∃ ext : List InstId, path1 = path ++ ext ∧
      (∀ g ∈ ext, (m.inst g).opcode = HloOpcode.kGetTupleElement) ∧
      (path.getLast? = some inst → path1.getLast? = some leaf) := by
  induction h with
  | here inst path => exact ⟨[], by simp, by simp, fun h => h⟩
  | through inst path user leaf path1 _ hu hmem _ _ ih =>
    obtain ⟨ext, h1, h2, h3⟩ := ih
    refine ⟨user :: ext, by simp [h1], ?_, ?_⟩
    · intro g hg
      rcases List.mem_cons.mp hg with rfl | hg
      · obtain ⟨k, hk⟩ := List.getElem?_of_mem hmem
        exact (usersAreUniqueGTEs_true c m inst _ _ hu k g hk).1
      · exact h2 g hg
    · intro _
      exact h3 (by simp)

/-- What a call of `FlattenInputs` that returns a map has done: no key has
gone; an entry is either the one before or the path of a leaf the call
reaches; and every leaf the call reaches has an entry. -/
theorem FlattenInputs_spec (c : Collaborators) (m : HloModule) :
    ∀ (fuel : Nat) (inst : InstId) (path : List InstId) (acc res : InputMap),
      FlattenInputs c m fuel inst path acc = Except.ok res →
      (∀ k, mapFind acc k ≠ none → mapFind res k ≠ none) ∧
      (∀ leaf dap, mapFind res leaf = some dap →
        mapFind acc leaf = some dap ∨
        ∃ path1, Descends c m inst path leaf path1 ∧ (m.inst leaf).shape.IsTuple = false ∧
          dap = expectedPath c m path1.dropLast.reverse leaf 0) ∧
      (∀ leaf path1, Descends c m inst path leaf path1 →
        (m.inst leaf).shape.IsTuple = false → mapFind res leaf ≠ none) := by
  intro fuel
  induction fuel with
  | zero =>
    intro inst path acc res h
    simp [FlattenInputs] at h
  | succ fuel ih =>
    intro inst path acc res h
    rw [FlattenInputs] at h
    by_cases htuple : (m.inst inst).shape.IsTuple = true
    · simp only [htuple, if_true] at h
      by_cases hu : usersAreUniqueGTEs c m inst (m.inst inst).users [] = true
      · simp only [hu, if_true] at h
        have loop : ∀ (us : List InstId) (acc0 res0 : InputMap),
            (∀ u ∈ us, u ∈ (m.inst inst).users) →
            us.foldlM
              (fun acc user =>
                if (m.inst user).opcode ≠ HloOpcode.kGetTupleElement then
                  Except.error Fatal.check_failed
                else if c.IsUsedInplace user = true then
                  FlattenInputs c m fuel user (path ++ [user]) acc
                else Except.ok acc) acc0 = Except.ok res0 →
            (∀ k, mapFind acc0 k ≠ none → mapFind res0 k ≠ none) ∧
            (∀ leaf dap, mapFind res0 leaf = some dap →
              mapFind acc0 leaf = some dap ∨
              ∃ path1, Descends c m inst path leaf path1 ∧
                (m.inst leaf).shape.IsTuple = false ∧
                dap = expectedPath c m path1.dropLast.reverse leaf 0) ∧
            (∀ u ∈ us, c.IsUsedInplace u = true → ∀ leaf path1,
              Descends c m u (path ++ [u]) leaf path1 →
              (m.inst leaf).shape.IsTuple = false → mapFind res0 leaf ≠ none) := by
          intro us
          induction us with
          | nil =>
            intro acc0 res0 _ h0
            simp only [List.foldlM_nil, pure, Except.pure, Except.ok.injEq] at h0
            subst h0
            exact ⟨fun _ hk => hk, fun _ _ hd => Or.inl hd,
              fun u hu0 => absurd hu0 (List.not_mem_nil u)⟩
          | cons x rest ihl =>
            intro acc0 res0 hsub h0
            rw [List.foldlM_cons] at h0
            have hxmem : x ∈ (m.inst inst).users := hsub x (List.mem_cons_self _ _)
            have hrestsub : ∀ u ∈ rest, u ∈ (m.inst inst).users :=
              fun u hu0 => hsub u (List.mem_cons_of_mem _ hu0)
            by_cases hg : (m.inst x).opcode = HloOpcode.kGetTupleElement
            · by_cases hin : c.IsUsedInplace x = true
              · simp only [hg, ne_eq, not_true_eq_false, if_false, hin, if_true, bind,
                  Except.bind] at h0
                split at h0
                · exact absurd h0 (by simp)
                · rename_i mid hmid
                  obtain ⟨k1, s1, c1⟩ := ih x (path ++ [x]) acc0 mid hmid
                  obtain ⟨k2, s2, c2⟩ := ihl mid res0 hrestsub h0
                  refine ⟨fun k hk => k2 k (k1 k hk), ?_, ?_⟩
                  · intro leaf dap hd
                    rcases s2 leaf dap hd with hd1 | hd1
                    · rcases s1 leaf dap hd1 with hd2 | ⟨path1, p1, p2, p3⟩
                      · exact Or.inl hd2
                      · exact Or.inr ⟨path1,
                          Descends.through inst path x leaf path1 htuple hu hxmem hin p1, p2, p3⟩
                    · exact Or.inr hd1
                  · intro u hu0 huin leaf path1 hdesc hleaf
                    rcases List.mem_cons.mp hu0 with rfl | hu1
                    · exact k2 leaf (c1 leaf path1 hdesc hleaf)
                    · exact c2 u hu1 huin leaf path1 hdesc hleaf
              · simp only [hg, ne_eq, not_true_eq_false, if_false, hin, Bool.false_eq_true,
                  bind, Except.bind] at h0
                obtain ⟨k2, s2, c2⟩ := ihl acc0 res0 hrestsub h0
                refine ⟨k2, s2, ?_⟩
                intro u hu0 huin leaf path1 hdesc hleaf
                rcases List.mem_cons.mp hu0 with rfl | hu1
                · exact absurd huin hin
                · exact c2 u hu1 huin leaf path1 hdesc hleaf
            · simp [hg, bind, Except.bind] at h0
        obtain ⟨k1, s1, c1⟩ := loop (m.inst inst).users acc res (fun _ hu0 => hu0) h
        refine ⟨k1, s1, ?_⟩
        intro leaf path1 hdesc hleaf
        cases hdesc with
        | here =>
          rw [hleaf] at htuple
          exact absurd htuple (by simp)
        | through _ _ user _ _ _ _ hmem hin hrest =>
          exact c1 user hmem hin leaf path1 hrest hleaf
      · simp only [hu, Bool.false_eq_true, if_false, Except.ok.injEq] at h
        subst h
        refine ⟨fun _ hk => hk, fun _ _ hd => Or.inl hd, ?_⟩
        intro leaf path1 hdesc hleaf
        cases hdesc with
        | here =>
          rw [hleaf] at htuple
          exact absurd htuple (by simp)
        | through _ _ _ _ _ _ hu1 _ _ _ => exact absurd hu1 hu
    · have hnt : (m.inst inst).shape.IsTuple = false := by
        simpa using htuple
      simp only [hnt, Bool.false_eq_true, if_false] at h
      split at h
      · exact absurd h (by simp)
      · rename_i dap0 hcp
        simp only [Except.ok.injEq] at h
        subst h
        have hdap := completePath_ok c m _ _ _ _ _ hcp
        simp only [List.nil_append] at hdap
        refine ⟨?_, ?_, ?_⟩
        · intro k hk
          by_cases hki : k = inst
          · rw [hki, mapFind_mapAssign_same]
            simp
          · rw [mapFind_mapAssign_other _ _ _ _ hki]
            exact hk
        · intro leaf dap hd
          by_cases hli : leaf = inst
          · rw [hli, mapFind_mapAssign_same] at hd
            simp only [Option.some.injEq] at hd
            right
            refine ⟨path, ?_, ?_, ?_⟩
            · rw [hli]
              exact Descends.here inst path
            · rw [hli]
              exact hnt
            · rw [← hd, hdap, hli]
          · rw [mapFind_mapAssign_other _ _ _ _ hli] at hd
            exact Or.inl hd
        · intro leaf path1 hdesc _
          rw [(Descends_of_not_tuple c m hdesc hnt).1, mapFind_mapAssign_same]
          simp

/-- One round of the first loop over the users, for a user that passes it. -/
theorem usersAreUniqueGTEs_cons (c : Collaborators) (m : HloModule) (inst x : InstId)
    (rest : List InstId) (seen : List Nat)
    (hg : (m.inst x).opcode = HloOpcode.kGetTupleElement)
    (hseen : (m.inst x).tuple_index ∉ seen) (hc : ShardingCompatible c m inst x) :
    usersAreUniqueGTEs c m inst (x :: rest) seen =
      usersAreUniqueGTEs c m inst rest (setInsert seen (m.inst x).tuple_index) := by
  rw [usersAreUniqueGTEs]
  unfold ShardingCompatible at hc
  cases hu : (m.inst x).sharding with
  | none =>
    cases hs : (m.inst inst).sharding with
    | none => simp [hg, hseen, hu, hs]
    | some sh => simp [hu, hs] at hc
  | some us =>
    cases hs : (m.inst inst).sharding with
    | none => simp [hu, hs] at hc
    | some sh =>
      simp only [hu, hs] at hc
      simp [hg, hseen, hu, hs, hc]

/-- What `FindInputs` has done when it returns a map: an entry is the path
of a leaf it reaches from a root of the computation, and every leaf it
reaches has an entry. -/
theorem FindInputs_spec (c : Collaborators) (m : HloModule) (comp : HloComputation)
    (map : InputMap) (h : FindInputs c m comp = Except.ok map) :
    (∀ leaf dap, mapFind map leaf = some dap →
      ∃ root gtes, Reached c m comp leaf root gtes ∧ (m.inst leaf).shape.IsTuple = false ∧
        dap = expectedPath c m (root :: gtes).dropLast.reverse leaf 0) ∧
    (∀ leaf root gtes, Reached c m comp leaf root gtes →
      (m.inst leaf).shape.IsTuple = false → mapFind map leaf ≠ none) := by
  unfold FindInputs at h
  have loop : ∀ (is : List InstId) (acc0 res0 : InputMap),
      (∀ i ∈ is, i ∈ comp.instructions) →
      is.foldlM
        (fun acc inst =>
          if (m.inst inst).opcode = HloOpcode.kConstant ∨
              (m.inst inst).opcode = HloOpcode.kInfeed ∨
              (m.inst inst).opcode = HloOpcode.kParameter then
            FlattenInputs c m (comp.instructions.length + 1) inst [inst] acc
          else Except.ok acc) acc0 = Except.ok res0 →
      (∀ k, mapFind acc0 k ≠ none → mapFind res0 k ≠ none) ∧
      (∀ leaf dap, mapFind res0 leaf = some dap →
        mapFind acc0 leaf = some dap ∨
        ∃ root gtes, Reached c m comp leaf root gtes ∧ (m.inst leaf).shape.IsTuple = false ∧
          dap = expectedPath c m (root :: gtes).dropLast.reverse leaf 0) ∧
      (∀ root ∈ is,
        ((m.inst root).opcode = HloOpcode.kConstant ∨ (m.inst root).opcode = HloOpcode.kInfeed ∨
          (m.inst root).opcode = HloOpcode.kParameter) →
        ∀ leaf path1, Descends c m root [root] leaf path1 →
          (m.inst leaf).shape.IsTuple = false → mapFind res0 leaf ≠ none) := by
    intro is
    induction is with
    | nil =>
      intro acc0 res0 _ h0
      simp only [List.foldlM_nil, pure, Except.pure, Except.ok.injEq] at h0
      subst h0
      exact ⟨fun _ hk => hk, fun _ _ hd => Or.inl hd,
        fun r hr => absurd hr (List.not_mem_nil r)⟩
    | cons x rest ihl =>
      intro acc0 res0 hsub h0
      rw [List.foldlM_cons] at h0
      have hxmem : x ∈ comp.instructions := hsub x (List.mem_cons_self _ _)
      have hrestsub : ∀ i ∈ rest, i ∈ comp.instructions :=
        fun i hi => hsub i (List.mem_cons_of_mem _ hi)
      by_cases hop : (m.inst x).opcode = HloOpcode.kConstant ∨
          (m.inst x).opcode = HloOpcode.kInfeed ∨ (m.inst x).opcode = HloOpcode.kParameter
      · simp only [hop, if_true, bind, Except.bind] at h0
        split at h0
        · exact absurd h0 (by simp)
        · rename_i mid hmid
          obtain ⟨k1, s1, c1⟩ := FlattenInputs_spec c m _ x [x] acc0 mid hmid
          obtain ⟨k2, s2, c2⟩ := ihl mid res0 hrestsub h0
          refine ⟨fun k hk => k2 k (k1 k hk), ?_, ?_⟩
          · intro leaf dap hd
            rcases s2 leaf dap hd with hd1 | hd1
            · rcases s1 leaf dap hd1 with hd2 | ⟨path1, p1, p2, p3⟩
              · exact Or.inl hd2
              · obtain ⟨ext, e1, _, _⟩ := Descends_path c m p1
                rw [List.singleton_append] at e1
                subst e1
                exact Or.inr ⟨x, ext, ⟨hxmem, hop, p1⟩, p2, p3⟩
            · exact Or.inr hd1
          · intro root hr hrop leaf path1 hdesc hleaf
            rcases List.mem_cons.mp hr with rfl | hr1
            · exact k2 leaf (c1 leaf path1 hdesc hleaf)
            · exact c2 root hr1 hrop leaf path1 hdesc hleaf
      · simp only [hop, if_false, bind, Except.bind] at h0
        obtain ⟨k2, s2, c2⟩ := ihl acc0 res0 hrestsub h0
        refine ⟨k2, s2, ?_⟩
        intro root hr hrop leaf path1 hdesc hleaf
        rcases List.mem_cons.mp hr with rfl | hr1
        · exact absurd hrop hop
        · exact c2 root hr1 hrop leaf path1 hdesc hleaf
  obtain ⟨_, s1, c1⟩ := loop comp.instructions [] map (fun _ hi => hi) h
  constructor
  · intro leaf dap hd
    rcases s1 leaf dap hd with hd1 | hd1
    · simp [mapFind] at hd1
    · exact hd1
  · intro leaf root gtes hreach hleaf
    exact c1 root hreach.1 hreach.2.1 leaf (root :: gtes) hreach.2.2 hleaf

/-- Two chains that end in the same node are the same chain. -/
theorem upChain_unique (m : HloModule) :
    ∀ (l l1 : List InstId), upChain m l → upChain m l1 → l.head? = l1.head? → l = l1 := by
  intro l
  induction l with
  | nil => intro l1 h; exact absurd h (by simp [upChain])
  | cons x rest ih =>
    intro l1 h h1 hhead
    cases l1 with
    | nil => exact absurd h1 (by simp [upChain])
    | cons x1 rest1 =>
      simp only [List.head?_cons, Option.some.injEq] at hhead
      subst hhead
      cases rest with
      | nil =>
        cases rest1 with
        | nil => rfl
        | cons y1 r1 =>
          simp only [upChain] at h h1
          exact absurd h1.1 h
      | cons y r =>
        cases rest1 with
        | nil =>
          simp only [upChain] at h h1
          exact absurd h.1 h1
        | cons y1 r1 =>
          simp only [upChain] at h h1
          have hy : y = y1 := by
            have := h.2.1.symm.trans h1.2.1
            simpa using this
          subst hy
          have := ih (y :: r1) h.2.2 h1.2.2 rfl
          rw [this]

/-- The path with which a node is reached, read from its end, is a chain. -/
theorem Descends_upChain (c : Collaborators) (m : HloModule) (hwf : UsersMatchOperands m)
    {inst leaf : InstId} {path path1 : List InstId} (h : Descends c m inst path leaf path1) :
    ∀ tail : List InstId, path.reverse = inst :: tail → upChain m (inst :: tail) →
      ∃ tail1, path1.reverse = leaf :: tail1 ∧ upChain m (leaf :: tail1) := by
  induction h with
  | here inst path =>
    intro tail hrev hchain
    exact ⟨tail, hrev, hchain⟩
  | through inst path user leaf path1 _ hu hmem _ _ ih =>
    intro tail hrev hchain
    obtain ⟨k, hk⟩ := List.getElem?_of_mem hmem
    have hg := (usersAreUniqueGTEs_true c m inst _ _ hu k user hk).1
    apply ih (inst :: tail)
    · rw [List.reverse_append, hrev]
      rfl
    · exact ⟨hg, hwf inst user hmem hg, hchain⟩

/-- The chain by which `FindInputs` reaches a leaf is the only one. -/
theorem Reached_unique (c : Collaborators) (m : HloModule) (comp : HloComputation)
    (hwf : UsersMatchOperands m) (leaf root root1 : InstId) (gtes gtes1 : List InstId)
    (h : Reached c m comp leaf root gtes) (h1 : Reached c m comp leaf root1 gtes1) :
    root = root1 ∧ gtes = gtes1 := by
  have hroot : ∀ r : InstId,
      ((m.inst r).opcode = HloOpcode.kConstant ∨ (m.inst r).opcode = HloOpcode.kInfeed ∨
        (m.inst r).opcode = HloOpcode.kParameter) → upChain m [r] := by
    intro r hr
    simp only [upChain]
    rcases hr with hr | hr | hr <;> rw [hr] <;> decide
  obtain ⟨t, e, hc⟩ := Descends_upChain c m hwf h.2.2 [] rfl (hroot root h.2.1)
  obtain ⟨t1, e1, hc1⟩ := Descends_upChain c m hwf h1.2.2 [] rfl (hroot root1 h1.2.1)
  have := upChain_unique m _ _ hc hc1 rfl
  rw [← e, ← e1] at this
  have h2 := List.reverse_injective this
  simp only [List.cons.injEq] at h2
  exact h2

/-! ## The deferred allocation path builder: claim C12 -/

/-- C12: when `FindInputs` returns a map, every entry of it belongs to a
non-tuple leaf reached from a constant, infeed or parameter root through a
chain of get-tuple-elements, and the path of the entry has one entry per
get-tuple-element of the chain: it names the containers from the immediate
container of the leaf outward, the last one being the root, and its flat
indices are `InsertIntoTuple(container shape, tuple index of the
get-tuple-element taken out of the container, flat index before)`, starting
from 0; and every non-tuple leaf so reached has an entry, which is the path
of the chain by which it is reached when the users of the nodes agree with the
operands of the get-tuple-elements (the chain is then the only one).  In
particular a
tuple-shaped node with the two in-place get-tuple-element users `g0` and `g1`
of distinct indices, in a flat tuple (where `InsertIntoTuple` of an index and
0 is the index), gives the two entries `g0 ↦ [(node, index of g0)]` and
`g1 ↦ [(node, index of g1)]`. -/
theorem C12_deferred_path_of_leaf (c : Collaborators) (m : HloModule) :
    (∀ (comp : HloComputation) (map : InputMap), FindInputs c m comp = Except.ok map →
      (∀ leaf dap, mapFind map leaf = some dap →
        ∃ root gtes, Reached c m comp leaf root gtes ∧
          (m.inst leaf).shape.IsTuple = false ∧
          (∀ g ∈ gtes, (m.inst g).opcode = HloOpcode.kGetTupleElement) ∧
          (root :: gtes).getLast? = some leaf ∧
          dap.length = gtes.length ∧
          dap.map Prod.fst = (root :: gtes).dropLast.reverse ∧
          (gtes ≠ [] → dap.getLast?.map Prod.fst = some root) ∧
          dap = expectedPath c m (root :: gtes).dropLast.reverse leaf 0) ∧
      (∀ leaf root gtes, Reached c m comp leaf root gtes →
        (m.inst leaf).shape.IsTuple = false → ∃ dap, mapFind map leaf = some dap) ∧
      (UsersMatchOperands m → ∀ leaf root gtes, Reached c m comp leaf root gtes →
        (m.inst leaf).shape.IsTuple = false →
        mapFind map leaf = some (expectedPath c m (root :: gtes).dropLast.reverse leaf 0))) ∧
    (∀ (p g0 g1 : InstId) (fuel : Nat) (acc : InputMap),
      (m.inst p).shape.IsTuple = true → (m.inst p).users = [g0, g1] →
      (m.inst g0).opcode = HloOpcode.kGetTupleElement →
      (m.inst g1).opcode = HloOpcode.kGetTupleElement →
      (m.inst g0).shape.IsTuple = false → (m.inst g1).shape.IsTuple = false →
      (m.inst g0).tuple_index ≠ (m.inst g1).tuple_index →
      c.IsUsedInplace g0 = true → c.IsUsedInplace g1 = true →
      ShardingCompatible c m p g0 → ShardingCompatible c m p g1 →
      (∀ i, c.InsertIntoTuple (m.inst p).shape i 0 = i) →
      FlattenInputs c m (fuel + 2) p [p] acc =
        Except.ok (mapAssign (mapAssign acc g0 [(p, (m.inst g0).tuple_index)])
          g1 [(p, (m.inst g1).tuple_index)])) := by
  constructor
  · intro comp map h
    obtain ⟨s1, c1⟩ := FindInputs_spec c m comp map h
    constructor
    · intro leaf dap hd
      obtain ⟨root, gtes, hreach, hleaf, hdap⟩ := s1 leaf dap hd
      obtain ⟨ext, e1, e2, e3⟩ := Descends_path c m hreach.2.2
      rw [List.singleton_append, List.cons.injEq] at e1
      have hext : ext = gtes := e1.2.symm
      subst hext
      have hlen : ((root :: ext).dropLast.reverse).length = ext.length := by
        simp
      refine ⟨root, ext, hreach, hleaf, e2, e3 (by simp), ?_, ?_, ?_, hdap⟩
      · rw [hdap, expectedPath_length, hlen]
      · rw [hdap, expectedPath_fst]
      · intro hne
        have hfst : dap.map Prod.fst = (root :: ext).dropLast.reverse := by
          rw [hdap, expectedPath_fst]
        rw [← List.getLast?_map, hfst, List.getLast?_reverse]
        cases ext with
        | nil => exact absurd rfl hne
        | cons g rest => simp [List.dropLast]
    constructor
    · intro leaf root gtes hreach hleaf
      exact Option.ne_none_iff_exists'.mp (c1 leaf root gtes hreach hleaf)
    · intro hwf leaf root gtes hreach hleaf
      obtain ⟨dap, hd⟩ := Option.ne_none_iff_exists'.mp (c1 leaf root gtes hreach hleaf)
      obtain ⟨root1, gtes1, hreach1, _, hdap⟩ := s1 leaf dap hd
      obtain ⟨e1, e2⟩ := Reached_unique c m comp hwf leaf root root1 gtes gtes1 hreach hreach1
      rw [hd, hdap, e1, e2]
  · intro p g0 g1 fuel acc hp husers hg0 hg1 hl0 hl1 hne hin0 hin1 hc0 hc1 hflat
    have hunique : usersAreUniqueGTEs c m p [g0, g1] [] = true := by
      rw [usersAreUniqueGTEs_cons c m p g0 [g1] [] hg0 (List.not_mem_nil _) hc0,
        usersAreUniqueGTEs_cons c m p g1 [] _ hg1 ?_ hc1]
      · rfl
      · intro hmem
        rcases (mem_setInsert _ _ _).mp hmem with h1 | h1
        · exact absurd h1 (List.not_mem_nil _)
        · exact hne h1.symm
    have leafcall : ∀ (g : InstId) (acc0 : InputMap),
        (m.inst g).opcode = HloOpcode.kGetTupleElement → (m.inst g).shape.IsTuple = false →
        FlattenInputs c m (fuel + 1) g ([p] ++ [g]) acc0 =
          Except.ok (mapAssign acc0 g [(p, (m.inst g).tuple_index)]) := by
      intro g acc0 hg hl
      rw [FlattenInputs]
      simp [hl, completePath, hg, hflat]
    rw [FlattenInputs]
    simp only [hp, if_true, husers, hunique, List.foldlM_cons, List.foldlM_nil, hg0, hg1, ne_eq,
      not_true_eq_false, if_false, hin0, hin1, bind, Except.bind, leafcall g0 acc hg0 hl0,
      leafcall g1 _ hg1 hl1, pure, Except.pure]

/-- C12, on the nested example and on the tuple example: the leaf 2, reached
from the parameter 0 through the get-tuple-elements 1 and 2, has the path
(1, 1), (0, 2); and the parameter of the tuple example, read by the
get-tuple-elements 1 (index 1) and 3 (index 0), gives exactly the entries
1 ↦ (0, 1) and 3 ↦ (0, 0). -/
theorem C12_deferred_path_of_leaf_witness :
    FindInputs exampleCollaborators exampleNestedModule ⟨[0, 1, 6, 2, 3, 5], 5⟩ =
      Except.ok [(2, [(1, 1), (0, 2)]), (3, [(1, 0), (0, 1)]), (6, [(0, 0)])] ∧
    (∃ root gtes, Reached exampleCollaborators exampleNestedModule ⟨[0, 1, 6, 2, 3, 5], 5⟩
        2 root gtes ∧
      (exampleNestedModule.inst 2).shape.IsTuple = false ∧
      (∀ g ∈ gtes, (exampleNestedModule.inst g).opcode = HloOpcode.kGetTupleElement) ∧
      (root :: gtes).getLast? = some 2 ∧
      [((1 : InstId), 1), (0, 2)].length = gtes.length ∧
      [((1 : InstId), 1), (0, 2)].map Prod.fst = (root :: gtes).dropLast.reverse ∧
      (gtes ≠ [] → [((1 : InstId), 1), (0, 2)].getLast?.map Prod.fst = some root) ∧
      [(1, 1), (0, 2)] =
        expectedPath exampleCollaborators exampleNestedModule (root :: gtes).dropLast.reverse
          2 0) ∧
    FlattenInputs exampleCollaborators exampleTupleModule (3 + 2) 0 [0] [] =
      Except.ok (mapAssign (mapAssign [] 1 [(0, (exampleTupleModule.inst 1).tuple_index)])
        3 [(0, (exampleTupleModule.inst 3).tuple_index)]) ∧
    FindInputs exampleCollaborators exampleTupleModule ⟨[0, 1, 3, 5], 5⟩ =
      Except.ok [(1, [(0, 1)]), (3, [(0, 0)])] :=
  ⟨by rfl,
    ((C12_deferred_path_of_leaf exampleCollaborators exampleNestedModule).1
      ⟨[0, 1, 6, 2, 3, 5], 5⟩ [(2, [(1, 1), (0, 2)]), (3, [(1, 0), (0, 1)]), (6, [(0, 0)])]
      (by rfl)).1 2 [(1, 1), (0, 2)] (by rfl),
    (C12_deferred_path_of_leaf exampleCollaborators exampleTupleModule).2 0 1 3 3 []
      (by rfl) (by rfl) (by rfl) (by rfl) (by rfl) (by rfl) (by decide) (by rfl) (by rfl)
      trivial trivial (fun i => Nat.add_zero i),
    by rfl⟩

/-! ## The loop over the candidates: claim C11 -/

/-- The loop over the targets attempts the candidates in order, each call
returning what `CreateForwardAllocationTarget` returns in the state the calls
before it have left, and ends at the first call that returns true. -/
theorem commitFirst_order (c : Collaborators) (m : HloModule)
    (prepare : InstId → Except Fatal (Option CommitArgs)) :
    ∀ (targets : List InstId) (st st1 : ModeState),
      commitFirst c m prepare targets st = Except.ok st1 →
      ∃ new : List CommitCall,
        st1.calls = st.calls ++ new ∧
        replayCalls c m st.reachability_map st.state (new.map (fun call => call.args)) =
          (new, st1.reachability_map, st1.state) ∧
        ((new.map (fun call => call.args) = preparedArgs prepare targets ∧
            ∀ call ∈ new, call.created = false) ∨
          ∃ (failed : List CommitCall) (a : CommitArgs) (rest : List CommitArgs),
            preparedArgs prepare targets = failed.map (fun call => call.args) ++ a :: rest ∧
            new = failed ++ [⟨a, true⟩] ∧ ∀ call ∈ failed, call.created = false) := by
  intro targets
  induction targets with
  | nil =>
    intro st st1 h
    simp only [commitFirst, Except.ok.injEq] at h
    subst h
    exact ⟨[], by simp, rfl, Or.inl ⟨rfl, by simp⟩⟩
  | cons target rest ih =>
    intro st st1 h
    rw [commitFirst] at h
    split at h
    · exact absurd h (by simp)
    · rename_i hprep
      obtain ⟨new, h1, h2, h3⟩ := ih st st1 h
      have hp : preparedArgs prepare (target :: rest) = preparedArgs prepare rest := by
        simp [preparedArgs, List.filterMap_cons, hprep]
      exact ⟨new, h1, h2, by rw [hp]; exact h3⟩
    · rename_i a hprep
      have hp : preparedArgs prepare (target :: rest) = a :: preparedArgs prepare rest := by
        simp [preparedArgs, List.filterMap_cons, hprep]
      by_cases hcr : (a.call c m st.reachability_map st.state).created = true
      · have hcr1 : (CreateForwardAllocationTarget c m st.reachability_map st.state a.source
            a.target a.input_index a.layout_producer a.layout_output_index a.other_targets
            a.forward_path a.backward_path a.deferred_allocations_path).created = true := hcr
        simp only [hcr1, if_true, Except.ok.injEq] at h
        subst h
        refine ⟨[⟨a, true⟩], rfl, ?_, Or.inr ⟨[], a, preparedArgs prepare rest, ?_, rfl, ?_⟩⟩
        · simp only [List.map_cons, List.map_nil, replayCalls, hcr]
          rfl
        · rw [hp]
          rfl
        · simp
      · have hcr0 : (a.call c m st.reachability_map st.state).created = false := by
          simpa using hcr
        have hcr1 : (CreateForwardAllocationTarget c m st.reachability_map st.state a.source
            a.target a.input_index a.layout_producer a.layout_output_index a.other_targets
            a.forward_path a.backward_path a.deferred_allocations_path).created = false := hcr0
        simp only [hcr1, Bool.false_eq_true, if_false] at h
        obtain ⟨new, h1, h2, h3⟩ := ih _ st1 h
        refine ⟨⟨a, false⟩ :: new, ?_, ?_, ?_⟩
        · rw [h1]
          simp
        · simp only [List.map_cons, replayCalls, hcr0]
          have h2a : replayCalls c m (a.call c m st.reachability_map st.state).reachability_map
              (a.call c m st.reachability_map st.state).state
              (new.map (fun call => call.args)) = (new, st1.reachability_map, st1.state) := h2
          rw [h2a]
        · rcases h3 with ⟨h3a, h3b⟩ | ⟨failed, a2, rest2, e1, e2, e3⟩
          · left
            refine ⟨by rw [hp, List.map_cons, h3a], ?_⟩
            intro call hc
            rcases List.mem_cons.mp hc with rfl | hc
            · rfl
            · exact h3b call hc
          · right
            refine ⟨⟨a, false⟩ :: failed, a2, rest2, ?_, ?_, ?_⟩
            · rw [hp, e1]
              rfl
            · rw [e2]
              rfl
            · intro call hc
              rcases List.mem_cons.mp hc with rfl | hc
              · rfl
              · exact e3 call hc

/-- The arguments the first mode prepares are for the source, the target and
the targets of the round of the loop. -/
theorem prepareSensitive_args (c : Collaborators) (m : HloModule) (g : MetaGraph)
    (alloc_dependencies source_consumers : List (InstId × List InstId)) (inputs : InputMap)
    (source : InstId) (targets : List InstId) (target : InstId) (a : CommitArgs)
    (h : prepareSensitive c m g alloc_dependencies source_consumers inputs source targets target =
      Except.ok (some a)) :
    a.source = source ∧ a.target = target ∧ a.other_targets = targets := by
  unfold prepareSensitive at h
  repeat' split at h
  all_goals first
    | (simp only [Except.ok.injEq, Option.some.injEq] at h
       rw [← h]
       exact ⟨rfl, rfl, rfl⟩)
    | exact absurd h (by simp)

/-- The arguments the second mode prepares are for the source, the target and
the targets of the round of the loop. -/
theorem prepareDependent_args (c : Collaborators) (m : HloModule) (g : MetaGraph)
    (inputs : InputMap) (source : InstId) (targets : List InstId) (target : InstId)
    (a : CommitArgs)
    (h : prepareDependent c m g inputs source targets target = Except.ok (some a)) :
    a.source = source ∧ a.target = target ∧ a.other_targets = targets := by
  unfold prepareDependent at h
  repeat' split at h
  all_goals first
    | (simp only [Except.ok.injEq, Option.some.injEq] at h
       rw [← h]
       exact ⟨rfl, rfl, rfl⟩)
    | exact absurd h (by simp)

/-- With one bias-add, one normalization op and one other op as the
admissible, mutually independent candidates, `find_all_targets` returns them
in this order. -/
theorem find_all_targets_three (c : Collaborators) (values : List InstId)
    (r : HloReachabilityMap) (pred : InstId → Bool) (b n e : InstId)
    (hnd : values.Nodup) (hb : b ∈ values) (hn : n ∈ values) (he : e ∈ values)
    (hpb : pred b = true) (hpn : pred n = true) (hpe : pred e = true)
    (hall : ∀ x ∈ values, pred x = true → x = b ∨ x = n ∨ x = e)
    (hind : ∀ x ∈ values, ∀ y ∈ values, pred x = true → pred y = true → x ≠ y →
      r.IsReachable x y = false)
    (hbb : c.IsPopOpsBiasAdd b = true) (hbn : c.IsNormInferenceOrTraining b = false)
    (hnb : c.IsPopOpsBiasAdd n = false) (hnn : c.IsNormInferenceOrTraining n = true)
    (heb : c.IsPopOpsBiasAdd e = false) (hen : c.IsNormInferenceOrTraining e = false) :
    find_all_targets c values r pred = some [b, n, e] := by
  have hmem : ∀ x, x ∈ independentTargets values r pred ↔ x = b ∨ x = n ∨ x = e := by
    intro x
    rw [mem_independentTargets]
    constructor
    · rintro ⟨hx, hpx, _⟩
      exact hall x hx hpx
    · intro hx
      have hxv : x ∈ values ∧ pred x = true := by
        rcases hx with rfl | rfl | rfl
        · exact ⟨hb, hpb⟩
        · exact ⟨hn, hpn⟩
        · exact ⟨he, hpe⟩
      exact ⟨hxv.1, hxv.2, fun y hy hpy hne => hind y hy x hxv.1 hpy hxv.2 hne⟩
  have hnodup := independentTargets_nodup values r pred hnd
  have h1 : (independentTargets values r pred).filter c.IsPopOpsBiasAdd = [b] := by
    apply eq_singleton_of_nodup (hnodup.filter _)
    intro x
    rw [List.mem_filter, hmem]
    constructor
    · rintro ⟨rfl | rfl | rfl, hx⟩
      · rfl
      · rw [hnb] at hx; exact absurd hx (by simp)
      · rw [heb] at hx; exact absurd hx (by simp)
    · rintro rfl
      exact ⟨Or.inl rfl, hbb⟩
  have h2 : (independentTargets values r pred).filter c.IsNormInferenceOrTraining = [n] := by
    apply eq_singleton_of_nodup (hnodup.filter _)
    intro x
    rw [List.mem_filter, hmem]
    constructor
    · rintro ⟨rfl | rfl | rfl, hx⟩
      · rw [hbn] at hx; exact absurd hx (by simp)
      · rfl
      · rw [hen] at hx; exact absurd hx (by simp)
    · rintro rfl
      exact ⟨Or.inr (Or.inl rfl), hnn⟩
  have h3 : (independentTargets values r pred).filter
      (fun i => !c.IsPopOpsBiasAdd i && !c.IsNormInferenceOrTraining i) = [e] := by
    apply eq_singleton_of_nodup (hnodup.filter _)
    intro x
    rw [List.mem_filter, hmem]
    constructor
    · rintro ⟨rfl | rfl | rfl, hx⟩
      · rw [hbb] at hx; exact absurd hx (by simp)
      · rw [hnn] at hx; exact absurd hx (by simp)
      · rfl
    · rintro rfl
      exact ⟨Or.inr (Or.inr rfl), by simp [heb, hen]⟩
  have hne : independentTargets values r pred ≠ [] := by
    intro hnil
    have := (hmem b).mpr (Or.inl rfl)
    rw [hnil] at this
    exact absurd this (List.not_mem_nil b)
  rw [find_all_targets_eq, h1, h2, h3]
  simp [hne]

/-- C11: for each source a mode processes, the loop over the list that
`find_all_targets` returns attempts the candidates that pass the checks of the
mode in the order of the list, each call returning what
`CreateForwardAllocationTarget` returns in the state the calls before have
left; either every candidate is attempted and none is committed, or the loop
ends at the first call that returns true: the candidates before it have been
attempted and have failed, those after it are not attempted, so at most one is
committed.  The arguments of a call name the source, the candidate and the
list.  In particular, when the admissible, mutually independent candidates are
one bias-add `b`, one normalization op `n` and one other op `e`, the list is
`b, n, e`, and when `b` passes the checks and its call returns true, that call
is the only one and the record of the source has the target `b`. -/
theorem C11_first_successful_candidate_is_committed (c : Collaborators) (m : HloModule) :
    (∀ (is_valid_target : InstId → Bool)
      (prepare : InstId → List InstId → InstId → Except Fatal (Option CommitArgs))
      (source : InstId) (consumers : List InstId) (rest : List (InstId × List InstId))
      (st : ModeState) (targets : List InstId),
      consumers ≠ [] →
      find_all_targets c consumers st.reachability_map is_valid_target = some targets →
      forEachSource c m is_valid_target prepare ((source, consumers) :: rest) st =
        match commitFirst c m (prepare source targets) targets st with
        | Except.error e => Except.error e
        | Except.ok st1 => forEachSource c m is_valid_target prepare rest st1) ∧
    (∀ (prepare : InstId → Except Fatal (Option CommitArgs)) (targets : List InstId)
      (st st1 : ModeState),
      commitFirst c m prepare targets st = Except.ok st1 →
      ∃ new : List CommitCall,
        st1.calls = st.calls ++ new ∧
        replayCalls c m st.reachability_map st.state (new.map (fun call => call.args)) =
          (new, st1.reachability_map, st1.state) ∧
        ((new.map (fun call => call.args) = preparedArgs prepare targets ∧
            ∀ call ∈ new, call.created = false) ∨
          ∃ (failed : List CommitCall) (a : CommitArgs) (rest : List CommitArgs),
            preparedArgs prepare targets = failed.map (fun call => call.args) ++ a :: rest ∧
            new = failed ++ [⟨a, true⟩] ∧ ∀ call ∈ failed, call.created = false)) ∧
    (∀ (g : MetaGraph) (alloc_dependencies source_consumers : List (InstId × List InstId))
      (inputs : InputMap) (source : InstId) (targets : List InstId) (target : InstId)
      (a : CommitArgs),
      prepareSensitive c m g alloc_dependencies source_consumers inputs source targets target =
        Except.ok (some a) →
      a.source = source ∧ a.target = target ∧ a.other_targets = targets) ∧
    (∀ (g : MetaGraph) (inputs : InputMap) (source : InstId) (targets : List InstId)
      (target : InstId) (a : CommitArgs),
      prepareDependent c m g inputs source targets target = Except.ok (some a) →
      a.source = source ∧ a.target = target ∧ a.other_targets = targets) ∧
    (∀ (values : List InstId) (pred : InstId → Bool) (b n e : InstId) (st : ModeState)
      (source : InstId) (prepare : InstId → Except Fatal (Option CommitArgs)) (a : CommitArgs),
      values.Nodup → b ∈ values → n ∈ values → e ∈ values →
      pred b = true → pred n = true → pred e = true →
      (∀ x ∈ values, pred x = true → x = b ∨ x = n ∨ x = e) →
      (∀ x ∈ values, ∀ y ∈ values, pred x = true → pred y = true → x ≠ y →
        st.reachability_map.IsReachable x y = false) →
      c.IsPopOpsBiasAdd b = true → c.IsNormInferenceOrTraining b = false →
      c.IsPopOpsBiasAdd n = false → c.IsNormInferenceOrTraining n = true →
      c.IsPopOpsBiasAdd e = false → c.IsNormInferenceOrTraining e = false →
      find_all_targets c values st.reachability_map pred = some [b, n, e] ∧
      (prepare b = Except.ok (some a) → a.source = source → a.target = b →
        (a.call c m st.reachability_map st.state).created = true →
        ∃ st1 : ModeState, commitFirst c m prepare [b, n, e] st = Except.ok st1 ∧
          st1.calls = st.calls ++ [⟨a, true⟩] ∧
          (mapFind st1.state.tensor_allocation_map (source, 0)).map (fun t => t.tgt) =
            some b)) := by
  refine ⟨?_, commitFirst_order c m, prepareSensitive_args c m, prepareDependent_args c m, ?_⟩
  · intro is_valid_target prepare source consumers rest st targets hne hfind
    rw [forEachSource]
    have hempty : consumers.isEmpty = false := by
      cases consumers with
      | nil => exact absurd rfl hne
      | cons _ _ => rfl
    simp only [hempty, Bool.false_eq_true, if_false, hfind]
  · intro values pred b n e st source prepare a hnd hb hn he hpb hpn hpe hall hind
      hbb hbn hnb hnn heb hen
    refine ⟨find_all_targets_three c values st.reachability_map pred b n e hnd hb hn he hpb hpn
      hpe hall hind hbb hbn hnb hnn heb hen, ?_⟩
    intro hprep hsrc htgt hcr
    have hcr1 : (CreateForwardAllocationTarget c m st.reachability_map st.state a.source
        a.target a.input_index a.layout_producer a.layout_output_index a.other_targets
        a.forward_path a.backward_path a.deferred_allocations_path).created = true := hcr
    refine ⟨⟨st.found_target || true, (a.call c m st.reachability_map st.state).reachability_map,
      (a.call c m st.reachability_map st.state).state, st.calls ++ [⟨a, true⟩]⟩, ?_, rfl, ?_⟩
    · rw [commitFirst]
      simp only [hprep, hcr1, if_true]
      rfl
    · rcases call_cases c m st.reachability_map st.state a with
        ⟨_, heq⟩ | ⟨_, _, hf, _⟩ | ⟨_, _, _, _, _, htam⟩
      · rw [heq] at hcr
        exact absurd hcr (by simp)
      · rw [hf] at hcr
        exact absurd hcr (by decide)
      · simp only [htam, ← hsrc, mapFind_mapAssign_same, Option.map_some', htgt]

/-- C11, on the priority example.  For the source 0 the candidates 4, 3, 2
come out as 2 (bias-add), 3 (normalization), 4, and the call for 2 returns
true and is recorded.  For the source 7 the candidates are 8 (bias-add) and
10: the call for 8 returns false, the call for 10 returns true and ends the
loop. -/
theorem C11_first_successful_candidate_is_committed_witness :
    priorityFallback.calls =
      [⟨⟨7, 8, 1, 9, 0, [8, 10], [], [], []⟩, false⟩,
        ⟨⟨7, 10, 1, 1, 0, [8, 10], [], [], []⟩, true⟩] ∧
    (∃ new : List CommitCall,
      priorityFallback.calls = priorityStart.calls ++ new ∧
      replayCalls priorityCollaborators priorityModule priorityStart.reachability_map
        priorityStart.state (new.map (fun call => call.args)) =
        (new, priorityFallback.reachability_map, priorityFallback.state) ∧
      ((new.map (fun call => call.args) =
          preparedArgs (prepareDependent priorityCollaborators priorityModule priorityGraph
            [(0, []), (7, [])] 7 [8, 10]) [8, 10] ∧
          ∀ call ∈ new, call.created = false) ∨
        ∃ (failed : List CommitCall) (a : CommitArgs) (rest : List CommitArgs),
          preparedArgs (prepareDependent priorityCollaborators priorityModule priorityGraph
            [(0, []), (7, [])] 7 [8, 10]) [8, 10] =
            failed.map (fun call => call.args) ++ a :: rest ∧
          new = failed ++ [⟨a, true⟩] ∧ ∀ call ∈ failed, call.created = false)) ∧
    find_all_targets priorityCollaborators [0, 4, 3, 2, 5] priorityStart.reachability_map
      (fun x => IsLayoutDependentTarget priorityCollaborators priorityModule x) =
      some [2, 3, 4] ∧
    (∃ st1 : ModeState,
      commitFirst priorityCollaborators priorityModule
        (prepareDependent priorityCollaborators priorityModule priorityGraph
          [(0, []), (7, [])] 0 [2, 3, 4]) [2, 3, 4] priorityStart = Except.ok st1 ∧
      st1.calls = priorityStart.calls ++ [⟨⟨0, 2, 1, 1, 0, [2, 3, 4], [], [], []⟩, true⟩] ∧
      (mapFind st1.state.tensor_allocation_map (0, 0)).map (fun t => t.tgt) = some 2) :=
  ⟨by rfl,
    (C11_first_successful_candidate_is_committed priorityCollaborators priorityModule).2.1
      (prepareDependent priorityCollaborators priorityModule priorityGraph
        [(0, []), (7, [])] 7 [8, 10]) [8, 10] priorityStart priorityFallback (by rfl),
    ((C11_first_successful_candidate_is_committed priorityCollaborators priorityModule).2.2.2.2
      [0, 4, 3, 2, 5]
      (fun x => IsLayoutDependentTarget priorityCollaborators priorityModule x) 2 3 4
      priorityStart 0
      (prepareDependent priorityCollaborators priorityModule priorityGraph
        [(0, []), (7, [])] 0 [2, 3, 4])
      ⟨0, 2, 1, 1, 0, [2, 3, 4], [], [], []⟩
      (by decide) (by decide) (by decide) (by decide) (by rfl) (by rfl) (by rfl)
      (by decide) (by decide) (by rfl) (by rfl) (by rfl) (by rfl) (by rfl) (by rfl)).1,
    ((C11_first_successful_candidate_is_committed priorityCollaborators priorityModule).2.2.2.2
      [0, 4, 3, 2, 5]
      (fun x => IsLayoutDependentTarget priorityCollaborators priorityModule x) 2 3 4
      priorityStart 0
      (prepareDependent priorityCollaborators priorityModule priorityGraph
        [(0, []), (7, [])] 0 [2, 3, 4])
      ⟨0, 2, 1, 1, 0, [2, 3, 4], [], [], []⟩
      (by decide) (by decide) (by decide) (by decide) (by rfl) (by rfl) (by rfl)
      (by decide) (by decide) (by rfl) (by rfl) (by rfl) (by rfl) (by rfl) (by rfl)).2
      (by rfl) rfl rfl (by decide)⟩

/-! ## Lemmas on the operand positions -/

/-- The position `List.indexOf` gives is the first one. -/
theorem indexOf_first (operand : InstId) :
    ∀ (operands : List InstId) (i : Nat), operands[i]? = some operand →
      (∀ j, j < i → operands[j]? ≠ some operand) → operands.indexOf operand = i := by
  intro operands
  induction operands with
  | nil => intro i h; simp at h
  | cons x rest ih =>
    intro i h hfirst
    cases i with
    | zero =>
      simp only [List.getElem?_cons_zero, Option.some.injEq] at h
      rw [h]
      exact List.indexOf_cons_self _ _
    | succ k =>
      have hx : x ≠ operand := by
        intro hx
        exact hfirst 0 (Nat.succ_pos k) (by simp [hx])
      rw [List.indexOf_cons_ne _ hx]
      simp only [List.getElem?_cons_succ] at h
      have := ih k h (fun j hj => by
        have := hfirst (j + 1) (Nat.succ_lt_succ hj)
        simpa using this)
      rw [this]

/-- `operand_index` returns the first position of an operand. -/
theorem operand_index_first (m : HloModule) (target operand : InstId) (i : Nat)
    (h : FirstPosition m target operand i) : operand_index m target operand = Except.ok i := by
  unfold operand_index
  have hmem : operand ∈ (m.inst target).operands := List.getElem?_mem h.1
  rw [if_pos hmem, indexOf_first operand _ i h.1 h.2]

/-- An operand has a first position. -/
theorem FirstPosition_of_mem (m : HloModule) (target operand : InstId)
    (h : operand ∈ (m.inst target).operands) :
    FirstPosition m target operand ((m.inst target).operands.indexOf operand) := by
  have key : ∀ (operands : List InstId), operand ∈ operands →
      operands[operands.indexOf operand]? = some operand ∧
        ∀ j, j < operands.indexOf operand → operands[j]? ≠ some operand := by
    intro operands
    induction operands with
    | nil => intro h; simp at h
    | cons x rest ih =>
      intro hmem
      by_cases hx : x = operand
      · subst hx
        rw [List.indexOf_cons_self]
        exact ⟨by simp, fun j hj => absurd hj (Nat.not_lt_zero j)⟩
      · rw [List.indexOf_cons_ne _ hx]
        have hrest : operand ∈ rest := by
          rcases List.mem_cons.mp hmem with h1 | h1
          · exact absurd h1.symm hx
          · exact h1
        obtain ⟨h1, h2⟩ := ih hrest
        refine ⟨by simpa using h1, ?_⟩
        intro j hj
        cases j with
        | zero => simpa using hx
        | succ k =>
          simp only [List.getElem?_cons_succ]
          exact h2 k (Nat.lt_of_succ_lt_succ hj)
  exact key _ h

/-! ## The operand classifiers: claims C21, C22, C28 -/

/-- C21: for an operand of `target` whose first position among the operands
of `target` is `i`, `GetLayoutSensitiveOperandIndex` returns the index `i`
when `target` is a binary elementwise op and `i` is 0 or 1, and nothing
otherwise; so it returns an index exactly when `target` is a binary
elementwise op and that position is 0 or 1, and the index is that position. -/
theorem C21_layout_sensitive_operand_index (c : Collaborators) (m : HloModule)
    (target operand layout_producer : InstId) (i : Nat)
    (h : FirstPosition m target operand i) :
    GetLayoutSensitiveOperandIndex c m target operand layout_producer =
      Except.ok (if c.IsPopOpsElementwiseBinary target = true ∧ (i = 0 ∨ i = 1) then some i
        else none) ∧
    (∀ idx, GetLayoutSensitiveOperandIndex c m target operand layout_producer =
        Except.ok (some idx) ↔
      c.IsPopOpsElementwiseBinary target = true ∧ (i = 0 ∨ i = 1) ∧ idx = i) ∧
    (2 ≤ i ∨ c.IsPopOpsElementwiseBinary target = false →
      GetLayoutSensitiveOperandIndex c m target operand layout_producer = Except.ok none) := by
  have hval : GetLayoutSensitiveOperandIndex c m target operand layout_producer =
      Except.ok (if c.IsPopOpsElementwiseBinary target = true ∧ (i = 0 ∨ i = 1) then some i
        else none) := by
    unfold GetLayoutSensitiveOperandIndex
    rw [operand_index_first m target operand i h]
    by_cases hb : c.IsPopOpsElementwiseBinary target = true
    · by_cases hi : i < 2
      · have hi2 : i = 0 ∨ i = 1 := by omega
        simp [hb, hi, hi2]
      · have hi2 : ¬ (i = 0 ∨ i = 1) := by omega
        simp [hb, hi, hi2]
    · simp [hb]
  refine ⟨hval, ?_, ?_⟩
  · intro idx
    rw [hval]
    by_cases hc : c.IsPopOpsElementwiseBinary target = true ∧ (i = 0 ∨ i = 1)
    · rw [if_pos hc]
      constructor
      · intro heq
        simp only [Except.ok.injEq, Option.some.injEq] at heq
        exact ⟨hc.1, hc.2, heq.symm⟩
      · rintro ⟨_, _, rfl⟩
        rfl
    · rw [if_neg hc]
      constructor
      · intro heq
        exact absurd heq (by simp)
      · rintro ⟨h1, h2, _⟩
        exact absurd ⟨h1, h2⟩ hc
  · intro hor
    rw [hval]
    have hc : ¬ (c.IsPopOpsElementwiseBinary target = true ∧ (i = 0 ∨ i = 1)) := by
      rintro ⟨h1, h2⟩
      rcases hor with h3 | h3
      · omega
      · rw [h3] at h1
        exact absurd h1 (by simp)
    rw [if_neg hc]

/-- C21, on the example module: of the operands 1, 0 of the binary
elementwise op 2, the operand 0 has the index 1; for the batch norm 6, no
binary elementwise op, there is no index. -/
theorem C21_layout_sensitive_operand_index_witness :
    GetLayoutSensitiveOperandIndex exampleCollaborators exampleModule 2 0 1 =
      Except.ok (some 1) ∧
    GetLayoutSensitiveOperandIndex exampleCollaborators exampleModule 6 7 1 = Except.ok none :=
  ⟨(C21_layout_sensitive_operand_index exampleCollaborators exampleModule 2 0 1 1
      ⟨by rfl, by decide⟩).1,
    (C21_layout_sensitive_operand_index exampleCollaborators exampleModule 6 7 1 2
      ⟨by rfl, by decide⟩).2.2 (Or.inl (by decide))⟩

/-- C22: for an operand of `target` whose first position among the operands
of `target` is `i`, `GetLayoutDependentOperandIndices` returns `(1, 0)` or
`(2, 0)` for a batch norm (inference or training) when `i` is 1 or 2 and
nothing for every other position; for a custom call that is a poplibs custom
op it returns the declared pair `(i, j)` when `i` is a key of the declared
layout dependencies and nothing otherwise; for every other target it returns
nothing. -/
theorem C22_layout_dependent_operand_indices (c : Collaborators) (m : HloModule)
    (target operand : InstId) (i : Nat) (h : FirstPosition m target operand i) :
    ((m.inst target).opcode = HloOpcode.kBatchNormInference ∨
        (m.inst target).opcode = HloOpcode.kBatchNormTraining →
      (i = 1 → GetLayoutDependentOperandIndices c m target operand = Except.ok (some (1, 0))) ∧
      (i = 2 → GetLayoutDependentOperandIndices c m target operand = Except.ok (some (2, 0))) ∧
      (i ≠ 1 → i ≠ 2 → GetLayoutDependentOperandIndices c m target operand = Except.ok none)) ∧
    ((m.inst target).opcode = HloOpcode.kCustomCall → c.IsPoplibsHloCustomOp target = true →
      (∀ j, mapFind (c.LayoutDependencies target) i = some j →
        GetLayoutDependentOperandIndices c m target operand = Except.ok (some (i, j))) ∧
      (mapFind (c.LayoutDependencies target) i = none →
        GetLayoutDependentOperandIndices c m target operand = Except.ok none)) ∧
    ((m.inst target).opcode ≠ HloOpcode.kBatchNormInference →
      (m.inst target).opcode ≠ HloOpcode.kBatchNormTraining →
      ¬ ((m.inst target).opcode = HloOpcode.kCustomCall ∧
        c.IsPoplibsHloCustomOp target = true) →
      GetLayoutDependentOperandIndices c m target operand = Except.ok none) := by
  have hidx := operand_index_first m target operand i h
  refine ⟨?_, ?_, ?_⟩
  · intro hop
    refine ⟨?_, ?_, ?_⟩
    · intro hi
      unfold GetLayoutDependentOperandIndices
      rw [hidx]
      rcases hop with hop | hop <;> simp [hop, hi]
    · intro hi
      unfold GetLayoutDependentOperandIndices
      rw [hidx]
      rcases hop with hop | hop <;> simp [hop, hi]
    · intro h1 h2
      unfold GetLayoutDependentOperandIndices
      rw [hidx]
      rcases hop with hop | hop <;> simp [hop, h1, h2]
  · intro hop hpop
    refine ⟨?_, ?_⟩
    · intro j hj
      unfold GetLayoutDependentOperandIndices
      rw [hidx]
      simp [hop, hpop, hj]
    · intro hj
      unfold GetLayoutDependentOperandIndices
      rw [hidx]
      simp [hop, hpop, hj]
  · intro h1 h2 h3
    unfold GetLayoutDependentOperandIndices
    rw [hidx]
    simp only
    split
    · rename_i hop; exact absurd hop h1
    · rename_i hop; exact absurd hop h2
    · rename_i hop
      by_cases hpop : c.IsPoplibsHloCustomOp target = true
      · exact absurd ⟨hop, hpop⟩ h3
      · simp [hpop]
    · rfl

/-- C22, on the examples: the operand 7 of the batch norm 6 (operands 1, 0,
7) gives `(2, 0)` and its operand 1, at position 0, nothing; the operand 0 of
the custom op 2 of the priority example (operands 1, 0; declared pair
`(1, 0)`) gives `(1, 0)` and its operand 1 nothing. -/
theorem C22_layout_dependent_operand_indices_witness :
    GetLayoutDependentOperandIndices exampleCollaborators exampleModule 6 7 =
      Except.ok (some (2, 0)) ∧
    GetLayoutDependentOperandIndices exampleCollaborators exampleModule 6 1 = Except.ok none ∧
    GetLayoutDependentOperandIndices priorityCollaborators priorityModule 2 0 =
      Except.ok (some (1, 0)) ∧
    GetLayoutDependentOperandIndices priorityCollaborators priorityModule 2 1 =
      Except.ok none ∧
    GetLayoutDependentOperandIndices exampleCollaborators exampleModule 2 0 = Except.ok none :=
  ⟨((C22_layout_dependent_operand_indices exampleCollaborators exampleModule 6 7 2
      ⟨by rfl, by decide⟩).1 (Or.inl (by rfl))).2.1 rfl,
    ((C22_layout_dependent_operand_indices exampleCollaborators exampleModule 6 1 0
      ⟨by rfl, by decide⟩).1 (Or.inl (by rfl))).2.2 (by decide) (by decide),
    ((C22_layout_dependent_operand_indices priorityCollaborators priorityModule 2 0 1
      ⟨by rfl, by decide⟩).2.1 (by rfl) (by rfl)).1 0 (by rfl),
    ((C22_layout_dependent_operand_indices priorityCollaborators priorityModule 2 1 0
      ⟨by rfl, by decide⟩).2.1 (by rfl) (by rfl)).2 (by rfl),
    (C22_layout_dependent_operand_indices exampleCollaborators exampleModule 2 0 1
      ⟨by rfl, by decide⟩).2.2 (by decide) (by decide) (by decide)⟩

/-- An entry found in an association list makes the list non-empty. -/
theorem length_ne_zero_of_mapFind {κ ν : Type} [DecidableEq κ] (l : List (κ × ν)) (k : κ)
    (v : ν) (h : mapFind l k = some v) : l.length ≠ 0 := by
  cases l with
  | nil => simp [mapFind] at h
  | cons _ _ => simp

/-- C28: the two classifiers of the second mode agree: when
`GetLayoutDependentOperandIndices(target, operand)` returns a pair,
`IsLayoutDependentTarget(target)` is true. -/
theorem C28_classifiers_agree (c : Collaborators) (m : HloModule) (target operand : InstId)
    (indices : Nat × Nat)
    (h : GetLayoutDependentOperandIndices c m target operand = Except.ok (some indices)) :
    IsLayoutDependentTarget c m target = true := by
  unfold GetLayoutDependentOperandIndices at h
  unfold IsLayoutDependentTarget
  split at h
  · exact absurd h (by simp)
  · split at h
    · rename_i hop; simp [hop]
    · rename_i hop; simp [hop]
    · rename_i hop
      split at h
      · rename_i hpop
        split at h
        · rename_i v hv
          simp only [hop, hpop, if_true, decide_eq_true_eq]
          exact length_ne_zero_of_mapFind _ _ v hv
        · exact absurd h (by simp)
      · exact absurd h (by simp)
    · exact absurd h (by simp)

/-- C28, on the examples: the batch norm 6 and the custom op 2 of the priority
example, for which a pair is returned, are layout dependent targets. -/
theorem C28_classifiers_agree_witness :
    IsLayoutDependentTarget exampleCollaborators exampleModule 6 = true ∧
    IsLayoutDependentTarget priorityCollaborators priorityModule 2 = true :=
  ⟨C28_classifiers_agree exampleCollaborators exampleModule 6 7 (2, 0) (by rfl),
    C28_classifiers_agree priorityCollaborators priorityModule 2 0 (1, 0) (by rfl)⟩

/-! ## Lemmas on acyclic graphs -/

theorem reaches_refl (edges : List Edge) (a : InstId) : Reaches edges a a :=
  Relation.ReflTransGen.refl

theorem reaches_trans {edges : List Edge} {a b d : InstId} (h1 : Reaches edges a b)
    (h2 : Reaches edges b d) : Reaches edges a d :=
  Relation.ReflTransGen.trans h1 h2

theorem reaches_edge {edges : List Edge} {a b : InstId} (h : (a, b) ∈ edges) :
    Reaches edges a b :=
  Relation.ReflTransGen.single h

/-- In an acyclic graph two nodes that reach each other are the same node. -/
theorem reaches_antisymm {edges : List Edge} (hacyclic : Acyclic edges) {a b : InstId}
    (h1 : Reaches edges a b) (h2 : Reaches edges b a) : a = b := by
  rcases Relation.ReflTransGen.cases_head h1 with h | ⟨x, hx, hrest⟩
  · exact h
  · exact absurd (reaches_trans hrest h2) (hacyclic (a, x) hx)

/-- A non-empty list has an element that no other element of it reaches, when
reaching is transitive and no two different nodes reach each other. -/
theorem exists_unreached (reach : InstId → InstId → Bool)
    (hanti : ∀ x y, x ≠ y → reach x y = true → reach y x = false)
    (htrans : ∀ x y z, reach x y = true → reach y z = true → reach x z = true) :
    ∀ l : List InstId, l ≠ [] → ∃ x ∈ l, ∀ y ∈ l, y ≠ x → reach y x = false := by
  intro l
  induction l with
  | nil => intro h; exact absurd rfl h
  | cons a rest ih =>
    intro _
    by_cases hrest : rest = []
    · subst hrest
      refine ⟨a, List.mem_cons_self _ _, ?_⟩
      intro y hy hne
      rw [List.mem_singleton] at hy
      exact absurd hy hne
    · obtain ⟨x, hx, hmin⟩ := ih hrest
      by_cases hax : a ≠ x ∧ reach a x = true
      · refine ⟨a, List.mem_cons_self _ _, ?_⟩
        intro y hy hne
        rcases List.mem_cons.mp hy with hy | hy
        · exact absurd hy hne
        · by_cases hyx : y = x
          · subst hyx
            exact hanti a y hax.1 hax.2
          · cases hya : reach y a
            · rfl
            · have := htrans y a x hya hax.2
              rw [hmin y hy hyx] at this
              exact absurd this (by simp)
      · refine ⟨x, List.mem_cons_of_mem _ hx, ?_⟩
        intro y hy hne
        rcases List.mem_cons.mp hy with hy | hy
        · subst hy
          cases hyx : reach y x
          · rfl
          · exact absurd ⟨hne, hyx⟩ hax
        · exact hmin y hy hne

/-- The answers of an exact oracle over an acyclic graph: transitive, and no
two different nodes reach each other. -/
theorem exact_order {r : HloReachabilityMap} {control : List Edge} (hexact : Exact r control)
    (hacyclic : Acyclic (allEdges r control)) :
    (∀ x y, x ≠ y → r.IsReachable x y = true → r.IsReachable y x = false) ∧
    (∀ x y z, r.IsReachable x y = true → r.IsReachable y z = true →
      r.IsReachable x z = true) := by
  constructor
  · intro x y hne hxy
    cases hyx : r.IsReachable y x
    · rfl
    · exact absurd (reaches_antisymm hacyclic ((hexact x y).mp hxy) ((hexact y x).mp hyx)) hne
  · intro x y z hxy hyz
    exact (hexact x z).mpr (reaches_trans ((hexact x y).mp hxy) ((hexact y z).mp hyz))

/-! ## The independence filter: claim C25 -/

/-- C25: when the answers of the reachability map are transitive and no two
different nodes reach each other (as in an acyclic graph), the independence
filter of `find_all_targets` never empties a non-empty set of candidates:
`find_all_targets` returns nothing exactly when no element of `values`
satisfies `pred`.  The answers of an exact oracle over an acyclic graph are of
this kind. -/
theorem C25_independence_filter_keeps_a_candidate (c : Collaborators) (values : List InstId)
    (r : HloReachabilityMap) (pred : InstId → Bool) :
    ((∀ x y, x ≠ y → r.IsReachable x y = true → r.IsReachable y x = false) →
      (∀ x y z, r.IsReachable x y = true → r.IsReachable y z = true →
        r.IsReachable x z = true) →
      (find_all_targets c values r pred = none ↔ ∀ x ∈ values, pred x = false)) ∧
    (∀ control : List Edge, Exact r control → Acyclic (allEdges r control) →
      (find_all_targets c values r pred = none ↔ ∀ x ∈ values, pred x = false)) := by
  have main : (∀ x y, x ≠ y → r.IsReachable x y = true → r.IsReachable y x = false) →
      (∀ x y z, r.IsReachable x y = true → r.IsReachable y z = true →
        r.IsReachable x z = true) →
      (find_all_targets c values r pred = none ↔ ∀ x ∈ values, pred x = false) := by
    intro hanti htrans
    rw [find_all_targets_eq]
    constructor
    · intro h x hx
      split at h
      · rename_i hnil
        cases hp : pred x
        · rfl
        · have hne : reduce values pred ≠ [] := by
            intro hempty
            have : x ∈ reduce values pred := List.mem_filter.mpr ⟨hx, hp⟩
            rw [hempty] at this
            exact absurd this (List.not_mem_nil x)
          obtain ⟨y, hy, hmin⟩ := exists_unreached r.IsReachable hanti htrans _ hne
          have hy2 := List.mem_filter.mp hy
          have : y ∈ independentTargets values r pred :=
            (mem_independentTargets values r pred y).mpr
              ⟨hy2.1, hy2.2, fun z hz hpz hzy => hmin z (List.mem_filter.mpr ⟨hz, hpz⟩) hzy⟩
          rw [hnil] at this
          exact absurd this (List.not_mem_nil y)
      · exact absurd h (by simp)
    · intro h
      have hnil : independentTargets values r pred = [] := by
        apply List.eq_nil_iff_forall_not_mem.mpr
        intro x hx
        have hx2 := (mem_independentTargets values r pred x).mp hx
        rw [h x hx2.1] at hx2
        exact absurd hx2.2.1 (by simp)
      rw [if_pos hnil]
  refine ⟨main, ?_⟩
  intro control hexact hacyclic
  exact main (exact_order hexact hacyclic).1 (exact_order hexact hacyclic).2

/-- C25, on the oracle of the graph with the operand edges 0 → 2, 1 → 2,
2 → 3, which is acyclic: of the candidates 3 and 2 one is left, and there is
no result only when there is no candidate. -/
theorem C25_independence_filter_keeps_a_candidate_witness :
    Exact (HloReachabilityMap.Build dataChain []) [] ∧
    Acyclic (allEdges (HloReachabilityMap.Build dataChain []) []) ∧
    (find_all_targets exampleCollaborators [3, 2] (HloReachabilityMap.Build dataChain [])
        (fun _ => true) = none ↔
      ∀ x ∈ [3, 2], (fun _ => true) x = false) ∧
    find_all_targets exampleCollaborators [3, 2] (HloReachabilityMap.Build dataChain [])
      (fun _ => true) ≠ none :=
  ⟨Build_exact dataChain [], (acyclicCheck_iff _).mp (by decide),
    (C25_independence_filter_keeps_a_candidate exampleCollaborators [3, 2]
      (HloReachabilityMap.Build dataChain []) (fun _ => true)).2 []
      (Build_exact dataChain []) ((acyclicCheck_iff _).mp (by decide)),
    by decide⟩

/-! ## Lemmas on the graph a commit leaves

`edges` is the graph before the call and `edges1` a graph the call makes of
it: every edge of `edges1` is an edge of `edges`, the edge
`layout_producer → source`, or an edge from `target` to one of `siblings`. -/

/-- From a node downstream of `source`, a path of the extended graph stays
downstream of `source`, never takes the edge `layout_producer → source`, and
is either a path of the graph before or passes through `target` and ends with
a path of the graph before that starts at a sibling. -/
theorem reaches_downstream {edges edges1 : List Edge} {source target layout_producer : InstId}
    {siblings : List InstId}
    (hext : ∀ e ∈ edges1, e ∈ edges ∨ e = (layout_producer, source) ∨
      (e.1 = target ∧ e.2 ∈ siblings ∧ e.2 ≠ target))
    (hsource : ∀ t ∈ siblings, Reaches edges source t)
    (hproducer : ¬ Reaches edges source layout_producer)
    {x y : InstId} (hx : Reaches edges source x) (h : Reaches edges1 x y) :
    Reaches edges source y ∧
      (Reaches edges x y ∨
        (Reaches edges x target ∧ ∃ p ∈ siblings, p ≠ target ∧ Reaches edges p y)) := by
  induction h with
  | refl => exact ⟨hx, Or.inl (reaches_refl _ _)⟩
  | tail _ hbc ih =>
    rename_i b z _
    obtain ⟨hb, hcase⟩ := ih
    rcases hext (b, z) hbc with he | he | ⟨h1, h2, h3⟩
    · refine ⟨reaches_trans hb (reaches_edge he), ?_⟩
      rcases hcase with hc | ⟨hc, p, hp, hpt, hpy⟩
      · exact Or.inl (reaches_trans hc (reaches_edge he))
      · exact Or.inr ⟨hc, p, hp, hpt, reaches_trans hpy (reaches_edge he)⟩
    · simp only [Prod.mk.injEq] at he
      rw [he.1] at hb
      exact absurd hb hproducer
    · simp only at h1 h2 h3
      refine ⟨hsource z h2, Or.inr ⟨?_, z, h2, h3, reaches_refl _ _⟩⟩
      rcases hcase with hc | ⟨hc, _⟩
      · rw [h1] at hc
        exact hc
      · exact hc

/-- A path of the extended graph is a path of the graph before, or it starts
with a path of the graph before up to the first new edge. -/
theorem reaches_first_new_edge {edges edges1 : List Edge}
    {source target layout_producer : InstId} {siblings : List InstId}
    (hext : ∀ e ∈ edges1, e ∈ edges ∨ e = (layout_producer, source) ∨
      (e.1 = target ∧ e.2 ∈ siblings ∧ e.2 ≠ target))
    {x y : InstId} (h : Reaches edges1 x y) :
    Reaches edges x y ∨
      ∃ a b, ((a, b) = (layout_producer, source) ∨ (a = target ∧ b ∈ siblings ∧ b ≠ target)) ∧
        Reaches edges x a ∧ Reaches edges1 b y := by
  induction h using Relation.ReflTransGen.head_induction_on with
  | refl => exact Or.inl (reaches_refl _ _)
  | head hab hrest ih =>
    rename_i x1 x2
    rcases hext (x1, x2) hab with he | he | he
    · rcases ih with h1 | ⟨a, b, hnew, h1, h2⟩
      · exact Or.inl (reaches_trans (reaches_edge he) h1)
      · exact Or.inr ⟨a, b, hnew, reaches_trans (reaches_edge he) h1, h2⟩
    · exact Or.inr ⟨x1, x2, Or.inl he, reaches_refl _ _, hrest⟩
    · exact Or.inr ⟨x1, x2, Or.inr he, reaches_refl _ _, hrest⟩

/-- The extended graph is acyclic when the graph before is, the target and
the siblings are downstream of `source`, the layout producer is not, and the
target is not reachable from a sibling. -/
theorem extended_acyclic {edges edges1 : List Edge} {source target layout_producer : InstId}
    {siblings : List InstId}
    (hacyclic : Acyclic edges)
    (hext : ∀ e ∈ edges1, e ∈ edges ∨ e = (layout_producer, source) ∨
      (e.1 = target ∧ e.2 ∈ siblings ∧ e.2 ≠ target))
    (hsource : ∀ t ∈ siblings, Reaches edges source t)
    (hproducer : ¬ Reaches edges source layout_producer)
    (hindep : ∀ p ∈ siblings, p ≠ target → ¬ Reaches edges p target) :
    Acyclic edges1 := by
  intro e he hcycle
  obtain ⟨u, v⟩ := e
  simp only at hcycle
  rcases hext (u, v) he with he1 | he1 | ⟨h1, h2, h3⟩
  · rcases reaches_first_new_edge hext hcycle with h | ⟨a, b, hnew, hva, hbu⟩
    · exact hacyclic (u, v) he1 h
    · rcases hnew with hnew | ⟨ha, hb, hbt⟩
      · simp only [Prod.mk.injEq] at hnew
        have hd := reaches_downstream hext hsource hproducer
          (by rw [hnew.2]; exact reaches_refl _ _) hbu
        have hv : Reaches edges source v := reaches_trans hd.1 (reaches_edge he1)
        rw [hnew.1] at hva
        exact hproducer (reaches_trans hv hva)
      · have hd := reaches_downstream hext hsource hproducer (hsource b hb) hbu
        rw [ha] at hva
        rcases hd.2 with hc | ⟨hc, _⟩
        · exact hindep b hb hbt
            (reaches_trans hc (reaches_trans (reaches_edge he1) hva))
        · exact hindep b hb hbt hc
  · simp only [Prod.mk.injEq] at he1
    rw [he1.1, he1.2] at hcycle
    exact hproducer (reaches_downstream hext hsource hproducer (reaches_refl _ _) hcycle).1
  · simp only at h1 h2 h3
    rw [h1] at hcycle
    rcases (reaches_downstream hext hsource hproducer (hsource v h2) hcycle).2 with hc | ⟨hc, _⟩
    · exact hindep v h2 h3 hc
    · exact hindep v h2 h3 hc

/-- Under the conditions of the target finder the loop over the siblings
never fails: at each sibling the target does not reach it yet, and the graph
stays an extension of the graph before by edges from the target to
siblings. -/
theorem orderSiblings_independent {edges : List Edge} {source target layout_producer : InstId}
    {other_targets : List InstId}
    (hsource : ∀ t ∈ other_targets, Reaches edges source t)
    (htarget : target ∈ other_targets)
    (hproducer : ¬ Reaches edges source layout_producer)
    (hindep : ∀ x ∈ other_targets, ∀ y ∈ other_targets, x ≠ y → ¬ Reaches edges x y) :
    ∀ (l processed : List InstId) (r : HloReachabilityMap) (control : List Edge)
      (added : List InstId),
      l.Nodup → (∀ nd ∈ l, nd ∈ other_targets ∧ nd ∉ processed) →
      (∀ p ∈ processed, p ∈ other_targets) →
      Exact r control →
      (∀ e ∈ allEdges r control, e ∈ edges ∨ e = (layout_producer, source) ∨
        (e.1 = target ∧ e.2 ∈ processed ∧ e.2 ≠ target)) →
      (orderSiblings target l r control added).dependencies_ok = true ∧
      ∀ e ∈ allEdges (orderSiblings target l r control added).reachability_map
          (orderSiblings target l r control added).control,
        e ∈ edges ∨ e = (layout_producer, source) ∨
          (e.1 = target ∧ e.2 ∈ processed ++ l ∧ e.2 ≠ target) := by
  intro l
  induction l with
  | nil =>
    intro processed r control added _ _ _ _ hext
    refine ⟨rfl, ?_⟩
    intro e he
    rw [List.append_nil]
    exact hext e he
  | cons nd rest ih =>
    intro processed r control added hnd hl hproc hexact hext
    have hrest : ∀ x ∈ rest, x ∈ other_targets ∧ x ∉ processed :=
      fun x hx => hl x (List.mem_cons_of_mem _ hx)
    unfold orderSiblings
    by_cases h1 : nd = target
    · simp only [h1, if_true]
      obtain ⟨ha, hb⟩ := ih processed r control added (List.nodup_cons.mp hnd).2 hrest hproc
        hexact hext
      refine ⟨ha, ?_⟩
      intro e he
      rcases hb e he with h | h | ⟨h2, h3, h4⟩
      · exact Or.inl h
      · exact Or.inr (Or.inl h)
      · refine Or.inr (Or.inr ⟨h2, ?_, h4⟩)
        rcases List.mem_append.mp h3 with h3 | h3
        · exact List.mem_append_left _ h3
        · exact List.mem_append_right _ (List.mem_cons_of_mem _ h3)
    · simp only [h1, if_false]
      have hfree : r.IsReachable target nd = false := by
        cases hreach : r.IsReachable target nd
        · rfl
        · exfalso
          have hpath := (hexact target nd).mp hreach
          have hd := reaches_downstream hext (fun t ht => hsource t (hproc t ht)) hproducer
            (hsource target htarget) hpath
          rcases hd.2 with hc | ⟨_, p, hp, _, hpn⟩
          · exact hindep target htarget nd (hl nd (List.mem_cons_self _ _)).1
              (fun h => h1 h.symm) hc
          · have hpne : p ≠ nd := by
              intro h
              rw [h] at hp
              exact (hl nd (List.mem_cons_self _ _)).2 hp
            exact hindep p (hproc p hp) nd (hl nd (List.mem_cons_self _ _)).1 hpne hpn
      simp only [hfree, Bool.not_false, if_true]
      obtain ⟨ha, hb⟩ := ih (processed ++ [nd])
        (r.UpdateReachabilityThroughInstruction (AddControlDependencyTo control target nd) nd)
        (AddControlDependencyTo control target nd) (added ++ [target])
        (List.nodup_cons.mp hnd).2
        (fun x hx => ⟨(hrest x hx).1, by
          intro hmem
          rcases List.mem_append.mp hmem with hmem | hmem
          · exact (hrest x hx).2 hmem
          · rw [List.mem_singleton] at hmem
            rw [hmem] at hx
            exact (List.nodup_cons.mp hnd).1 hx⟩)
        (fun p hp => by
          rcases List.mem_append.mp hp with hp | hp
          · exact hproc p hp
          · rw [List.mem_singleton] at hp
            rw [hp]
            exact (hl nd (List.mem_cons_self _ _)).1)
        (Update_exact r (AddControlDependencyTo control target nd) nd)
        (by
          intro e he
          have he1 : e ∈ r.data ++ AddControlDependencyTo control target nd := he
          rcases List.mem_append.mp he1 with he1 | he1
          · rcases hext e (List.mem_append_left _ he1) with h | h | ⟨h2, h3, h4⟩
            · exact Or.inl h
            · exact Or.inr (Or.inl h)
            · exact Or.inr (Or.inr ⟨h2, List.mem_append_left _ h3, h4⟩)
          · unfold AddControlDependencyTo at he1
            rcases (mem_setInsert control (target, nd) e).mp he1 with he1 | he1
            · rcases hext e (List.mem_append_right _ he1) with h | h | ⟨h2, h3, h4⟩
              · exact Or.inl h
              · exact Or.inr (Or.inl h)
              · exact Or.inr (Or.inr ⟨h2, List.mem_append_left _ h3, h4⟩)
            · rw [he1]
              exact Or.inr (Or.inr ⟨rfl, List.mem_append_right _ (List.mem_singleton.mpr rfl),
                h1⟩))
      refine ⟨ha, ?_⟩
      intro e he
      rcases hb e he with h | h | ⟨h2, h3, h4⟩
      · exact Or.inl h
      · exact Or.inr (Or.inl h)
      · refine Or.inr (Or.inr ⟨h2, ?_, h4⟩)
        rw [List.append_assoc] at h3
        exact h3

/-! ## The commit under the conditions of the target finder: claim C24 -/

/-- C24: when the graph (operand edges and control edges) is acyclic, the
oracle is exact, `target` is an element of `other_targets`, every element of
`other_targets` is reachable from `source`, no element of `other_targets` is
reachable from another, and `layout_producer` is not reachable from `source`,
the call does not take its rollback branch: the loop over the siblings ends
with `dependencies_ok`, the call returns true, the graph afterwards has the
edge `layout_producer → source` and the edge `target → nd` for every other
element `nd` of `other_targets`, it has no further new edge, it is acyclic,
and the oracle is exact for it. -/
theorem C24_finder_conditions_exclude_rollback (c : Collaborators) (m : HloModule)
    (r : HloReachabilityMap) (s : PassState) (a : CommitArgs)
    (hexact : Exact r s.control)
    (hacyclic : Acyclic (allEdges r s.control))
    (htarget : a.target ∈ a.other_targets)
    (hsource : ∀ t ∈ a.other_targets, r.IsReachable a.source t = true)
    (hindep : a.other_targets.Pairwise
      (fun x y => r.IsReachable x y = false ∧ r.IsReachable y x = false))
    (hproducer : r.IsReachable a.source a.layout_producer = false) :
    (a.siblings r s).dependencies_ok = true ∧
    (a.call c m r s).created = true ∧
    (a.layout_producer, a.source) ∈ (a.call c m r s).state.control ∧
    (∀ nd ∈ a.other_targets, nd ≠ a.target →
      (a.target, nd) ∈ (a.call c m r s).state.control) ∧
    (∀ e ∈ allEdges (a.call c m r s).reachability_map (a.call c m r s).state.control,
      e ∈ allEdges r s.control ∨ e = (a.layout_producer, a.source) ∨
        (e.1 = a.target ∧ e.2 ∈ a.other_targets ∧ e.2 ≠ a.target)) ∧
    Acyclic (allEdges (a.call c m r s).reachability_map (a.call c m r s).state.control) ∧
    Exact (a.call c m r s).reachability_map (a.call c m r s).state.control := by
  have hnodup : a.other_targets.Nodup := by
    apply List.Pairwise.imp _ hindep
    intro x y hxy hne
    have hself : r.IsReachable x y = true := by
      rw [hne]
      exact (hexact y y).mpr (reaches_refl _ _)
    rw [hxy.1] at hself
    exact absurd hself (by simp)
  have hsym : Symmetric (fun x y : InstId =>
      r.IsReachable x y = false ∧ r.IsReachable y x = false) :=
    fun _ _ h => ⟨h.2, h.1⟩
  have hindep1 : ∀ x ∈ a.other_targets, ∀ y ∈ a.other_targets, x ≠ y →
      ¬ Reaches (allEdges r s.control) x y := by
    intro x hx y hy hne hreach
    have := (List.Pairwise.forall hsym hindep hx hy hne).1
    rw [(hexact x y).mpr hreach] at this
    exact absurd this (by simp)
  have hsource1 : ∀ t ∈ a.other_targets, Reaches (allEdges r s.control) a.source t :=
    fun t ht => (hexact a.source t).mp (hsource t ht)
  have hproducer1 : ¬ Reaches (allEdges r s.control) a.source a.layout_producer := by
    intro hreach
    rw [(hexact a.source a.layout_producer).mpr hreach] at hproducer
    exact absurd hproducer (by simp)
  have hloop := orderSiblings_independent hsource1 htarget hproducer1 hindep1
    a.other_targets []
    (r.UpdateReachabilityThroughInstruction
      (AddControlDependencyTo s.control a.layout_producer a.source) a.source)
    (AddControlDependencyTo s.control a.layout_producer a.source) [] hnodup
    (fun nd hnd => ⟨hnd, List.not_mem_nil nd⟩) (fun p hp => absurd hp (List.not_mem_nil p))
    (Update_exact r _ a.source)
    (by
      intro e he
      have he1 : e ∈ r.data ++ AddControlDependencyTo s.control a.layout_producer a.source := he
      rcases List.mem_append.mp he1 with he1 | he1
      · exact Or.inl (List.mem_append_left _ he1)
      · unfold AddControlDependencyTo at he1
        rcases (mem_setInsert _ _ e).mp he1 with he1 | he1
        · exact Or.inl (List.mem_append_right _ he1)
        · exact Or.inr (Or.inl he1))
  have hok : (a.siblings r s).dependencies_ok = true := hloop.1
  have hext : ∀ e ∈ allEdges (a.siblings r s).reachability_map (a.siblings r s).control,
      e ∈ allEdges r s.control ∨ e = (a.layout_producer, a.source) ∨
        (e.1 = a.target ∧ e.2 ∈ a.other_targets ∧ e.2 ≠ a.target) := by
    intro e he
    have := hloop.2 e he
    rw [List.nil_append] at this
    exact this
  rcases call_cases c m r s a with ⟨h1, _⟩ | ⟨_, h2, _⟩ | ⟨_, _, hcreated, hr, hc, _⟩
  · rw [hproducer] at h1
    exact absurd h1 (by simp)
  · rw [hok] at h2
    exact absurd h2 (by simp)
  · obtain ⟨ha, hb, _, hd⟩ := orderSiblings_ok a.target a.other_targets _ _ [] hok
      (Update_exact r (AddControlDependencyTo s.control a.layout_producer a.source) a.source)
    rw [hr, hc]
    refine ⟨hok, hcreated, ha _ ((mem_setInsert _ _ _).mpr (Or.inr rfl)), hb, hext, ?_, hd⟩
    exact extended_acyclic hacyclic hext hsource1 hproducer1
      (fun p hp hne => hindep1 p hp a.target htarget hne)

/-- C24, at a call with three siblings: the source 0 feeds the targets 2, 3
and 4, the producer 1 feeds 2. -/
theorem C24_finder_conditions_exclude_rollback_witness :
    (CommitArgs.call exampleCollaborators plainModule
      (HloReachabilityMap.Build dataThreeTargets []) exampleState
      ⟨0, 3, 1, 1, 0, [2, 3, 4], [], [], []⟩).created = true ∧
    (CommitArgs.call exampleCollaborators plainModule
      (HloReachabilityMap.Build dataThreeTargets []) exampleState
      ⟨0, 3, 1, 1, 0, [2, 3, 4], [], [], []⟩).state.control = [(1, 0), (3, 2), (3, 4)] ∧
    Acyclic (allEdges
      (CommitArgs.call exampleCollaborators plainModule
        (HloReachabilityMap.Build dataThreeTargets []) exampleState
        ⟨0, 3, 1, 1, 0, [2, 3, 4], [], [], []⟩).reachability_map
      (CommitArgs.call exampleCollaborators plainModule
        (HloReachabilityMap.Build dataThreeTargets []) exampleState
        ⟨0, 3, 1, 1, 0, [2, 3, 4], [], [], []⟩).state.control) :=
  ⟨(C24_finder_conditions_exclude_rollback exampleCollaborators plainModule
      (HloReachabilityMap.Build dataThreeTargets []) exampleState
      ⟨0, 3, 1, 1, 0, [2, 3, 4], [], [], []⟩ (Build_exact dataThreeTargets [])
      ((acyclicCheck_iff _).mp (by decide)) (by decide) (by decide) (by decide)
      (by decide)).2.1,
    by decide,
    (C24_finder_conditions_exclude_rollback exampleCollaborators plainModule
      (HloReachabilityMap.Build dataThreeTargets []) exampleState
      ⟨0, 3, 1, 1, 0, [2, 3, 4], [], [], []⟩ (Build_exact dataThreeTargets [])
      ((acyclicCheck_iff _).mp (by decide)) (by decide) (by decide) (by decide)
      (by decide)).2.2.2.2.2.1⟩

/-! ## Lemmas on the checks inside `FlattenInputs` -/

/-- The walk back over a path passes its check at every step when the
instruction it starts from and all elements of the path but the last one are
get-tuple-elements. -/
theorem completePath_returns (c : Collaborators) (m : HloModule) :
    ∀ (rpath : List InstId) (last_gte : InstId) (flat : Nat) (acc : DeferredAllocationsPath),
      (rpath ≠ [] → (m.inst last_gte).opcode = HloOpcode.kGetTupleElement) →
      (∀ g ∈ rpath.dropLast, (m.inst g).opcode = HloOpcode.kGetTupleElement) →
      ∃ res, completePath c m rpath last_gte flat acc = Except.ok res := by
  intro rpath
  induction rpath with
  | nil =>
    intro last_gte flat acc _ _
    exact ⟨acc, rfl⟩
  | cons x rest ih =>
    intro last_gte flat acc hlast hrest
    rw [completePath, if_neg (not_not.mpr (hlast (List.cons_ne_nil _ _)))]
    apply ih
    · intro hne
      apply hrest
      cases rest with
      | nil => exact absurd rfl hne
      | cons y ys => simp
    · intro g hg
      apply hrest
      cases rest with
      | nil => simp at hg
      | cons y ys =>
        rw [List.dropLast_cons₂]
        exact List.mem_cons_of_mem _ hg

/-- The path `FlattenInputs` has recorded when it reaches `inst`, walked back
from its element before the last, meets get-tuple-elements only where their
tuple index is read. -/
theorem recorded_path_of_gtes (m : HloModule) (root inst : InstId) (gtes : List InstId)
    (hgtes : ∀ g ∈ gtes, (m.inst g).opcode = HloOpcode.kGetTupleElement)
    (hlast : (root :: gtes).getLast? = some inst) :
    ((root :: gtes).dropLast.reverse ≠ [] →
      (m.inst inst).opcode = HloOpcode.kGetTupleElement) ∧
    (∀ g ∈ (root :: gtes).dropLast.reverse.dropLast,
      (m.inst g).opcode = HloOpcode.kGetTupleElement) := by
  rcases List.eq_nil_or_concat gtes with hnil | ⟨gs, x, hcat⟩
  · subst hnil
    simp
  · rw [List.concat_eq_append] at hcat
    subst hcat
    have hpath : root :: (gs ++ [x]) = (root :: gs) ++ [x] := rfl
    rw [hpath] at hlast ⊢
    rw [List.getLast?_concat] at hlast
    simp only [Option.some.injEq] at hlast
    rw [List.dropLast_concat, List.reverse_cons, List.dropLast_concat]
    constructor
    · intro _
      rw [← hlast]
      exact hgtes x (List.mem_append_right _ (List.mem_singleton.mpr rfl))
    · intro g hg
      exact hgtes g (List.mem_append_left _ (List.mem_reverse.mp hg))

/-- Neither check inside `FlattenInputs` fails: a call on a path of
get-tuple-elements returns a map, unless the recursion budget of the
embedding runs out. -/
theorem FlattenInputs_safe (c : Collaborators) (m : HloModule) :
    ∀ (fuel : Nat) (inst root : InstId) (gtes : List InstId) (acc : InputMap),
      (∀ g ∈ gtes, (m.inst g).opcode = HloOpcode.kGetTupleElement) →
      (root :: gtes).getLast? = some inst →
      (∃ res, FlattenInputs c m fuel inst (root :: gtes) acc = Except.ok res) ∨
      FlattenInputs c m fuel inst (root :: gtes) acc = Except.error Fatal.out_of_fuel := by
  intro fuel
  induction fuel with
  | zero =>
    intro inst root gtes acc _ _
    right
    rfl
  | succ fuel ih =>
    intro inst root gtes acc hgtes hlast
    rw [FlattenInputs]
    by_cases htuple : (m.inst inst).shape.IsTuple = true
    · simp only [htuple, if_true]
      by_cases hu : usersAreUniqueGTEs c m inst (m.inst inst).users [] = true
      · simp only [hu, if_true]
        have loop : ∀ (us : List InstId) (acc0 : InputMap),
            (∀ u ∈ us, u ∈ (m.inst inst).users) →
            (∃ res, us.foldlM
              (fun acc user =>
                if (m.inst user).opcode ≠ HloOpcode.kGetTupleElement then
                  Except.error Fatal.check_failed
                else if c.IsUsedInplace user = true then
                  FlattenInputs c m fuel user (root :: gtes ++ [user]) acc
                else Except.ok acc) acc0 = Except.ok res) ∨
            us.foldlM
              (fun acc user =>
                if (m.inst user).opcode ≠ HloOpcode.kGetTupleElement then
                  Except.error Fatal.check_failed
                else if c.IsUsedInplace user = true then
                  FlattenInputs c m fuel user (root :: gtes ++ [user]) acc
                else Except.ok acc) acc0 = Except.error Fatal.out_of_fuel := by
          intro us
          induction us with
          | nil =>
            intro acc0 _
            exact Or.inl ⟨acc0, rfl⟩
          | cons x rest ihl =>
            intro acc0 hsub
            rw [List.foldlM_cons]
            have hrestsub : ∀ u ∈ rest, u ∈ (m.inst inst).users :=
              fun u hu0 => hsub u (List.mem_cons_of_mem _ hu0)
            have hxg : (m.inst x).opcode = HloOpcode.kGetTupleElement := by
              obtain ⟨k, hk⟩ := List.getElem?_of_mem (hsub x (List.mem_cons_self _ _))
              exact (usersAreUniqueGTEs_true c m inst _ _ hu k x hk).1
            by_cases hin : c.IsUsedInplace x = true
            · simp only [hxg, ne_eq, not_true_eq_false, if_false, hin, if_true, bind,
                Except.bind]
              have hrec := ih x root (gtes ++ [x]) acc0
                (fun g hg => by
                  rcases List.mem_append.mp hg with hg | hg
                  · exact hgtes g hg
                  · rw [List.mem_singleton] at hg
                    rw [hg]
                    exact hxg)
                (by
                  rw [← List.cons_append, List.getLast?_concat])
              rw [← List.cons_append] at hrec
              rcases hrec with ⟨mid, hmid⟩ | herr
              · rw [hmid]
                exact ihl mid hrestsub
              · rw [herr]
                exact Or.inr rfl
            · simp only [hxg, ne_eq, not_true_eq_false, if_false, hin, Bool.false_eq_true,
                bind, Except.bind]
              exact ihl acc0 hrestsub
        exact loop (m.inst inst).users acc (fun _ h => h)
      · simp only [hu, Bool.false_eq_true, if_false]
        exact Or.inl ⟨acc, rfl⟩
    · have hnt : (m.inst inst).shape.IsTuple = false := by
        simpa using htuple
      simp only [hnt, Bool.false_eq_true, if_false]
      obtain ⟨h1, h2⟩ := recorded_path_of_gtes m root inst gtes hgtes hlast
      obtain ⟨res, hres⟩ := completePath_returns c m _ inst 0 [] h1 h2
      rw [hres]
      exact Or.inl ⟨_, rfl⟩

/-- Neither check inside `FlattenInputs` fails during `FindInputs`: it returns
a map, unless the recursion budget of the embedding runs out. -/
theorem FindInputs_safe (c : Collaborators) (m : HloModule) (comp : HloComputation) :
    (∃ map, FindInputs c m comp = Except.ok map) ∨
    FindInputs c m comp = Except.error Fatal.out_of_fuel := by
  unfold FindInputs
  generalize ([] : InputMap) = acc0
  generalize comp.instructions.length + 1 = fuel
  induction comp.instructions generalizing acc0 with
  | nil => exact Or.inl ⟨acc0, rfl⟩
  | cons x rest ih =>
    rw [List.foldlM_cons]
    by_cases hroot : (m.inst x).opcode = HloOpcode.kConstant ∨
        (m.inst x).opcode = HloOpcode.kInfeed ∨ (m.inst x).opcode = HloOpcode.kParameter
    · simp only [hroot, if_true, bind, Except.bind]
      rcases FlattenInputs_safe c m fuel x x [] acc0
        (fun g hg => absurd hg (List.not_mem_nil g)) rfl with ⟨mid, hmid⟩ | herr
      · rw [hmid]
        exact ih mid
      · rw [herr]
        exact Or.inr rfl
    · simp only [hroot, if_false, bind, Except.bind]
      exact ih acc0

/-- In a computation whose instructions are in post order `FlattenInputs`
returns a map once its recursion budget exceeds the number of instructions
from `inst` on. -/
theorem FlattenInputs_returns (c : Collaborators) (m : HloModule) (comp : HloComputation)
    (hpost : PostOrdered m comp) :
    ∀ (fuel : Nat) (inst root : InstId) (gtes : List InstId) (acc : InputMap),
      (∀ g ∈ gtes, (m.inst g).opcode = HloOpcode.kGetTupleElement) →
      (root :: gtes).getLast? = some inst →
      inst ∈ comp.instructions →
      comp.instructions.length - comp.instructions.indexOf inst < fuel →
      ∃ res, FlattenInputs c m fuel inst (root :: gtes) acc = Except.ok res := by
  intro fuel
  induction fuel with
  | zero =>
    intro inst root gtes acc _ _ _ hfuel
    exact absurd hfuel (Nat.not_lt_zero _)
  | succ fuel ih =>
    intro inst root gtes acc hgtes hlast hmem hfuel
    rw [FlattenInputs]
    by_cases htuple : (m.inst inst).shape.IsTuple = true
    · simp only [htuple, if_true]
      by_cases hu : usersAreUniqueGTEs c m inst (m.inst inst).users [] = true
      · simp only [hu, if_true]
        have loop : ∀ (us : List InstId) (acc0 : InputMap),
            (∀ u ∈ us, u ∈ (m.inst inst).users) →
            ∃ res, us.foldlM
              (fun acc user =>
                if (m.inst user).opcode ≠ HloOpcode.kGetTupleElement then
                  Except.error Fatal.check_failed
                else if c.IsUsedInplace user = true then
                  FlattenInputs c m fuel user (root :: gtes ++ [user]) acc
                else Except.ok acc) acc0 = Except.ok res := by
          intro us
          induction us with
          | nil =>
            intro acc0 _
            exact ⟨acc0, rfl⟩
          | cons x rest ihl =>
            intro acc0 hsub
            rw [List.foldlM_cons]
            have hrestsub : ∀ u ∈ rest, u ∈ (m.inst inst).users :=
              fun u hu0 => hsub u (List.mem_cons_of_mem _ hu0)
            have hxu : x ∈ (m.inst inst).users := hsub x (List.mem_cons_self _ _)
            have hxg : (m.inst x).opcode = HloOpcode.kGetTupleElement := by
              obtain ⟨k, hk⟩ := List.getElem?_of_mem hxu
              exact (usersAreUniqueGTEs_true c m inst _ _ hu k x hk).1
            by_cases hin : c.IsUsedInplace x = true
            · simp only [hxg, ne_eq, not_true_eq_false, if_false, hin, if_true, bind,
                Except.bind]
              obtain ⟨hxmem, hlater⟩ := hpost inst hmem x hxu
              have hxlt := List.indexOf_lt_length.mpr hxmem
              have hrec := ih x root (gtes ++ [x]) acc0
                (fun g hg => by
                  rcases List.mem_append.mp hg with hg | hg
                  · exact hgtes g hg
                  · rw [List.mem_singleton] at hg
                    rw [hg]
                    exact hxg)
                (by
                  rw [← List.cons_append, List.getLast?_concat])
                hxmem (by omega)
              rw [← List.cons_append] at hrec
              obtain ⟨mid, hmid⟩ := hrec
              rw [hmid]
              exact ihl mid hrestsub
            · simp only [hxg, ne_eq, not_true_eq_false, if_false, hin, Bool.false_eq_true,
                bind, Except.bind]
              exact ihl acc0 hrestsub
        exact loop (m.inst inst).users acc (fun _ h => h)
      · simp only [hu, Bool.false_eq_true, if_false]
        exact ⟨acc, rfl⟩
    · have hnt : (m.inst inst).shape.IsTuple = false := by
        simpa using htuple
      simp only [hnt, Bool.false_eq_true, if_false]
      obtain ⟨h1, h2⟩ := recorded_path_of_gtes m root inst gtes hgtes hlast
      obtain ⟨res, hres⟩ := completePath_returns c m _ inst 0 [] h1 h2
      rw [hres]
      exact ⟨_, rfl⟩

/-- In a computation whose instructions are in post order `FindInputs`
returns a map. -/
theorem FindInputs_returns (c : Collaborators) (m : HloModule) (comp : HloComputation)
    (hpost : PostOrdered m comp) : ∃ map, FindInputs c m comp = Except.ok map := by
  unfold FindInputs
  have loop : ∀ (is : List InstId) (acc0 : InputMap), (∀ i ∈ is, i ∈ comp.instructions) →
      ∃ map, is.foldlM
        (fun acc inst =>
          if (m.inst inst).opcode = HloOpcode.kConstant ∨
              (m.inst inst).opcode = HloOpcode.kInfeed ∨
              (m.inst inst).opcode = HloOpcode.kParameter then
            FlattenInputs c m (comp.instructions.length + 1) inst [inst] acc
          else Except.ok acc) acc0 = Except.ok map := by
    intro is
    induction is with
    | nil => intro acc0 _; exact ⟨acc0, rfl⟩
    | cons x rest ih =>
      intro acc0 hsub
      rw [List.foldlM_cons]
      have hrestsub : ∀ i ∈ rest, i ∈ comp.instructions :=
        fun i hi => hsub i (List.mem_cons_of_mem _ hi)
      by_cases hroot : (m.inst x).opcode = HloOpcode.kConstant ∨
          (m.inst x).opcode = HloOpcode.kInfeed ∨ (m.inst x).opcode = HloOpcode.kParameter
      · simp only [hroot, if_true, bind, Except.bind]
        obtain ⟨mid, hmid⟩ := FlattenInputs_returns c m comp hpost
          (comp.instructions.length + 1) x x [] acc0
          (fun g hg => absurd hg (List.not_mem_nil g)) rfl
          (hsub x (List.mem_cons_self _ _)) (by omega)
        rw [hmid]
        exact ih mid hrestsub
      · simp only [hroot, if_false, bind, Except.bind]
        exact ih acc0 hrestsub
  exact loop comp.instructions [] (fun _ h => h)

/-! ## The checks inside `FlattenInputs`: claim C26 -/

/-- C26: neither check inside `FlattenInputs` can fail during `FindInputs`.
Every user the second loop over the users of a tuple node visits is a
get-tuple-element; on the walk back over the recorded path every instruction
whose tuple index is read, the leaf when the path is not empty and every
element of the path but the root, is a get-tuple-element, so the walk returns
a path; hence `FlattenInputs` and `FindInputs` never end in a failed check
(in the embedding they return a map or run out of recursion budget), and for a
computation whose instructions are in post order `FindInputs` returns a
map. -/
theorem C26_flatten_checks_never_fail (c : Collaborators) (m : HloModule)
    (comp : HloComputation) :
    (∀ inst : InstId, usersAreUniqueGTEs c m inst (m.inst inst).users [] = true →
      ∀ user ∈ (m.inst inst).users, (m.inst user).opcode = HloOpcode.kGetTupleElement) ∧
    (∀ (root inst : InstId) (gtes : List InstId),
      (∀ g ∈ gtes, (m.inst g).opcode = HloOpcode.kGetTupleElement) →
      (root :: gtes).getLast? = some inst →
      ((root :: gtes).dropLast ≠ [] → (m.inst inst).opcode = HloOpcode.kGetTupleElement) ∧
      (∀ g ∈ (root :: gtes).dropLast.reverse.dropLast,
        (m.inst g).opcode = HloOpcode.kGetTupleElement) ∧
      ∃ res, completePath c m (root :: gtes).dropLast.reverse inst 0 [] = Except.ok res) ∧
    (∀ (fuel : Nat) (inst root : InstId) (gtes : List InstId) (acc : InputMap),
      (∀ g ∈ gtes, (m.inst g).opcode = HloOpcode.kGetTupleElement) →
      (root :: gtes).getLast? = some inst →
      FlattenInputs c m fuel inst (root :: gtes) acc ≠ Except.error Fatal.check_failed) ∧
    FindInputs c m comp ≠ Except.error Fatal.check_failed ∧
    ((∃ map, FindInputs c m comp = Except.ok map) ∨
      FindInputs c m comp = Except.error Fatal.out_of_fuel) ∧
    (PostOrdered m comp → ∃ map, FindInputs c m comp = Except.ok map) := by
  refine ⟨?_, ?_, ?_, ?_, FindInputs_safe c m comp, FindInputs_returns c m comp⟩
  · intro inst hu user hmem
    obtain ⟨k, hk⟩ := List.getElem?_of_mem hmem
    exact (usersAreUniqueGTEs_true c m inst _ _ hu k user hk).1
  · intro root inst gtes hgtes hlast
    obtain ⟨h1, h2⟩ := recorded_path_of_gtes m root inst gtes hgtes hlast
    refine ⟨?_, h2, completePath_returns c m _ inst 0 [] h1 h2⟩
    intro hne
    apply h1
    intro hrev
    exact hne (List.reverse_eq_nil_iff.mp hrev)
  · intro fuel inst root gtes acc hgtes hlast hfail
    rcases FlattenInputs_safe c m fuel inst root gtes acc hgtes hlast with ⟨res, hres⟩ | herr
    · rw [hres] at hfail
      exact absurd hfail (by simp)
    · rw [herr] at hfail
      exact absurd hfail (by simp)
  · intro hfail
    rcases FindInputs_safe c m comp with ⟨res, hres⟩ | herr
    · rw [hres] at hfail
      exact absurd hfail (by simp)
    · rw [herr] at hfail
      exact absurd hfail (by simp)

/-- C26, on the nested example, whose instructions are in post order:
`FindInputs` returns the map of its three leaves. -/
theorem C26_flatten_checks_never_fail_witness :
    PostOrdered exampleNestedModule ⟨[0, 1, 6, 2, 3, 5], 5⟩ ∧
    (∃ map, FindInputs exampleCollaborators exampleNestedModule ⟨[0, 1, 6, 2, 3, 5], 5⟩ =
      Except.ok map) ∧
    FindInputs exampleCollaborators exampleNestedModule ⟨[0, 1, 6, 2, 3, 5], 5⟩ =
      Except.ok [(2, [(1, 1), (0, 2)]), (3, [(1, 0), (0, 1)]), (6, [(0, 0)])] :=
  ⟨by unfold PostOrdered; decide,
    (C26_flatten_checks_never_fail exampleCollaborators exampleNestedModule
      ⟨[0, 1, 6, 2, 3, 5], 5⟩).2.2.2.2.2 (by unfold PostOrdered; decide),
    by rfl⟩

/-! ## Lemmas on the records and the candidates of the two modes -/

/-- The records one call leaves. -/
theorem recorded_single (c : Collaborators) (m : HloModule) (r : HloReachabilityMap)
    (s : PassState) (a : CommitArgs) :
    Recorded s.tensor_allocation_map (a.call c m r s).state.tensor_allocation_map
      [⟨a, (a.call c m r s).created⟩] := by
  intro key record hfind
  rcases call_cases c m r s a with ⟨_, heq⟩ | ⟨_, _, _, htam, _, _⟩ | ⟨_, _, ht, _, _, htam⟩
  · rw [heq] at hfind
    exact Or.inl hfind
  · rw [htam] at hfind
    exact Or.inl hfind
  · rw [htam] at hfind
    by_cases hk : key = (a.source, 0)
    · rw [hk, mapFind_mapAssign_same] at hfind
      simp only [Option.some.injEq] at hfind
      exact Or.inr ⟨_, List.mem_singleton.mpr rfl, ht, hk, hfind.symm⟩
    · rw [mapFind_mapAssign_other _ _ _ _ hk] at hfind
      exact Or.inl hfind

theorem recorded_trans {tam tam1 tam2 : List (TensorSource × TensorTarget)}
    {new1 new2 : List CommitCall} (h1 : Recorded tam tam1 new1) (h2 : Recorded tam1 tam2 new2) :
    Recorded tam tam2 (new1 ++ new2) := by
  intro key record hfind
  rcases h2 key record hfind with h | ⟨call, hc, h⟩
  · rcases h1 key record h with h | ⟨call, hc, h⟩
    · exact Or.inl h
    · exact Or.inr ⟨call, List.mem_append_left _ hc, h⟩
  · exact Or.inr ⟨call, List.mem_append_right _ hc, h⟩

/-- The loop over the targets of one source: the calls it makes have
arguments prepared for one of the targets, and the records it leaves are
those of its calls that returned true. -/
theorem commitFirst_records (c : Collaborators) (m : HloModule)
    (prepare : InstId → Except Fatal (Option CommitArgs)) :
    ∀ (targets : List InstId) (st st1 : ModeState),
      commitFirst c m prepare targets st = Except.ok st1 →
      ∃ new : List CommitCall,
        st1.calls = st.calls ++ new ∧
        (∀ call ∈ new, ∃ target ∈ targets, prepare target = Except.ok (some call.args)) ∧
        Recorded st.state.tensor_allocation_map st1.state.tensor_allocation_map new := by
  intro targets
  induction targets with
  | nil =>
    intro st st1 h
    simp only [commitFirst, Except.ok.injEq] at h
    subst h
    exact ⟨[], by simp, by simp, fun _ _ h => Or.inl h⟩
  | cons target rest ih =>
    intro st st1 h
    rw [commitFirst] at h
    split at h
    · exact absurd h (by simp)
    · obtain ⟨new, h1, h2, h3⟩ := ih st st1 h
      refine ⟨new, h1, ?_, h3⟩
      intro call hc
      obtain ⟨t, ht, hp⟩ := h2 call hc
      exact ⟨t, List.mem_cons_of_mem _ ht, hp⟩
    · rename_i a hprep
      have hrec := recorded_single c m st.reachability_map st.state a
      by_cases hcr : (a.call c m st.reachability_map st.state).created = true
      · have hcr1 : (CreateForwardAllocationTarget c m st.reachability_map st.state a.source
            a.target a.input_index a.layout_producer a.layout_output_index a.other_targets
            a.forward_path a.backward_path a.deferred_allocations_path).created = true := hcr
        simp only [hcr1, if_true, Except.ok.injEq] at h
        subst h
        refine ⟨[⟨a, true⟩], rfl, ?_, ?_⟩
        · intro call hc
          rw [List.mem_singleton.mp hc]
          exact ⟨target, List.mem_cons_self _ _, hprep⟩
        · rw [hcr] at hrec
          exact hrec
      · have hcr0 : (a.call c m st.reachability_map st.state).created = false := by
          simpa using hcr
        have hcr1 : (CreateForwardAllocationTarget c m st.reachability_map st.state a.source
            a.target a.input_index a.layout_producer a.layout_output_index a.other_targets
            a.forward_path a.backward_path a.deferred_allocations_path).created = false := hcr0
        simp only [hcr1, Bool.false_eq_true, if_false] at h
        obtain ⟨new, h1, h2, h3⟩ := ih _ st1 h
        refine ⟨⟨a, false⟩ :: new, ?_, ?_, ?_⟩
        · rw [h1]
          simp
        · intro call hc
          rcases List.mem_cons.mp hc with rfl | hc
          · exact ⟨target, List.mem_cons_self _ _, hprep⟩
          · obtain ⟨t, ht, hp⟩ := h2 call hc
            exact ⟨t, List.mem_cons_of_mem _ ht, hp⟩
        · rw [hcr0] at hrec
          exact recorded_trans hrec h3

/-- The loop over the sources: every call it makes is for a source of the
list and one of the targets `find_all_targets` has returned for the consumers
of that source, and the records it leaves are those of its calls that
returned true. -/
theorem forEachSource_calls (c : Collaborators) (m : HloModule)
    (is_valid_target : InstId → Bool)
    (prepare : InstId → List InstId → InstId → Except Fatal (Option CommitArgs)) :
    ∀ (sources : List (InstId × List InstId)) (st st1 : ModeState),
      forEachSource c m is_valid_target prepare sources st = Except.ok st1 →
      ∃ new : List CommitCall,
        st1.calls = st.calls ++ new ∧
        (∀ call ∈ new, ∃ (source : InstId) (consumers targets : List InstId) (target : InstId)
          (r : HloReachabilityMap),
          (source, consumers) ∈ sources ∧
          find_all_targets c consumers r is_valid_target = some targets ∧ target ∈ targets ∧
          prepare source targets target = Except.ok (some call.args)) ∧
        Recorded st.state.tensor_allocation_map st1.state.tensor_allocation_map new := by
  intro sources
  induction sources with
  | nil =>
    intro st st1 h
    simp only [forEachSource, Except.ok.injEq] at h
    subst h
    exact ⟨[], by simp, by simp, fun _ _ h => Or.inl h⟩
  | cons entry rest ih =>
    intro st st1 h
    obtain ⟨source, consumers⟩ := entry
    have lift : ∀ new : List CommitCall,
        (∀ call ∈ new, ∃ (source : InstId) (consumers targets : List InstId) (target : InstId)
          (r : HloReachabilityMap),
          (source, consumers) ∈ rest ∧
          find_all_targets c consumers r is_valid_target = some targets ∧ target ∈ targets ∧
          prepare source targets target = Except.ok (some call.args)) →
        ∀ call ∈ new, ∃ (source1 : InstId) (consumers1 targets : List InstId) (target : InstId)
          (r : HloReachabilityMap),
          (source1, consumers1) ∈ (source, consumers) :: rest ∧
          find_all_targets c consumers1 r is_valid_target = some targets ∧ target ∈ targets ∧
          prepare source1 targets target = Except.ok (some call.args) := by
      intro new hnew call hc
      obtain ⟨s1, c1, ts, t, r, hmem, hrest⟩ := hnew call hc
      exact ⟨s1, c1, ts, t, r, List.mem_cons_of_mem _ hmem, hrest⟩
    rw [forEachSource] at h
    split at h
    · obtain ⟨new, h1, h2, h3⟩ := ih st st1 h
      exact ⟨new, h1, lift new h2, h3⟩
    · split at h
      · obtain ⟨new, h1, h2, h3⟩ := ih st st1 h
        exact ⟨new, h1, lift new h2, h3⟩
      · rename_i targets hfind
        split at h
        · exact absurd h (by simp)
        · rename_i st2 hfirst
          obtain ⟨new1, a1, a2, a3⟩ := commitFirst_records c m _ targets st st2 hfirst
          obtain ⟨new2, b1, b2, b3⟩ := ih st2 st1 h
          refine ⟨new1 ++ new2, by rw [b1, a1, List.append_assoc], ?_, recorded_trans a3 b3⟩
          intro call hc
          rcases List.mem_append.mp hc with hc | hc
          · obtain ⟨t, ht, hp⟩ := a2 call hc
            exact ⟨source, consumers, targets, t, st.reachability_map,
              List.mem_cons_self _ _, hfind, ht, hp⟩
          · exact lift new2 b2 call hc

/-- When the loop body of the second mode makes a call, and with which
arguments: the shortest path from the source to the target exists, its
element before the last has layout dependent indices `(i, j)`, the target has
an operand at `j`, and the path without its ends passes `IsPrefixPathOk`;
nothing else is asked. -/
theorem prepareDependent_iff (c : Collaborators) (m : HloModule) (g : MetaGraph)
    (inputs : InputMap) (source : InstId) (targets : List InstId) (target : InstId)
    (a : CommitArgs) :
    prepareDependent c m g inputs source targets target = Except.ok (some a) ↔
      ∃ (prefix_path : List InstId) (operand : InstId) (i j : Nat) (layout_producer : InstId)
        (prefix1 : List InstId),
        g.ShortestPath source target = some prefix_path ∧
        secondToLast prefix_path = Except.ok operand ∧
        GetLayoutDependentOperandIndices c m target operand = Except.ok (some (i, j)) ∧
        trimEnds prefix_path = Except.ok prefix1 ∧
        (m.inst target).operands.get? j = some layout_producer ∧
        IsPrefixPathOk c m prefix1 = true ∧
        a = ⟨source, target, i, layout_producer, 0, targets, [], prefix1,
          (mapFind inputs source).getD []⟩ := by
  constructor
  · intro h
    unfold prepareDependent at h
    split at h
    · exact absurd h (by simp)
    · rename_i prefix_path hsp
      split at h
      · exact absurd h (by simp)
      · rename_i operand hstl
        split at h
        · exact absurd h (by simp)
        · exact absurd h (by simp)
        · rename_i i j hidx
          split at h
          · exact absurd h (by simp)
          · rename_i prefix1 htrim
            split at h
            · exact absurd h (by simp)
            · rename_i layout_producer hlp
              split at h
              · exact absurd h (by simp)
              · rename_i hok
                simp only [Except.ok.injEq, Option.some.injEq] at h
                exact ⟨prefix_path, operand, i, j, layout_producer, prefix1, hsp, hstl, hidx,
                  htrim, hlp, by simpa using hok, h.symm⟩
  · rintro ⟨prefix_path, operand, i, j, layout_producer, prefix1, hsp, hstl, hidx, htrim, hlp,
      hok, ha⟩
    unfold prepareDependent
    simp only [hsp, hstl, hidx, htrim, hlp, hok, ha]
    rfl

/-- Every call of the second mode is for a source that is a key of the map of
`FindInputs` without a record at the start of the mode, and for a target that
`IsLayoutDependentTarget` accepts, with arguments its loop body has prepared;
the records the mode leaves are those of its calls that returned true. -/
theorem FindLayoutDependentTargets_calls (c : Collaborators) (m : HloModule)
    (comp : HloComputation) (s : PassState) (st1 : ModeState)
    (h : FindLayoutDependentTargets c m comp s = Except.ok st1) :
    ∃ inputs : InputMap, FindInputs c m comp = Except.ok inputs ∧
      (∀ call ∈ st1.calls, ∃ (source : InstId) (targets : List InstId) (target : InstId),
        is_input inputs s.tensor_allocation_map source = true ∧
        IsLayoutDependentTarget c m target = true ∧
        prepareDependent c m (c.graph comp) inputs source targets target =
          Except.ok (some call.args)) ∧
      Recorded s.tensor_allocation_map st1.state.tensor_allocation_map st1.calls := by
  unfold FindLayoutDependentTargets at h
  split at h
  · exact absurd h (by simp)
  · rename_i inputs hinputs
    obtain ⟨new, h1, h2, h3⟩ := forEachSource_calls c m _ _ _ _ _ h
    simp only [List.nil_append] at h1
    rw [h1]
    refine ⟨inputs, hinputs, ?_, h3⟩
    intro call hc
    obtain ⟨source, consumers, targets, target, r, hmem, hfind, ht, hp⟩ := h2 call hc
    refine ⟨source, targets, target, ?_, ?_, hp⟩
    · have hkey : source ∈ (MetaGraphOf
          ((c.graph comp).FindVertices (is_input inputs s.tensor_allocation_map))
          (fun inst => (c.graph comp).FindConsumers inst (fun _ => true) true)).map Prod.fst :=
        List.mem_map.mpr ⟨(source, consumers), hmem, rfl⟩
      have hv := MetaGraphOf_keys _ _ _ hkey
      unfold MetaGraph.FindVertices at hv
      exact (List.mem_filter.mp hv).2
    · have := (mem_find_all_targets c consumers r _ targets hfind target).mp ht
      exact ((mem_independentTargets consumers r _ target).mp this).2.1

/-- A key of the map of `FindInputs` is a constant, an infeed, a parameter or
a get-tuple-element, and its shape is no tuple. -/
theorem FindInputs_keys (c : Collaborators) (m : HloModule) (comp : HloComputation)
    (map : InputMap) (h : FindInputs c m comp = Except.ok map) (key : InstId)
    (dap : DeferredAllocationsPath) (hkey : mapFind map key = some dap) :
    ((m.inst key).opcode = HloOpcode.kConstant ∨ (m.inst key).opcode = HloOpcode.kInfeed ∨
      (m.inst key).opcode = HloOpcode.kParameter ∨
      (m.inst key).opcode = HloOpcode.kGetTupleElement) ∧
    (m.inst key).shape.IsTuple = false := by
  obtain ⟨root, gtes, hreach, hleaf, _⟩ := (FindInputs_spec c m comp map h).1 key dap hkey
  refine ⟨?_, hleaf⟩
  obtain ⟨_, hroot, hdesc⟩ := hreach
  obtain ⟨ext, hpath, hgtes, hlast⟩ := Descends_path c m hdesc
  have hlast1 := hlast rfl
  simp only [List.singleton_append, List.cons.injEq, true_and] at hpath
  subst hpath
  rcases List.eq_nil_or_concat gtes with hnil | ⟨gs, x, hcat⟩
  · subst hnil
    simp only [List.getLast?_singleton, Option.some.injEq] at hlast1
    rw [← hlast1]
    rcases hroot with h1 | h1 | h1
    · exact Or.inl h1
    · exact Or.inr (Or.inl h1)
    · exact Or.inr (Or.inr (Or.inl h1))
  · rw [List.concat_eq_append] at hcat
    subst hcat
    have hpath : root :: (gs ++ [x]) = (root :: gs) ++ [x] := rfl
    rw [hpath, List.getLast?_concat] at hlast1
    simp only [Option.some.injEq] at hlast1
    rw [← hlast1]
    exact Or.inr (Or.inr (Or.inr
      (hgtes x (List.mem_append_right _ (List.mem_singleton.mpr rfl)))))

/-- A path with two different ends has an element before the last. -/
theorem secondToLast_of_ends (path : List InstId) (a b : InstId) (hne : a ≠ b)
    (hhead : path.head? = some a) (hlast : path.getLast? = some b) :
    2 ≤ path.length ∧ ∃ operand, secondToLast path = Except.ok operand := by
  cases path with
  | nil => simp at hhead
  | cons x rest =>
    cases rest with
    | nil =>
      simp only [List.head?_cons, Option.some.injEq, List.getLast?_singleton] at hhead hlast
      exact absurd (hhead.symm.trans hlast) hne
    | cons y rest2 =>
      refine ⟨by simp, ?_⟩
      unfold secondToLast
      rcases List.eq_nil_or_concat (y :: rest2) with hnil | ⟨init, z, hcat⟩
      · exact absurd hnil (List.cons_ne_nil _ _)
      · rw [List.concat_eq_append] at hcat
        rw [hcat]
        have hrev : (x :: (init ++ [z])).reverse = z :: (x :: init).reverse := by
          simp
        rw [hrev]
        rcases List.eq_nil_or_concat (x :: init) with hnil1 | ⟨init1, w, hcat1⟩
        · exact absurd hnil1 (List.cons_ne_nil _ _)
        · rw [List.concat_eq_append] at hcat1
          rw [hcat1, List.reverse_append]
          exact ⟨w, rfl⟩

/-! ## The second mode: claims C23 and C27 -/

/-- C23: every call of `FindLayoutDependentTargets`, and so every record it
commits, has an empty forward path, the layout output index 0, an operand
index `i` and a layout producer that is the operand of the target at `j`,
where `(i, j)` is the pair `GetLayoutDependentOperandIndices` returns for the
target and the element before the last of the shortest path from the source
to the target, and a backward path, that shortest path without its ends, that
`IsPrefixPathOk` accepts.  Nothing else is validated: the loop body makes the
call whenever these exist. -/
theorem C23_layout_dependent_records (c : Collaborators) (m : HloModule)
    (comp : HloComputation) (s : PassState) (st : ModeState)
    (h : FindLayoutDependentTargets c m comp s = Except.ok st) :
    (∀ call ∈ st.calls,
      call.args.forward_path = [] ∧ call.args.layout_output_index = 0 ∧
      ∃ (prefix_path : List InstId) (operand : InstId) (j : Nat),
        (c.graph comp).ShortestPath call.args.source call.args.target = some prefix_path ∧
        secondToLast prefix_path = Except.ok operand ∧
        GetLayoutDependentOperandIndices c m call.args.target operand =
          Except.ok (some (call.args.input_index, j)) ∧
        (m.inst call.args.target).operands.get? j = some call.args.layout_producer ∧
        trimEnds prefix_path = Except.ok call.args.backward_path ∧
        IsPrefixPathOk c m call.args.backward_path = true) ∧
    (∀ (key : TensorSource) (record : TensorTarget),
      mapFind st.state.tensor_allocation_map key = some record →
      mapFind s.tensor_allocation_map key ≠ some record →
      record.forward_path = [] ∧ record.layout_output_idx = 0 ∧
      ∃ (operand : InstId) (j : Nat),
        GetLayoutDependentOperandIndices c m record.tgt operand =
          Except.ok (some (record.input_index, j)) ∧
        (m.inst record.tgt).operands.get? j = some record.layout ∧
        IsPrefixPathOk c m record.backward_path = true) ∧
    (∀ (inputs : InputMap) (source : InstId) (targets : List InstId) (target : InstId)
      (a : CommitArgs),
      prepareDependent c m (c.graph comp) inputs source targets target = Except.ok (some a) ↔
        ∃ (prefix_path : List InstId) (operand : InstId) (i j : Nat)
          (layout_producer : InstId) (prefix1 : List InstId),
          (c.graph comp).ShortestPath source target = some prefix_path ∧
          secondToLast prefix_path = Except.ok operand ∧
          GetLayoutDependentOperandIndices c m target operand = Except.ok (some (i, j)) ∧
          trimEnds prefix_path = Except.ok prefix1 ∧
          (m.inst target).operands.get? j = some layout_producer ∧
          IsPrefixPathOk c m prefix1 = true ∧
          a = ⟨source, target, i, layout_producer, 0, targets, [], prefix1,
            (mapFind inputs source).getD []⟩) := by
  obtain ⟨inputs, _, hcalls, hrec⟩ := FindLayoutDependentTargets_calls c m comp s st h
  have hcall : ∀ call ∈ st.calls,
      call.args.forward_path = [] ∧ call.args.layout_output_index = 0 ∧
      ∃ (prefix_path : List InstId) (operand : InstId) (j : Nat),
        (c.graph comp).ShortestPath call.args.source call.args.target = some prefix_path ∧
        secondToLast prefix_path = Except.ok operand ∧
        GetLayoutDependentOperandIndices c m call.args.target operand =
          Except.ok (some (call.args.input_index, j)) ∧
        (m.inst call.args.target).operands.get? j = some call.args.layout_producer ∧
        trimEnds prefix_path = Except.ok call.args.backward_path ∧
        IsPrefixPathOk c m call.args.backward_path = true := by
    intro call hc
    obtain ⟨source, targets, target, _, _, hp⟩ := hcalls call hc
    obtain ⟨prefix_path, operand, i, j, layout_producer, prefix1, hsp, hstl, hidx, htrim, hlp,
      hok, ha⟩ := (prepareDependent_iff c m _ inputs source targets target call.args).mp hp
    rw [ha]
    exact ⟨rfl, rfl, prefix_path, operand, j, hsp, hstl, hidx, hlp, htrim, hok⟩
  refine ⟨hcall, ?_, fun inputs source targets target a =>
    prepareDependent_iff c m _ inputs source targets target a⟩
  intro key record hfind hnew
  rcases hrec key record hfind with hold | ⟨call, hc, _, _, hrecord⟩
  · exact absurd hold hnew
  · obtain ⟨h1, h2, _, operand, j, _, _, hidx, hlp, _, hok⟩ := hcall call hc
    rw [hrecord]
    exact ⟨h1, h2, operand, j, hidx, hlp, hok⟩

/-- C23, on the example run: the second mode commits the source 7 to the
batch norm 6 (operands 1, 0, 7), with the operand index 2 and the layout
producer 1, the operand at 0. -/
theorem C23_layout_dependent_records_witness :
    exampleDependent.calls = [⟨⟨7, 6, 2, 1, 0, [6], [], [], []⟩, true⟩] ∧
    mapFind exampleDependent.state.tensor_allocation_map (7, 0) =
      some ⟨6, 2, 1, 0, [], [], []⟩ ∧
    (∀ (key : TensorSource) (record : TensorTarget),
      mapFind exampleDependent.state.tensor_allocation_map key = some record →
      mapFind exampleSensitive.state.tensor_allocation_map key ≠ some record →
      record.forward_path = [] ∧ record.layout_output_idx = 0 ∧
      ∃ (operand : InstId) (j : Nat),
        GetLayoutDependentOperandIndices exampleCollaborators exampleModule record.tgt operand =
          Except.ok (some (record.input_index, j)) ∧
        (exampleModule.inst record.tgt).operands.get? j = some record.layout ∧
        IsPrefixPathOk exampleCollaborators exampleModule record.backward_path = true) :=
  ⟨by rfl, by rfl,
    (C23_layout_dependent_records exampleCollaborators exampleModule exampleComputation
      exampleSensitive.state exampleDependent (by rfl)).2.1⟩

/-- C27: every key of the map `FindInputs` returns is a constant, a
parameter, an infeed or a get-tuple-element of a shape that is no tuple, so
`IsLayoutDependentTarget` is false for it.  Hence in the second mode a source
is never its own target, in any pair of a source and a target the loop
considers and in every call; and a path from such a source to such a target
(as `ShortestPath` returns it, the two ends included) has at least two nodes,
so its element before the last exists. -/
theorem C27_source_is_no_layout_dependent_target (c : Collaborators) (m : HloModule)
    (comp : HloComputation) :
    (∀ (map : InputMap), FindInputs c m comp = Except.ok map →
      ∀ (key : InstId) (dap : DeferredAllocationsPath), mapFind map key = some dap →
        ((m.inst key).opcode = HloOpcode.kConstant ∨ (m.inst key).opcode = HloOpcode.kInfeed ∨
          (m.inst key).opcode = HloOpcode.kParameter ∨
          (m.inst key).opcode = HloOpcode.kGetTupleElement) ∧
        (m.inst key).shape.IsTuple = false ∧
        IsLayoutDependentTarget c m key = false) ∧
    (∀ (map : InputMap), FindInputs c m comp = Except.ok map →
      ∀ (tam : List (TensorSource × TensorTarget)) (source target : InstId),
        is_input map tam source = true → IsLayoutDependentTarget c m target = true →
        source ≠ target ∧
        ∀ path : List InstId, (c.graph comp).ShortestPath source target = some path →
          path.head? = some source → path.getLast? = some target →
          2 ≤ path.length ∧ ∃ operand, secondToLast path = Except.ok operand) ∧
    (∀ (s : PassState) (st : ModeState),
      FindLayoutDependentTargets c m comp s = Except.ok st →
      ∀ call ∈ st.calls, call.args.source ≠ call.args.target) := by
  have hkeys : ∀ (map : InputMap), FindInputs c m comp = Except.ok map →
      ∀ (key : InstId) (dap : DeferredAllocationsPath), mapFind map key = some dap →
        ((m.inst key).opcode = HloOpcode.kConstant ∨ (m.inst key).opcode = HloOpcode.kInfeed ∨
          (m.inst key).opcode = HloOpcode.kParameter ∨
          (m.inst key).opcode = HloOpcode.kGetTupleElement) ∧
        (m.inst key).shape.IsTuple = false ∧
        IsLayoutDependentTarget c m key = false := by
    intro map hmap key dap hkey
    obtain ⟨hop, hshape⟩ := FindInputs_keys c m comp map hmap key dap hkey
    refine ⟨hop, hshape, ?_⟩
    unfold IsLayoutDependentTarget
    rcases hop with h | h | h | h <;> rw [h]
  have hpair : ∀ (map : InputMap), FindInputs c m comp = Except.ok map →
      ∀ (tam : List (TensorSource × TensorTarget)) (source target : InstId),
        is_input map tam source = true → IsLayoutDependentTarget c m target = true →
        source ≠ target := by
    intro map hmap tam source target hin htarget heq
    unfold is_input at hin
    split at hin
    · rename_i dap hfind
      have := (hkeys map hmap source dap hfind).2.2
      rw [heq, htarget] at this
      exact absurd this (by simp)
    · exact absurd hin (by simp)
  refine ⟨hkeys, ?_, ?_⟩
  · intro map hmap tam source target hin htarget
    have hne := hpair map hmap tam source target hin htarget
    exact ⟨hne, fun path _ hhead hlast => secondToLast_of_ends path source target hne hhead hlast⟩
  · intro s st h call hc
    obtain ⟨inputs, hinputs, hcalls, _⟩ := FindLayoutDependentTargets_calls c m comp s st h
    obtain ⟨source, targets, target, hin, htarget, hp⟩ := hcalls call hc
    obtain ⟨hs, ht, _⟩ := prepareDependent_args c m _ inputs source targets target call.args hp
    rw [hs, ht]
    exact hpair inputs hinputs _ source target hin htarget

/-- C27, on the example run: the keys of the map of `FindInputs` are the
parameters 0, 3 and 7, none a layout dependent target; the path from the
source 7 to the batch norm 6 has two nodes; and the call of the second mode
has a source other than its target. -/
theorem C27_source_is_no_layout_dependent_target_witness :
    FindInputs exampleCollaborators exampleModule exampleComputation =
      Except.ok [(0, []), (3, []), (7, [])] ∧
    IsLayoutDependentTarget exampleCollaborators exampleModule 7 = false ∧
    ((7 : InstId) ≠ 6 ∧
      ∀ path : List InstId,
        (exampleCollaborators.graph exampleComputation).ShortestPath 7 6 = some path →
        path.head? = some 7 → path.getLast? = some 6 →
        2 ≤ path.length ∧ ∃ operand, secondToLast path = Except.ok operand) ∧
    (∀ call ∈ exampleDependent.calls, call.args.source ≠ call.args.target) :=
  ⟨by rfl,
    ((C27_source_is_no_layout_dependent_target exampleCollaborators exampleModule
      exampleComputation).1 [(0, []), (3, []), (7, [])] (by rfl) 7 [] (by rfl)).2.2,
    (C27_source_is_no_layout_dependent_target exampleCollaborators exampleModule
      exampleComputation).2.1 [(0, []), (3, []), (7, [])] (by rfl)
      exampleSensitive.state.tensor_allocation_map 7 6 (by rfl) (by rfl),
    (C27_source_is_no_layout_dependent_target exampleCollaborators exampleModule
      exampleComputation).2.2 exampleSensitive.state exampleDependent (by rfl)⟩

/-! ## The shape of a remote parameter load: claims C29 and C30 -/

/-- C29 (fails): for a remote buffer of 64-bit integers, 8 bytes an element,
the grain size `4 / 8` is 0 and `ComputePerReplicaLoadShape` divides by it:
with the shape `s64[8]` and the replication factor 2 it ends in a division by
zero. -/
theorem C29_eight_byte_type_divides_by_zero :
    ByteSizeOfPrimitiveType (Shape.array PrimitiveType.S64 [8]).element_type = Except.ok 8 ∧
    Int.tdiv 4 8 = 0 ∧
    CeilOfRatio (ElementsIn (Shape.array PrimitiveType.S64 [8])) (Int.tdiv 4 8) =
      Except.error ShapeFault.division_by_zero ∧
    ComputePerReplicaLoadShape (Shape.array PrimitiveType.S64 [8]) 2 =
      Except.error ShapeFault.division_by_zero := by
  refine ⟨by rfl, by decide, by rfl, by rfl⟩

/-- An integer in the range of the non-negative `int64` is its own value as
an `int64`. -/
theorem toInt64_of_range (x : Int) (h0 : 0 ≤ x) (h1 : x < 2 ^ 63) : toInt64 x = x := by
  have h2 : (2 : Int) ^ 63 = 9223372036854775808 := by norm_num
  unfold toInt64
  omega

/-- The rounded-up ratio is the least number whose multiple reaches the
numerator. -/
theorem ceilDiv_spec (a b : Nat) (hb : 0 < b) :
    a ≤ b * ceilDiv a b ∧ ∀ k, a ≤ b * k → ceilDiv a b ≤ k := by
  unfold ceilDiv
  constructor
  · have h := Nat.lt_mul_div_succ (a + b - 1) hb
    rw [Nat.mul_add, Nat.mul_one] at h
    omega
  · intro k hk
    apply Nat.lt_succ_iff.mp
    apply (Nat.div_lt_iff_lt_mul hb).mpr
    rw [Nat.succ_mul, Nat.mul_comm k b]
    omega

/-- `CeilOfRatio` on non-negative `int64` values is the rounded-up ratio. -/
theorem CeilOfRatio_nat (a b : Nat) (hb : 0 < b) (ha : a < 2 ^ 63) :
    CeilOfRatio (a : Int) (b : Int) = Except.ok ((ceilDiv a b : Nat) : Int) := by
  have hq1 : a / b * b ≤ a := Nat.div_mul_le_self a b
  have hq2 : a < a / b * b + b := by
    have := Nat.lt_mul_div_succ a hb
    rw [Nat.mul_add, Nat.mul_one, Nat.mul_comm] at this
    exact this
  have hb0 : (b : Int) ≠ 0 := by omega
  have hbpos : (0 : Int) < (b : Int) := by omega
  have hbneg : ¬ ((b : Int) < 0) := by omega
  have hround : Int.tdiv (a : Int) (b : Int) = ((a / b : Nat) : Int) := rfl
  have hprod : toInt64 (((a / b : Nat) : Int) * (b : Int)) = ((a / b * b : Nat) : Int) := by
    rw [← Int.natCast_mul]
    apply toInt64_of_range
    · omega
    · have : ((a / b * b : Nat) : Int) ≤ (a : Int) := by exact_mod_cast hq1
      omega
  unfold CeilOfRatio
  rw [if_neg hb0]
  simp only [hround, hprod]
  by_cases hrem : a / b * b < a
  · have hlt : ((a / b * b : Nat) : Int) < (a : Int) := by exact_mod_cast hrem
    have hceil : ceilDiv a b = a / b + 1 := by
      unfold ceilDiv
      apply Nat.div_eq_of_lt_le
      · rw [Nat.add_mul, Nat.one_mul]
        omega
      · rw [Nat.add_mul, Nat.add_mul, Nat.one_mul]
        omega
    have hsmall : a / b + 1 ≤ a := by
      have : a / b ≤ a / b * b := Nat.le_mul_of_pos_right _ hb
      omega
    have hq0 : (0 : Int) ≤ ((a / b : Nat) : Int) := Int.natCast_nonneg _
    simp only [hq0, hbpos, hlt, hbneg, decide_True, decide_False, Bool.true_and,
      Bool.false_and, Bool.or_false, if_true]
    rw [hceil, toInt64_of_range _ (by omega) (by omega)]
    simp
  · have hnlt : ¬ ((a / b * b : Nat) : Int) < (a : Int) := by
      intro h
      exact hrem (by exact_mod_cast h)
    have hceil : ceilDiv a b = a / b := by
      unfold ceilDiv
      apply Nat.div_eq_of_lt_le
      · omega
      · rw [Nat.add_mul, Nat.one_mul]
        omega
    have hsmall : a / b ≤ a := Nat.div_le_self a b
    have hq0 : (0 : Int) ≤ ((a / b : Nat) : Int) := Int.natCast_nonneg _
    simp only [hq0, hbpos, hnlt, hbneg, decide_True, decide_False, Bool.true_and,
      Bool.false_and, Bool.or_false, Bool.and_false, Bool.false_eq_true, if_false]
    rw [hceil, toInt64_of_range _ (by omega) (by omega)]
    simp

/-- The shape `ComputePerReplicaLoadShape` computes for a grain of 1, 2 or 4
elements. -/
theorem load_shape_of_grain (t : PrimitiveType) (dims : List Nat) (r N g : Nat) (bytes : Int)
    (hsize : ByteSizeOfPrimitiveType t = Except.ok bytes) (hbytes : bytes ≠ 0)
    (hgrain : Int.tdiv 4 bytes = (g : Int)) (hg : g = 1 ∨ g = 2 ∨ g = 4)
    (hN : ElementsIn (Shape.array t dims) = (N : Int)) (hbound : N < 2 ^ 63)
    (hr : 2 ≤ r) (hr64 : r < 2 ^ 63) :
    ComputePerReplicaLoadShape (Shape.array t dims) r =
      Except.ok (Shape.array t [g * ceilDiv (ceilDiv N g) r]) := by
  have hgpos : 0 < g := by omega
  have hrpos : 0 < r := by omega
  have hM := ceilDiv_spec N g hgpos
  have hP := ceilDiv_spec (ceilDiv N g) r hrpos
  have hMle : ceilDiv N g ≤ N := hM.2 N (Nat.le_mul_of_pos_left N hgpos)
  have hMval : ceilDiv N g = (N + g - 1) / g := rfl
  have hPle : ceilDiv (ceilDiv N g) r ≤ (ceilDiv N g + 1) / 2 := by
    apply hP.2
    have h2 : 2 * ((ceilDiv N g + 1) / 2) ≤ r * ((ceilDiv N g + 1) / 2) :=
      Nat.mul_le_mul_right _ hr
    omega
  have hcount : g * ceilDiv (ceilDiv N g) r < 2 ^ 63 := by
    rcases hg with hg | hg | hg <;> subst hg <;> omega
  have hbind : ∀ {α β : Type} (a : α) (f : α → Except ShapeFault β),
      (Except.ok a >>= f) = f a := fun _ _ => rfl
  have he : (Shape.array t dims).element_type = t := rfl
  unfold ComputePerReplicaLoadShape
  rw [if_neg (by omega), he, hsize, hbind, if_neg hbytes, hbind, hgrain, hN]
  beta_reduce
  rw [CeilOfRatio_nat N g hgpos hbound, hbind,
    toInt64_of_range (r : Int) (by omega) (by omega),
    CeilOfRatio_nat (ceilDiv N g) r hrpos (by omega), hbind,
    ← Int.natCast_mul, toInt64_of_range _ (by omega) (by exact_mod_cast hcount)]
  unfold MakeShape
  rw [if_pos (by
    rw [List.all_cons, List.all_nil, Bool.and_true]
    exact decide_eq_true (Int.natCast_nonneg _))]
  rfl

/-- C30 (as stated it fails): the replication factor is a `uint64`, and
`CeilOfRatio<int64>` takes it as an `int64`: the factor `2 ^ 63` is `-2 ^ 63`
there.  For a buffer of 8 single-precision elements (4 bytes, grain 1) and the
replication factor `2 ^ 63` the ratio `8 / -2 ^ 63` rounded up is 0, and
`ComputePerReplicaLoadShape` returns the shape of 0 elements: the replicas
together do not hold the buffer. -/
theorem C30_replication_factor_beyond_int64 :
    2 ≤ 2 ^ 63 ∧
    ByteSizeOfPrimitiveType (Shape.array PrimitiveType.F32 [8]).element_type = Except.ok 4 ∧
    ElementsIn (Shape.array PrimitiveType.F32 [8]) = 8 ∧
    toInt64 ((2 ^ 63 : Nat) : Int) = -9223372036854775808 ∧
    CeilOfRatio 8 (toInt64 ((2 ^ 63 : Nat) : Int)) = Except.ok 0 ∧
    ComputePerReplicaLoadShape (Shape.array PrimitiveType.F32 [8]) (2 ^ 63) =
      Except.ok (Shape.array PrimitiveType.F32 [0]) ∧
    ¬ 8 ≤ 2 ^ 63 * 0 := by
  refine ⟨by decide, by rfl, by rfl, by rfl, by rfl, by rfl, by decide⟩

/-- C30 (amended): for a remote buffer of `N` elements of a type of 1, 2 or 4
bytes (grain `g = 4 / bytes`) and a replication factor `r` with `2 ≤ r` that
is in the range of `int64`, `r < 2 ^ 63`, as `N` is, the function returns the
one-dimensional shape of `c = g * ceil(ceil(N / g) / r)` elements of that
type; `c` is a multiple of `g`, `r * c ≥ N`, and `c` is the least multiple of
`g` with `r * c ≥ N`.  Here `ceilDiv a b` is the ratio rounded up, the least
`k` with `b * k ≥ a`.  For `r < 2` the shape of the buffer is returned
unchanged. -/
theorem C30_per_replica_load_shape :
    (∀ (shape : Shape) (r : Nat), r < 2 → ComputePerReplicaLoadShape shape r = Except.ok shape) ∧
    (∀ a b : Nat, 0 < b → a ≤ b * ceilDiv a b ∧ ∀ k, a ≤ b * k → ceilDiv a b ≤ k) ∧
    (∀ (t : PrimitiveType) (dims : List Nat) (r N bytes : Nat),
      ByteSizeOfPrimitiveType t = Except.ok (bytes : Int) →
      (bytes = 1 ∨ bytes = 2 ∨ bytes = 4) →
      ElementsIn (Shape.array t dims) = (N : Int) → N < 2 ^ 63 →
      2 ≤ r → r < 2 ^ 63 →
      ComputePerReplicaLoadShape (Shape.array t dims) r =
        Except.ok (Shape.array t [4 / bytes * ceilDiv (ceilDiv N (4 / bytes)) r]) ∧
      4 / bytes ∣ 4 / bytes * ceilDiv (ceilDiv N (4 / bytes)) r ∧
      N ≤ r * (4 / bytes * ceilDiv (ceilDiv N (4 / bytes)) r) ∧
      ∀ k, 4 / bytes ∣ k → N ≤ r * k → 4 / bytes * ceilDiv (ceilDiv N (4 / bytes)) r ≤ k) := by
  refine ⟨?_, ceilDiv_spec, ?_⟩
  · intro shape r hr
    unfold ComputePerReplicaLoadShape
    rw [if_pos hr]
  · intro t dims r N bytes hsize hbytes hN hbound hr hr64
    have hg : 4 / bytes = 1 ∨ 4 / bytes = 2 ∨ 4 / bytes = 4 := by
      rcases hbytes with h | h | h <;> subst h <;> decide
    have hgpos : 0 < 4 / bytes := by omega
    have hM := ceilDiv_spec N (4 / bytes) hgpos
    have hP := ceilDiv_spec (ceilDiv N (4 / bytes)) r (by omega)
    refine ⟨?_, Dvd.intro _ rfl, ?_, ?_⟩
    · exact load_shape_of_grain t dims r N (4 / bytes) (bytes : Int) hsize (by omega) rfl hg hN
        hbound hr hr64
    · calc N ≤ 4 / bytes * ceilDiv N (4 / bytes) := hM.1
        _ ≤ 4 / bytes * (r * ceilDiv (ceilDiv N (4 / bytes)) r) :=
          Nat.mul_le_mul_left _ hP.1
        _ = r * (4 / bytes * ceilDiv (ceilDiv N (4 / bytes)) r) := Nat.mul_left_comm _ _ _
    · rintro k ⟨j, rfl⟩ hk
      apply Nat.mul_le_mul_left
      apply hP.2
      apply hM.2
      rw [Nat.mul_left_comm]
      exact hk

/-- C30 (amended), for a buffer of 7 half-precision elements (2 bytes, grain
2) and 3 replicas: 4 elements per replica; for 10 single-precision elements
(grain 1) and 4 replicas: 3 elements; and with one replica the shape is
unchanged. -/
theorem C30_per_replica_load_shape_witness :
    ComputePerReplicaLoadShape (Shape.array PrimitiveType.F16 [7]) 3 =
      Except.ok (Shape.array PrimitiveType.F16 [4]) ∧
    ComputePerReplicaLoadShape (Shape.array PrimitiveType.F32 [10]) 4 =
      Except.ok (Shape.array PrimitiveType.F32 [3]) ∧
    (∀ k, 2 ∣ k → 7 ≤ 3 * k → 4 ≤ k) ∧
    ComputePerReplicaLoadShape (Shape.array PrimitiveType.F16 [7]) 1 =
      Except.ok (Shape.array PrimitiveType.F16 [7]) :=
  ⟨(C30_per_replica_load_shape.2.2 PrimitiveType.F16 [7] 3 7 2 (by rfl)
      (Or.inr (Or.inl rfl)) (by rfl) (by decide) (by decide) (by decide)).1,
    (C30_per_replica_load_shape.2.2 PrimitiveType.F32 [10] 4 10 4 (by rfl)
      (Or.inr (Or.inr rfl)) (by rfl) (by decide) (by decide) (by decide)).1,
    (C30_per_replica_load_shape.2.2 PrimitiveType.F16 [7] 3 7 2 (by rfl)
      (Or.inr (Or.inl rfl)) (by rfl) (by decide) (by decide) (by decide)).2.2.2,
    C30_per_replica_load_shape.1 (Shape.array PrimitiveType.F16 [7]) 1 (by decide)⟩

/-! ## Lemmas on the calls the two modes make

Both modes call `CreateForwardAllocationTarget` with `other_targets` the list
`find_all_targets` has returned for the consumers of `source`, and `target` an
element of it. -/

/-- A call, with a target that `source` does not reach, that returns false
after it has added an edge `target → sibling`, and leaves it in the graph.
Source 0, layout producer 1, target 2, siblings 3 and 4; the graph is acyclic,
the oracle exact, the producer not reachable from the source, and no one of 2,
3, 4 is reachable from another; but 2 feeds the producer and is not fed by the
source.  The call adds 1 → 0 and 2 → 3, finds 4 reachable from 2 (through
1 → 0) and returns false; the rollback has recorded `target` instead of the
sibling (line 404), so the edge 2 → 3 stays, and the oracle now answers that 3
is reachable from 2. -/
theorem direct_call_rollback_leaves_sibling_edge :
    Acyclic (allEdges (HloReachabilityMap.Build dataTargetFeedsProducer []) exampleState.control) ∧
    Exact (HloReachabilityMap.Build dataTargetFeedsProducer []) exampleState.control ∧
    (HloReachabilityMap.Build dataTargetFeedsProducer []).IsReachable 0 1 = false ∧
    (∀ x ∈ [2, 3, 4],
      is_independent x [2, 3, 4] (HloReachabilityMap.Build dataTargetFeedsProducer []) = true) ∧
    (CreateForwardAllocationTarget exampleCollaborators plainModule
      (HloReachabilityMap.Build dataTargetFeedsProducer []) exampleState
      0 2 0 1 0 [2, 3, 4] [] [] []).created = false ∧
    exampleState.control = [] ∧
    (CreateForwardAllocationTarget exampleCollaborators plainModule
      (HloReachabilityMap.Build dataTargetFeedsProducer []) exampleState
      0 2 0 1 0 [2, 3, 4] [] [] []).state.control = [(2, 3)] ∧
    (HloReachabilityMap.Build dataTargetFeedsProducer []).IsReachable 2 3 = false ∧
    (CreateForwardAllocationTarget exampleCollaborators plainModule
      (HloReachabilityMap.Build dataTargetFeedsProducer []) exampleState
      0 2 0 1 0 [2, 3, 4] [] [] []).reachability_map.IsReachable 2 3 = true := by
  refine ⟨(acyclicCheck_iff _).mp (by decide), Build_exact _ _, ?_, ?_, ?_, ?_, ?_, ?_, ?_⟩ <;>
    decide

/-- A call, with a sibling that `source` does not reach, that returns true and
leaves a cycle.  Source 0, layout producer 1, target 2, sibling 3; the graph is
acyclic, the oracle exact, the producer not reachable from the source, and
neither of 2, 3 is reachable from the other; but 3 feeds the producer and is
not fed by the source.  Once 1 → 0 is added, 2 is reachable from 3; the loop
asks whether 3 is reachable from 2 (line 401), finds it is not, and adds
2 → 3, which closes the cycle 2 → 3 → 1 → 0 → 2. -/
theorem direct_call_can_close_cycle :
    Acyclic (allEdges (HloReachabilityMap.Build dataSiblingFeedsProducer []) exampleState.control) ∧
    Exact (HloReachabilityMap.Build dataSiblingFeedsProducer []) exampleState.control ∧
    (HloReachabilityMap.Build dataSiblingFeedsProducer []).IsReachable 0 1 = false ∧
    (∀ x ∈ [2, 3],
      is_independent x [2, 3] (HloReachabilityMap.Build dataSiblingFeedsProducer []) = true) ∧
    (CreateForwardAllocationTarget exampleCollaborators plainModule
      (HloReachabilityMap.Build dataSiblingFeedsProducer []) exampleState
      0 2 0 1 0 [2, 3] [] [] []).created = true ∧
    (CreateForwardAllocationTarget exampleCollaborators plainModule
      (HloReachabilityMap.Build dataSiblingFeedsProducer []) exampleState
      0 2 0 1 0 [2, 3] [] [] []).state.control = [(1, 0), (2, 3)] ∧
    ¬ Acyclic (allEdges
      (CreateForwardAllocationTarget exampleCollaborators plainModule
        (HloReachabilityMap.Build dataSiblingFeedsProducer []) exampleState
        0 2 0 1 0 [2, 3] [] [] []).reachability_map
      (CreateForwardAllocationTarget exampleCollaborators plainModule
        (HloReachabilityMap.Build dataSiblingFeedsProducer []) exampleState
        0 2 0 1 0 [2, 3] [] [] []).state.control) := by
  refine ⟨(acyclicCheck_iff _).mp (by decide), Build_exact _ _, by decide, by decide, by decide,
    by decide, ?_⟩
  intro h
  have := (acyclicCheck_iff _).mpr h
  revert this
  decide

/-- A call, with a target that `source` does not reach, that fails at a
sibling already reachable from `target`.  Source 0, layout producer 1, target
2, which feeds the producer and is not fed by the source, and the only sibling
3, which the source feeds; the producer is not reachable from the source.  Once
1 → 0 is added, 3 is reachable from 2; the loop stops there and the call
returns false. -/
theorem direct_call_fails_at_ordered_sibling :
    (HloReachabilityMap.Build [(2, 1), (0, 3)] []).IsReachable 0 1 = false ∧
    ((HloReachabilityMap.Build [(2, 1), (0, 3)] []).UpdateReachabilityThroughInstruction
      (AddControlDependencyTo exampleState.control 1 0) 0).IsReachable 2 3 = true ∧
    (CreateForwardAllocationTarget exampleCollaborators plainModule
      (HloReachabilityMap.Build [(2, 1), (0, 3)] []) exampleState
      0 2 0 1 0 [2, 3] [] [] []).created = false := by
  refine ⟨?_, ?_, ?_⟩ <;> decide

/-- A call, with a sibling that `source` does not reach, that orders the
sibling after a target reachable from it.  Source 0, layout producer 1, target
2, siblings 4 and 3, where 3 feeds the producer and is not fed by the source;
the producer is not reachable from the source.  When the loop comes to 3
(after 1 → 0 and 2 → 4 have been added) it is not reachable from 2 while 2 is
reachable from 3; the call adds 2 → 3, returns true, and the edge stays in the
graph. -/
theorem direct_call_orders_sibling_before_target :
    (HloReachabilityMap.Build dataSiblingFeedsProducer3 []).IsReachable 0 1 = false ∧
    ((HloReachabilityMap.Build dataSiblingFeedsProducer3 []).UpdateReachabilityThroughInstruction
      [(1, 0), (2, 4)] 4).IsReachable 2 3 = false ∧
    ((HloReachabilityMap.Build dataSiblingFeedsProducer3 []).UpdateReachabilityThroughInstruction
      [(1, 0), (2, 4)] 4).IsReachable 3 2 = true ∧
    (CreateForwardAllocationTarget exampleCollaborators plainModule
      (HloReachabilityMap.Build dataSiblingFeedsProducer3 []) exampleState
      0 2 0 1 0 [2, 4, 3] [] [] []).created = true ∧
    (CreateForwardAllocationTarget exampleCollaborators plainModule
      (HloReachabilityMap.Build dataSiblingFeedsProducer3 []) exampleState
      0 2 0 1 0 [2, 4, 3] [] [] []).state.control = [(1, 0), (2, 4), (2, 3)] := by
  refine ⟨?_, ?_, ?_, ?_, ?_⟩ <;> decide

end ForwardAllocation
